import Mathlib

/-!
# ancientt: planning and execution pipeline

A shallow embedding of the iperf3 tester's `Plan`
(`testers/iperf3/iperf3.go`), of the Ansible runner
(`runners/ansible/ansible.go`) and of the Kubernetes runner
(`runners/kubernetes/kubernetes.go`), followed by theorems about them.

Conventions of the embedding.

* A Go `map[string]V` is a list of key/value entries.  The order in which a
  `range` statement visits the entries is not fixed by the language, so every
  function that ranges over a map takes a `RangeOrder`, which chooses a
  rearrangement of the entries for each executed `range` statement.
* A pointer that may be nil is an `Option`.  A function that dereferences it
  returns `none` when the source would panic with a nil dereference.
* External effects (remote commands, Kubernetes API calls, the clock) are
  answered by a world record indexed by the position of the call in the
  plan; the calls a function makes are recorded as a list of `Event`s.
* Goroutines are sequences of events.  The client goroutines of a server task
  run one after the other in sequential mode and are interleaved by a
  schedule, which the world supplies, in parallel mode.  Log lines and the
  fixed waits (`time.Sleep` of 250 ms and of 3 s) leave no event.
-/

namespace Ancientt

/-! ## Data model (`testers` package, as used by the code under study) -/

/-- Go errors are represented by their message. -/
abbrev Err := String

/-- The record `testers.IPAddresses`. -/
structure IPAddresses where
  IPv4 : List String
  IPv6 : List String
deriving DecidableEq, Repr

/-- The record `testers.Host`.  `Addresses` is a pointer in the source. -/
structure Host where
  Name : String
  Labels : List (String × String)
  Addresses : Option IPAddresses
deriving DecidableEq, Repr

/-- The record `testers.Ports`. -/
structure Ports where
  TCP : List Int
  UDP : List Int
deriving DecidableEq, Repr

/-- A Go `map[string]V`, as its list of entries. -/
abbrev GoMap (V : Type) := List (String × V)

/-- Go's `m[k]` on a counter map: the zero value when the key is absent. -/
def GoMap.count (m : GoMap Nat) (k : String) : Nat :=
  match m.find? (fun e => e.1 == k) with
  | some e => e.2
  | none => 0

/-- The comma-ok lookup `_, ok := m[k]`. -/
def GoMap.has {V : Type} (m : GoMap V) (k : String) : Bool :=
  m.any (fun e => e.1 == k)

/-- The lookup `v, ok := m[k]`. -/
def GoMap.get? {V : Type} (m : GoMap V) (k : String) : Option V :=
  (m.find? (fun e => e.1 == k)).map Prod.snd

/-- The assignment `m[k] = v`. -/
def GoMap.set {V : Type} (m : GoMap V) (k : String) (v : V) : GoMap V :=
  if m.has k then m.map (fun e => if e.1 == k then (k, v) else e) else m ++ [(k, v)]

/-- The record `testers.StatusHosts`. -/
structure StatusHosts where
  Servers : GoMap Nat
  Clients : GoMap Nat
deriving DecidableEq, Repr

/-- The record `testers.Status`; an error value may be nil. -/
structure Status where
  SuccessfulHosts : StatusHosts
  FailedHosts : StatusHosts
  Errors : GoMap (List (Option Err))
deriving DecidableEq, Repr

/-- The Status literal of `Plan` (iperf3.go lines 74-84): all maps empty. -/
def Status.fresh : Status :=
  { SuccessfulHosts := { Servers := [], Clients := [] }
    FailedHosts := { Servers := [], Clients := [] }
    Errors := [] }

/-- The record `testers.Task`.  `Host` and `Status` are pointers, `SubTasks`
is a slice of task pointers, `Sleep` is a `time.Duration` (nanoseconds). -/
inductive Task where
  | mk (Host : Option Host) (Command : String) (Args : List String) (Ports : Ports)
      (SubTasks : List Task) (Sleep : Int) (Status : Option Status)

/-- Field `Host`. -/
def Task.Host : Task → Option Host
  | .mk h _ _ _ _ _ _ => h

/-- Field `Command`. -/
def Task.Command : Task → String
  | .mk _ c _ _ _ _ _ => c

/-- Field `Args`. -/
def Task.Args : Task → List String
  | .mk _ _ a _ _ _ _ => a

/-- Field `Ports`. -/
def Task.Ports : Task → Ports
  | .mk _ _ _ p _ _ _ => p

/-- Field `SubTasks`. -/
def Task.SubTasks : Task → List Task
  | .mk _ _ _ _ s _ _ => s

/-- Field `Sleep`. -/
def Task.Sleep : Task → Int
  | .mk _ _ _ _ _ d _ => d

/-- Field `Status`. -/
def Task.Status : Task → Option Status
  | .mk _ _ _ _ _ _ st => st

/-- The record `testers.Hosts`. -/
structure Hosts where
  Clients : GoMap Host
  Servers : GoMap Host
deriving DecidableEq, Repr

/-- The record `testers.Environment`. -/
structure Environment where
  Hosts : Hosts
deriving DecidableEq, Repr

/-- The record `config.RunOptions`, with the fields the code reads:
`Rounds` (an `int`, used as a slice length), `Interval` (a duration), `Mode`,
`ParallelCount` and the pointer `ContinueOnError`. -/
structure RunOptions where
  Rounds : Nat
  Interval : Int
  Mode : String
  ParallelCount : Int
  ContinueOnError : Option Bool
deriving DecidableEq, Repr

/-- The record `config.IPerfAdditionalFlags` as read by iperf3.go. -/
structure IPerfAdditionalFlags where
  Clients : List String
  Server : List String
deriving DecidableEq, Repr

/-- The record `config.IPerf3` as read by iperf3.go.  `Duration` and
`Interval` are pointers which the source dereferences without a check; the
embedding carries the values they point to. -/
structure IPerf3Config where
  AdditionalFlags : IPerfAdditionalFlags
  UDP : Option Bool
  Duration : Int
  Interval : Int
deriving DecidableEq, Repr

/-- The record `config.Test`, with the fields `Plan` reads (`Type_` is the
field `Type`). -/
structure Test where
  Type_ : String
  RunOptions : RunOptions
deriving DecidableEq, Repr

/-- The record `testers.Plan`.  `TestStartTime` is a Unix time. -/
structure Plan where
  Tester : String
  TestStartTime : Int
  AffectedServers : GoMap Host
  Commands : List (List Task)
  RunOptions : RunOptions

/-- The order in which the `range` statements of `Plan` visit the entries of
the two host maps: `servers i` for the range of round `i` over
`env.Hosts.Servers`, `clients i k` for the range over `env.Hosts.Clients`
executed for the `k`-th server visited in round `i`.  Every order is a
rearrangement of the entries. -/
structure RangeOrder where
  servers : Nat → GoMap Host → GoMap Host
  clients : Nat → Nat → GoMap Host → GoMap Host
  servers_perm : ∀ i m, (servers i m).Perm m
  clients_perm : ∀ i k m, (clients i k m).Perm m

/-- The order that visits the entries as they are listed. -/
def RangeOrder.listed : RangeOrder :=
  { servers := fun _ m => m
    clients := fun _ _ m => m
    servers_perm := fun _ _ => List.Perm.refl _
    clients_perm := fun _ _ _ => List.Perm.refl _ }

/-- The order that visits the entries from the last listed to the first. -/
def RangeOrder.backwards : RangeOrder :=
  { servers := fun _ m => m.reverse
    clients := fun _ _ m => m.reverse
    servers_perm := fun _ m => List.reverse_perm m
    clients_perm := fun _ _ m => List.reverse_perm m }

/-! ## The iperf3 tester (`testers/iperf3/iperf3.go`) -/

/-- The ports chosen at lines 60-69. -/
def iperf3Ports (cfg : IPerf3Config) : Ports :=
  if cfg.UDP = some true then { TCP := [], UDP := [5601] } else { TCP := [5601], UDP := [] }

/-- Function `buildIPerf3ServerCommand` (lines 127-145). -/
def buildIPerf3ServerCommand (cfg : IPerf3Config) (_server : Host) : String × List String :=
  let cmd := "iperf3"
  let args := ["--json", "--port=\x7b\x7b .ServerPort \x7d\x7d", "--server"]
  let args := if cfg.UDP = some true then args ++ ["--udp"] else args
  let args := args ++ cfg.AdditionalFlags.Server
  (cmd, args)

/-- Function `buildIPerf3ClientCommand` (lines 148-168); `%d` prints a decimal
integer. -/
def buildIPerf3ClientCommand (cfg : IPerf3Config) (_server _client : Host) :
    String × List String :=
  let cmd := "iperf3"
  let args := ["--time=" ++ toString cfg.Duration, "--interval=" ++ toString cfg.Interval,
    "--json", "--port=\x7b\x7b .ServerPort \x7d\x7d",
    "--client=\x7b\x7b .ServerAddressV4 \x7d\x7d"]
  let args := if cfg.UDP = some true then args ++ ["--udp"] else args
  let args := args ++ cfg.AdditionalFlags.Clients
  (cmd, args)

/-- The statement `if _, ok := aff[h.Name]; !ok { aff[h.Name] = h }`
(lines 87-89 and 99-101). -/
def addAffected (aff : GoMap Host) (h : Host) : GoMap Host :=
  if !aff.has h.Name then aff.set h.Name h else aff

/-- The client task appended at lines 104-110. -/
def clientTask (cfg : IPerf3Config) (server client : Host) : Task :=
  let c := buildIPerf3ClientCommand cfg server client
  Task.mk (some client) c.1 c.2 (iperf3Ports cfg) [] 0 none

/-- The loop over the clients (lines 97-111), on the visiting order `cs`:
it threads `plan.AffectedServers` and `round.SubTasks`. -/
def planClients (cfg : IPerf3Config) (server : Host) :
    GoMap Host → GoMap Host → List Task → GoMap Host × List Task
  | [], aff, subs => (aff, subs)
  | c :: cs, aff, subs =>
    planClients cfg server cs (addAffected aff c.2) (subs ++ [clientTask cfg server c.2])

/-- The loop over the servers (lines 72-120) for round `i`, on the visiting
order `ss`, with `k` the number of servers already visited: it threads
`plan.AffectedServers` and `plan.Commands[i]`. -/
def planServers (cfg : IPerf3Config) (σ : RangeOrder) (env : Environment) (test : Test)
    (i : Nat) : GoMap Host → Nat → GoMap Host → List Task → GoMap Host × List Task
  | [], _, aff, cmds => (aff, cmds)
  | s :: ss, k, aff, cmds =>
    let server := s.2
    let aff := addAffected aff server
    let c := buildIPerf3ServerCommand cfg server
    let r := planClients cfg server (σ.clients i k env.Hosts.Clients) aff []
    let round := Task.mk (some server) c.1 c.2 (iperf3Ports cfg) r.2 0 (some Status.fresh)
    let cmds := cmds ++ [round]
    let cmds :=
      if test.RunOptions.Interval ≠ 0 ∧ i ≠ test.RunOptions.Rounds - 1 then
        cmds ++ [Task.mk none "" [] { TCP := [], UDP := [] } [] test.RunOptions.Interval none]
      else cmds
    planServers cfg σ env test i ss (k + 1) r.1 cmds

/-- The outer loop (lines 71-121) from round `i` on, `n` rounds remaining: it
threads `plan.AffectedServers` and returns the rounds `i`, `i+1`, ... -/
def planRounds (cfg : IPerf3Config) (σ : RangeOrder) (env : Environment) (test : Test) :
    Nat → Nat → GoMap Host → GoMap Host × List (List Task)
  | 0, _, aff => (aff, [])
  | n + 1, i, aff =>
    let r := planServers cfg σ env test i (σ.servers i env.Hosts.Servers) 0 aff []
    let rest := planRounds cfg σ env test n (i + 1) r.1
    (rest.1, r.2 :: rest.2)

/-- Method `IPerf3.Plan` (lines 53-124).  The source leaves `TestStartTime`
and `RunOptions` of the plan at their zero values. -/
def IPerf3.Plan (cfg : IPerf3Config) (σ : RangeOrder) (env : Environment) (test : Test) :
    Except Err Plan :=
  let r := planRounds cfg σ env test test.RunOptions.Rounds 0 []
  .ok { Tester := test.Type_
        TestStartTime := 0
        AffectedServers := r.1
        Commands := r.2
        RunOptions := { Rounds := 0, Interval := 0, Mode := "", ParallelCount := 0,
                        ContinueOnError := none } }

/-! ### Descriptions of the output of `Plan`, used to state the theorems -/

/-- The server task that the body of the server loop builds for the `k`-th
server visited in round `i`. -/
def serverTaskOf (cfg : IPerf3Config) (σ : RangeOrder) (env : Environment) (i k : Nat)
    (server : Host) : Task :=
  Task.mk (some server) (buildIPerf3ServerCommand cfg server).1
    (buildIPerf3ServerCommand cfg server).2 (iperf3Ports cfg)
    ((σ.clients i k env.Hosts.Clients).map (fun c => clientTask cfg server c.2)) 0
    (some Status.fresh)

/-- The Sleep-only tasks that follow a server task of round `i`: one when the
interval is set and the round is not the last, none otherwise. -/
def sleepAfter (test : Test) (i : Nat) : List Task :=
  if test.RunOptions.Interval ≠ 0 ∧ i ≠ test.RunOptions.Rounds - 1 then
    [Task.mk none "" [] { TCP := [], UDP := [] } [] test.RunOptions.Interval none]
  else []

/-- The tasks of round `i` for the servers `ss`, visited from position `k`. -/
def roundOf (cfg : IPerf3Config) (σ : RangeOrder) (env : Environment) (test : Test) (i : Nat) :
    Nat → GoMap Host → List Task
  | _, [] => []
  | k, s :: ss =>
    serverTaskOf cfg σ env i k s.2 :: (sleepAfter test i ++ roundOf cfg σ env test i (k + 1) ss)

/-- The rounds `i`, `i+1`, ..., `i+n-1`. -/
def roundsOf (cfg : IPerf3Config) (σ : RangeOrder) (env : Environment) (test : Test) :
    Nat → Nat → List (List Task)
  | 0, _ => []
  | n + 1, i =>
    roundOf cfg σ env test i 0 (σ.servers i env.Hosts.Servers) :: roundsOf cfg σ env test n (i + 1)

/-- The hosts of the tasks of a list that have one, in order. -/
def taskHosts (ts : List Task) : List Host :=
  ts.filterMap Task.Host

/-- The tasks of a round that are not Sleep-only: the test `task.Sleep != 0`
of both runners' `Execute`. -/
def serverTasks (ts : List Task) : List Task :=
  ts.filter (fun t => t.Sleep == 0)

/-- Two tasks agree in every field, their SubTasks up to the order. -/
def Task.sameUpToOrder (a b : Task) : Prop :=
  a.Host = b.Host ∧ a.Command = b.Command ∧ a.Args = b.Args ∧ a.Ports = b.Ports ∧
    a.Sleep = b.Sleep ∧ a.Status = b.Status ∧ a.SubTasks.Perm b.SubTasks

/-- Two rounds hold the same tasks up to the order of the tasks and, within
every task, of its SubTasks. -/
def roundsAgree (r₁ r₂ : List Task) : Prop :=
  ∃ l, l.Perm r₁ ∧ List.Forall₂ Task.sameUpToOrder l r₂

/-! ## Command templating (`pkg/cmdtemplate/templater.go`) -/

/-- Raw command output. -/
abbrev Bytes := String

/-- The record `cmdtemplate.Variables`. -/
structure Variables where
  ServerAddressV4 : String
  ServerAddressV6 : String
  ServerPort : Int
deriving DecidableEq, Repr

/-- The result of `templateString` on a string and the variables: the
rendering by Go's `text/template`, a library outside the repository. -/
abbrev Renderer := String → Variables → Except Err String

/-- The loop of `Template` over the args (lines 40-46): the first failing arg
returns its error, otherwise the rendered args are collected in order. -/
def templateArgs (render : Renderer) (vars : Variables) :
    List String → List String → Except Err (List String)
  | [], templatedArgs => .ok templatedArgs
  | arg :: rest, templatedArgs =>
    match render arg vars with
    | .error e => .error e
    | .ok a => templateArgs render vars rest (templatedArgs ++ [a])

/-- Function `Template` (lines 31-49).  It writes the task in place, so the
task as it is left is returned next to the error: the assignment of line 35
stores the result of `templateString` in `Command` even when that result is
the empty string of a failure, and `Args` is replaced only at line 47. -/
def Template (render : Renderer) (task : Task) (vars : Variables) : Task × Option Err :=
  match task with
  | .mk h c args p subs d st =>
    match render c vars with
    | .error e => (.mk h "" args p subs d st, some e)
    | .ok c' =>
      match templateArgs render vars args [] with
      | .error e => (.mk h c' args p subs d st, some e)
      | .ok args' => (.mk h c' args' p subs d st, none)

/-! ### The rendering of `templateString` (lines 52-63)

`templateString` hands the string to Go's `text/template` with the variables
as data.  The rendering is given here for the templates the repository writes:
text and actions that name one field, as in `{{ .ServerPort }}`.  A template
is read from the left: the text before the first `{{` is copied, the action
up to the next `}}` is evaluated, and the rest of the string is rendered in
the same way.  From the first action on that is not of this form (a pipeline,
a function call, a trim marker, a comment, a control structure) the result is
whatever `text/template` yields for that remainder; it is supplied from
outside. -/

/-- The split of a string at the first occurrence of the two characters `a`
and `b` in a row: the text before it and the text after it. -/
def splitAt2 (a b : Char) : List Char → Option (List Char × List Char)
  | [] => none
  | [_] => none
  | c :: d :: rest =>
    if c = a ∧ d = b then some ([], rest)
    else (splitAt2 a b (d :: rest)).map (fun r => (c :: r.1, r.2))

/-- The characters `text/template` skips as space inside an action. -/
def isActionSpace (c : Char) : Bool :=
  c == ' ' || c == '\t' || c == '\r' || c == '\n'

/-- The name of a field: a letter or underscore followed by letters, digits
and underscores. -/
def isFieldName (name : List Char) : Bool :=
  match name with
  | [] => false
  | c :: cs => (c.isAlpha || c == '_') && cs.all (fun x => x.isAlphanum || x == '_')

/-- An action body without the space around it. -/
def trimAction (body : List Char) : List Char :=
  ((body.dropWhile isActionSpace).reverse.dropWhile isActionSpace).reverse

/-- The field an action names, when the action is a dot followed by a field
name and nothing else. -/
def fieldRef? (body : List Char) : Option (List Char) :=
  match trimAction body with
  | '.' :: name => if isFieldName name then some name else none
  | _ => none

/-- The evaluation of the field `name` on a value of `cmdtemplate.Variables`,
printed as `text/template` prints it: the three fields of the struct exist,
any other name is an error. -/
def Variables.field (vars : Variables) (name : String) : Except Err String :=
  if name = "ServerAddressV4" then .ok vars.ServerAddressV4
  else if name = "ServerAddressV6" then .ok vars.ServerAddressV6
  else if name = "ServerPort" then .ok (toString vars.ServerPort)
  else .error ("template: main: can\x27t evaluate field " ++ name ++
    " in type cmdtemplate.Variables")

/-- What `text/template` yields for a template that leaves the form given
here. -/
abbrev OtherSyntax := String → Variables → Except Err String

/-- The rendering of a template, read from the left; `fuel` bounds the number
of actions and is not used up when it exceeds the length of the string
(`renderChars_fuel`). -/
def renderChars (other : OtherSyntax) (vars : Variables) :
    Nat → List Char → Except Err (List Char)
  | 0, s => .ok s
  | fuel + 1, s =>
    match splitAt2 '{' '{' s with
    | none => .ok s
    | some (text, afterOpen) =>
      match splitAt2 '}' '}' afterOpen with
      | none => .error "template: main: unclosed action"
      | some (body, rest) =>
        match fieldRef? body with
        | none =>
          match other (String.mk s) vars with
          | .error err => .error err
          | .ok out => .ok out.toList
        | some name =>
          match vars.field (String.mk name) with
          | .error err => .error err
          | .ok value =>
            match renderChars other vars fuel rest with
            | .error err => .error err
            | .ok out => .ok (text ++ value.toList ++ out)

/-- Function `templateString` (lines 52-63). -/
def templateString (other : OtherSyntax) : Renderer :=
  fun input vars =>
    match renderChars other vars (input.length + 1) input.toList with
    | .error err => .error err
    | .ok out => .ok (String.mk out)

/-- What an arg of a planned iperf3 task becomes when it is rendered with
the server port 5601 and the server address `a`. -/
def renderedArg (a : String) (arg : String) : String :=
  if arg = "--port=\x7b\x7b .ServerPort \x7d\x7d" then "--port=5601"
  else if arg = "--client=\x7b\x7b .ServerAddressV4 \x7d\x7d" then "--client=" ++ a
  else arg

/-- The string is free of template syntax: `{{` does not occur in it. -/
def noAction (s : String) : Prop :=
  ¬ ['{', '{'] <:+: s.toList

/-- The text holds an action that names the field `name` and nothing else,
and every action before it names a field and nothing else as well: `here` when
it is the first action of the text, `later` when an action naming the field
`n` comes first. -/
inductive RefersTo (name : List Char) : List Char → Prop
  | here (text ws₁ ws₂ rest : List Char) :
      ¬ ['{', '{'] <:+: text ++ ['{'] →
      (∀ c ∈ ws₁, isActionSpace c = true) → (∀ c ∈ ws₂, isActionSpace c = true) →
      isFieldName name = true →
      RefersTo name (text ++ '{' :: '{' :: (ws₁ ++ '.' :: name ++ ws₂) ++ '}' :: '}' :: rest)
  | later (text ws₁ ws₂ n rest : List Char) :
      ¬ ['{', '{'] <:+: text ++ ['{'] →
      (∀ c ∈ ws₁, isActionSpace c = true) → (∀ c ∈ ws₂, isActionSpace c = true) →
      isFieldName n = true → RefersTo name rest →
      RefersTo name (text ++ '{' :: '{' :: (ws₁ ++ '.' :: n ++ ws₂) ++ '}' :: '}' :: rest)

/-- The string references the field `name` in the sense of `RefersTo`. -/
def refersToField (s : String) (name : String) : Prop :=
  RefersTo name.toList s.toList

/-- The branch of a condition that is not executed: `text/template` parses it
and writes nothing for it.  `skipBranch` reads a branch made of text and of
actions that name one field each up to its `{{ end }}` and gives the text
behind the `{{ end }}`; it gives nothing when the branch holds an action of
another form or has no `{{ end }}`. -/
def skipBranch : Nat → List Char → Option (List Char)
  | 0, _ => none
  | fuel + 1, s =>
    match splitAt2 '{' '{' s with
    | none => none
    | some (_, afterOpen) =>
      match splitAt2 '}' '}' afterOpen with
      | none => none
      | some (body, rest) =>
        if trimAction body = "end".toList then some rest
        else
          match fieldRef? body with
          | none => none
          | some _ => skipBranch fuel rest

/-- What `text/template` yields for a template whose first action that does
not name a field is `{{ if false }}`, when the branch up to `{{ end }}` is
made of text and of actions that name one field each: the condition is the
constant `false`, so the text before the action is copied, the branch is
skipped without being executed, and the text behind `{{ end }}` is rendered.
For every other template the result is `beyond`. -/
def conditionalSyntax (beyond : OtherSyntax) : OtherSyntax :=
  fun input vars =>
    match splitAt2 '{' '{' input.toList with
    | none => beyond input vars
    | some (text, afterOpen) =>
      match splitAt2 '}' '}' afterOpen with
      | none => beyond input vars
      | some (body, rest) =>
        if trimAction body = "if false".toList then
          match skipBranch (rest.length + 1) rest with
          | none => beyond input vars
          | some after =>
            match renderChars beyond vars (after.length + 1) after with
            | .error err => .error err
            | .ok out => .ok (String.mk (text ++ out))
        else beyond input vars

/-! ### The output cleaner of the Ansible runner (ansible.go lines 45-48, 476-480)

`cleanAnsibleOutput` applies two regular expressions of Go's `regexp` package
with `ReplaceAll`.  The expressions are given as syntax trees and matched by
backtracking, which finds the match `regexp` reports: the leftmost one and,
among the matches that start there, the one preferred by the order of the
alternatives and by the greedy star.  The text is a list of characters; the
literals of the two expressions are ASCII, and `.` under the flag `s` stands
for any one character. -/

/-- The syntax of the regular expressions in use: the empty expression, a
literal character, `.` under the flag `s`, `^` and `$` under the flag `m`,
concatenation, alternation and the greedy star. -/
inductive Regex where
  | empty
  | lit (c : Char)
  | any
  | bol
  | eol
  | seq (a b : Regex)
  | alt (a b : Regex)
  | star (a : Regex)
deriving Repr

/-- What is done at a position of the text: the character before it (none at
the start of the text) and the text from it on give, when the rest of the
expression matches there, the character before the end of the match and the
text after the match. -/
abbrev Cont := Option Char → List Char → Option (Option Char × List Char)

/-- The greedy star of the matcher `m`: one more iteration that consumes text
is tried first, then the rest of the expression. -/
def starLoop (m : Cont → Cont) (k : Cont) : Nat → Cont
  | 0, p, xs => k p xs
  | n + 1, p, xs =>
    match m (fun q ys => if ys.length < xs.length then starLoop m k n q ys else none) p xs with
    | some r => some r
    | none => k p xs

/-- The backtracking matcher: `matchK r k` matches `r` at a position and goes
on with `k` behind it. -/
def matchK : Regex → Cont → Cont
  | .empty, k => k
  | .lit c, k => fun _ xs =>
    match xs with
    | [] => none
    | x :: rest => if x = c then k (some x) rest else none
  | .any, k => fun _ xs =>
    match xs with
    | [] => none
    | x :: rest => k (some x) rest
  | .bol, k => fun p xs => if p = none ∨ p = some '\n' then k p xs else none
  | .eol, k => fun p xs =>
    match xs with
    | [] => k p xs
    | x :: _ => if x = '\n' then k p xs else none
  | .seq a b, k => matchK a (matchK b k)
  | .alt a b, k => fun p xs =>
    match matchK a k p xs with
    | some r => some r
    | none => matchK b k p xs
  | .star a, k => fun p xs => starLoop (matchK a) k xs.length p xs

/-- The match of `r` that starts at the position, if there is one. -/
def matchAt (r : Regex) : Cont :=
  matchK r (fun p xs => some (p, xs))

/-- The loop of `Regexp.ReplaceAll` from the position on, for the matcher `m`
of the expression and a replacement without `$`: the text before a match is
copied, the match is replaced, and the search goes on behind it.  A match of
the empty string right behind another match is not replaced, and the search
always moves on by a character.  `afterMatch` says that the previous match
ends at the position. -/
def replaceAll (m : Cont) (repl : List Char) : Nat → Bool → Option Char → List Char → List Char
  | 0, _, _, xs => xs
  | fuel + 1, afterMatch, p, xs =>
    match m p xs with
    | some (q, rest) =>
      if rest.length < xs.length then repl ++ replaceAll m repl fuel true q rest
      else
        let ins := if afterMatch then [] else repl
        match xs with
        | [] => ins
        | x :: xs' => ins ++ x :: replaceAll m repl fuel false (some x) xs'
    | none =>
      match xs with
      | [] => []
      | x :: xs' => x :: replaceAll m repl fuel false (some x) xs'

/-- Method `Regexp.ReplaceAll` on a whole text; the loop runs at most once
per character and once at the end of the text. -/
def Regex.ReplaceAll (r : Regex) (src repl : List Char) : List Char :=
  replaceAll (matchAt r) repl (src.length + 1) false none src

/-- The expression of a literal string. -/
def Regex.lits : List Char → Regex
  | [] => .empty
  | c :: cs => .seq (.lit c) (Regex.lits cs)

/-- The first open marker, `=> {`. -/
def openArrow : List Char := ['=', '>', ' ', '{']

/-- The second open marker: ` >>`, a line end, `{`. -/
def openShell : List Char := [' ', '>', '>', '\n', '{']

/-- Variable `jsonHeadCleanRegex` (line 46). -/
def jsonHeadCleanRegex : Regex :=
  .seq .bol (.seq (.star .any)
    (.alt (Regex.lits openArrow)
      (.seq (Regex.lits [' ', '>', '>']) (.seq .eol (Regex.lits ['\n', '{'])))))

/-- Variable `jsonTailCleanRegex` (line 47). -/
def jsonTailCleanRegex : Regex :=
  .seq .bol (.seq (.lit '}') (.star .any))

/-- Function `cleanAnsibleOutput` (lines 476-480), on the characters. -/
def cleanChars (input : List Char) : List Char :=
  jsonTailCleanRegex.ReplaceAll (jsonHeadCleanRegex.ReplaceAll input ['{']) ['}']

/-- Function `cleanAnsibleOutput` (lines 476-480). -/
def cleanAnsibleOutput (input : Bytes) : Bytes :=
  String.mk (cleanChars input.toList)

/-! ### Descriptions of the cleaner, used to state and prove the theorems -/

/-- The text behind the prefix `m`, when the text starts with `m`. -/
def stripPrefix : List Char → List Char → Option (List Char)
  | [], xs => some xs
  | _ :: _, [] => none
  | c :: cs, x :: xs => if x = c then stripPrefix cs xs else none

/-- The character before the position behind the literal string `s`, read
from a position that follows `p`. -/
def lastOf (p : Option Char) : List Char → Option Char
  | [] => p
  | c :: cs => lastOf (some c) cs

/-- What `.*` followed by `k` does: `k` at the last position of the text where
it succeeds. -/
def lastK (k : Cont) : Cont
  | p, [] => k p []
  | p, x :: xs =>
    match lastK k (some x) xs with
    | some r => some r
    | none => k p (x :: xs)

/-- The text behind an open marker that starts the text. -/
def markerAt (xs : List Char) : Option (List Char) :=
  match stripPrefix openArrow xs with
  | some r => some r
  | none => stripPrefix openShell xs

/-- The text behind the last open marker of the text. -/
def afterLastMarker : List Char → Option (List Char)
  | [] => none
  | x :: xs =>
    match afterLastMarker xs with
    | some r => some r
    | none => markerAt (x :: xs)

/-- What the replacement of `jsonHeadCleanRegex` leaves: an opening brace and
the text behind the last open marker, or the text as it is when it holds no
open marker. -/
def headClean (xs : List Char) : List Char :=
  match afterLastMarker xs with
  | some r => '{' :: r
  | none => xs

/-- What the replacement of `jsonTailCleanRegex` leaves: the text up to the
first `}` that starts a line, and that brace. -/
def tailCut : Option Char → List Char → List Char
  | _, [] => []
  | p, x :: xs =>
    if (p = none ∨ p = some '\n') ∧ x = '}' then ['}'] else x :: tailCut (some x) xs

/-- Neither open marker occurs in the text. -/
def noOpenMarker (xs : List Char) : Prop :=
  ¬ openArrow <:+: xs ∧ ¬ openShell <:+: xs

/-- No line of the text that follows the character `c` begins with `}`. -/
def noCloseLine (c : Char) (xs : List Char) : Prop :=
  ¬ ['\n', '}'] <:+: c :: xs

/-! ## What the runners do: events, frames, status updates -/

/-- The record `parsers.Input`; `DataStream` is a pointer to a stream, given
by the bytes the stream delivers. -/
structure Input where
  TestStartTime : Int
  TestTime : Int
  Round : Nat
  DataStream : Option Bytes
  Data : Bytes
  Tester : String
  ServerHost : String
  ClientHost : String
  AdditionalInfo : String
deriving DecidableEq, Repr

/-- The observable actions of a runner, in the order in which they happen. -/
inductive Event where
  /-- Ansible: the goroutine of lines 340-366 starts the server command. -/
  | startServer (host : String) (args : List String)
  /-- Ansible: the server command has returned to its goroutine. -/
  | serverReturned (err : Option Err)
  /-- Ansible: the branch of lines 357-360, the error is only logged. -/
  | ignoredServerError (err : Option Err)
  /-- Ansible: the context of the server command is cancelled (`mainCancel`). -/
  | cancelServer
  /-- Ansible: one readiness probe (remote `pgrep`) and its result. -/
  | probe (try_ : Nat) (args : List String) (err : Option Err)
  /-- Both runners: the goroutine of a client subtask is started. -/
  | launchClient (host : String)
  /-- Ansible: the command of a client subtask was run, with its result. -/
  | execClient (host : String) (args : List String) (out : Bytes) (err : Option Err)
  /-- Both runners: a frame is sent on the parser channel. -/
  | send (frame : Input)
  /-- Kubernetes: a call to the cluster, by name, for a pod, with its error. -/
  | k8sCall (call : String) (pod : String) (err : Option Err)
  /-- The call `Status.AddSuccessfulServer(host)`. -/
  | addSuccessfulServer (host : String)
  /-- The call `Status.AddFailedServer(host, err)`. -/
  | addFailedServer (host : String) (err : Option Err)
  /-- The call `Status.AddSuccessfulClient(host)`. -/
  | addSuccessfulClient (host : String)
  /-- The call `Status.AddFailedClient(host, err)`. -/
  | addFailedClient (host : String) (err : Option Err)
deriving DecidableEq, Repr

/-- The statement `m[k]++` on a counter map. -/
def GoMap.incr (m : GoMap Nat) (k : String) : GoMap Nat :=
  m.set k (m.count k + 1)

/-- The statement `m[k] = append(m[k], e)` on the error map. -/
def GoMap.appendErr (m : GoMap (List (Option Err))) (k : String) (e : Option Err) :
    GoMap (List (Option Err)) :=
  m.set k (((m.get? k).getD []) ++ [e])

/-- Modelled from the spec: the method `Status.AddSuccessfulServer`, whose
source (package `testers`) is not among the files; it counts one more success
for the host's name among the servers. -/
def Status.AddSuccessfulServer (st : Status) (host : String) : Status :=
  { st with SuccessfulHosts := { st.SuccessfulHosts with
      Servers := st.SuccessfulHosts.Servers.incr host } }

/-- Modelled from the spec: the method `Status.AddFailedServer`, whose source
is not among the files; it counts one more failure for the host's name among
the servers and appends the error to the errors of that name. -/
def Status.AddFailedServer (st : Status) (host : String) (err : Option Err) : Status :=
  { st with
    FailedHosts := { st.FailedHosts with Servers := st.FailedHosts.Servers.incr host }
    Errors := st.Errors.appendErr host err }

/-- Modelled from the spec: the method `Status.AddSuccessfulClient`, whose
source is not among the files; it counts one more success for the host's name
among the clients. -/
def Status.AddSuccessfulClient (st : Status) (host : String) : Status :=
  { st with SuccessfulHosts := { st.SuccessfulHosts with
      Clients := st.SuccessfulHosts.Clients.incr host } }

/-- Modelled from the spec: the method `Status.AddFailedClient`, whose source
is not among the files; it counts one more failure for the host's name among
the clients and appends the error to the errors of that name. -/
def Status.AddFailedClient (st : Status) (host : String) (err : Option Err) : Status :=
  { st with
    FailedHosts := { st.FailedHosts with Clients := st.FailedHosts.Clients.incr host }
    Errors := st.Errors.appendErr host err }

/-- The effect of one event on the Status of the server task it belongs to. -/
def Status.apply (st : Status) : Event → Status
  | .addSuccessfulServer h => st.AddSuccessfulServer h
  | .addFailedServer h e => st.AddFailedServer h e
  | .addSuccessfulClient h => st.AddSuccessfulClient h
  | .addFailedClient h e => st.AddFailedClient h e
  | _ => st

/-- The Status after a sequence of events (the methods of Status are
serialised by its mutex, so concurrent calls take effect in some order). -/
def Status.after (st : Status) (events : List Event) : Status :=
  events.foldl Status.apply st

/-- What one call of `runTasks` or `createPodsForTasks` did: the events in
order, the Status of the server task after them, and the returned error. -/
structure RunResult where
  events : List Event
  status : Status
  err : Option Err
deriving DecidableEq, Repr

/-- One step of `Execute`: a wait for a Sleep-only task, or the run of the
server task at position `idx` of round `round`. -/
inductive Step where
  | slept (d : Int)
  | ran (round idx : Nat) (r : RunResult)
deriving DecidableEq, Repr

/-- What `Execute` did: its steps in order and the error it returned. -/
structure ExecResult where
  steps : List Step
  err : Option Err
deriving DecidableEq, Repr

/-- Removes the first element of the `k`-th list, if there is one. -/
def popAt {α : Type} : Nat → List (List α) → Option (α × List (List α))
  | _, [] => none
  | 0, [] :: _ => none
  | 0, (x :: xs) :: ls => some (x, xs :: ls)
  | k + 1, l :: ls => (popAt k ls).map (fun r => (r.1, l :: r.2))

/-- An interleaving of the event sequences of concurrently running
goroutines: the schedule names, step by step, the goroutine that moves next
(a step naming a goroutine that has finished is skipped); when the schedule
is used up the goroutines run to their end one after the other. -/
def interleave {α : Type} : List Nat → List (List α) → List α
  | [], ls => ls.flatten
  | k :: schedule, ls =>
    match popAt k ls with
    | none => interleave schedule ls
    | some r => r.1 :: interleave schedule r.2

/-- The loops of `Execute` over the tasks of one round (ansible.go lines
292-306, kubernetes.go lines 165-180), from the task at position `i`: a
Sleep-only task is waited on, any other task is handed to `run`; an error is
returned at once unless `ContinueOnError` (a pointer) holds true.  The flag
says whether the loop ran to its end. -/
def executeTasks (run : Nat → Nat → Task → Option RunResult) (continueOnError : Option Bool)
    (round : Nat) : Nat → List Task → Option (ExecResult × Bool)
  | _, [] => some ({ steps := [], err := none }, true)
  | i, task :: tasks =>
    if task.Sleep ≠ 0 then
      (executeTasks run continueOnError round (i + 1) tasks).map
        (fun r => ({ r.1 with steps := Step.slept task.Sleep :: r.1.steps }, r.2))
    else
      match run round i task with
      | none => none
      | some r =>
        match r.err with
        | none =>
          (executeTasks run continueOnError round (i + 1) tasks).map
            (fun x => ({ x.1 with steps := Step.ran round i r :: x.1.steps }, x.2))
        | some e =>
          match continueOnError with
          | none => none
          | some false => some ({ steps := [Step.ran round i r], err := some e }, false)
          | some true =>
            (executeTasks run continueOnError round (i + 1) tasks).map
              (fun x => ({ x.1 with steps := Step.ran round i r :: x.1.steps }, x.2))

/-- The loop of `Execute` over the rounds (ansible.go lines 290-307,
kubernetes.go lines 163-181), from round `round`. -/
def executeRounds (run : Nat → Nat → Task → Option RunResult) (continueOnError : Option Bool) :
    Nat → List (List Task) → Option ExecResult
  | _, [] => some { steps := [], err := none }
  | round, tasks :: rest =>
    match executeTasks run continueOnError round 0 tasks with
    | none => none
    | some (r, false) => some r
    | some (r, true) =>
      (executeRounds run continueOnError (round + 1) rest).map
        (fun x => { x with steps := r.steps ++ x.steps })

/-! ## The Ansible runner (`runners/ansible/ansible.go`) -/

/-- The fields of `config.RunnerAnsible` that `runTasks` reads;
`CommandRetries` is a pointer to an `int` in the source. -/
structure AnsibleConfig where
  AnsibleCommand : String
  InventoryFilePath : String
  CommandRetries : Int
deriving DecidableEq, Repr

/-- The record `Ansible`, with the fields `runTasks` reads. -/
structure Ansible where
  config : AnsibleConfig
  runOptions : RunOptions
  additionalInfo : String
deriving DecidableEq, Repr

/-- When the server command, started in its own goroutine, returns. -/
inductive ServerRun where
  /-- It returns on its own, with this result, before `runTasks` stops it. -/
  | early (err : Option Err)
  /-- It runs until its context is cancelled and then returns this result. -/
  | untilCancelled (err : Option Err)
deriving DecidableEq, Repr

/-- The surroundings of the Ansible runner.  The answers are indexed by the
round, the position of the server task in the round and, for probes and
clients, the number of the try or the position of the subtask. -/
structure AnsibleWorld where
  /-- The rendering done by `templateString`. -/
  render : Renderer
  /-- The function `cleanAnsibleOutput` (lines 476-480); the runner only
  passes its result on. -/
  clean : Bytes → Bytes
  /-- The run of the server command. -/
  server : Nat → Nat → ServerRun
  /-- The result of a readiness probe; `none` is success. -/
  probe : Nat → Nat → Nat → Option Err
  /-- The output and error of a client command. -/
  client : Nat → Nat → Nat → Bytes × Option Err
  /-- The clock read at line 411. -/
  now : Nat → Nat → Nat → Int
  /-- The schedule of the client goroutines in parallel mode. -/
  schedule : Nat → Nat → List Nat

/-- The constant `config.RunModeParallel`. -/
def RunModeParallel : String := "parallel"

/-- The arguments of a remote shell call (lines 343-346, 377-380, 414-417). -/
def shellArgs (a : Ansible) (host : String) (shell : String) : List String :=
  ["--inventory=" ++ a.config.InventoryFilePath, host, "--module-name=shell", "--args=" ++ shell]

/-- The readiness loop (lines 375-390) from try `i`, with `n` tries left: the
probes made and whether one succeeded (`ready`). -/
def Ansible.probeLoop (a : Ansible) (w : AnsibleWorld) (round idx : Nat) (host command : String) :
    Nat → Nat → List Event × Bool
  | 0, _ => ([], false)
  | n + 1, i =>
    match w.probe round idx i with
    | none => ([Event.probe i (shellArgs a host ("pgrep " ++ command)) none], true)
    | some e =>
      let rest := Ansible.probeLoop a w round idx host command n (i + 1)
      (Event.probe i (shellArgs a host ("pgrep " ++ command)) (some e) :: rest.1, rest.2)

/-- The goroutine of the client subtask at position `j` (lines 397-441). -/
def Ansible.clientRun (a : Ansible) (w : AnsibleWorld) (round idx : Nat) (serverHost : String)
    (vars : Variables) (plannedTime : Int) (tester : String) (j : Nat) (task : Task)
    (host : Host) : List Event :=
  Event.launchClient host.Name ::
  match Template w.render task vars with
  | (_, some err) =>
    [Event.addFailedClient host.Name
      (some ("failed to template task command and / or args. " ++ err))]
  | (task, none) =>
    let testTime := w.now round idx j
    let args := shellArgs a host.Name (task.Command ++ " " ++ " ".intercalate task.Args)
    let r := w.client round idx j
    Event.execClient host.Name args r.1 r.2 ::
    match r.2 with
    | some err => [Event.addFailedClient host.Name (some err)]
    | none =>
      [Event.addSuccessfulClient host.Name,
       Event.send { TestStartTime := plannedTime, TestTime := testTime, Round := round,
                    DataStream := some (w.clean r.1), Data := "", Tester := tester,
                    ServerHost := serverHost, ClientHost := host.Name,
                    AdditionalInfo := a.additionalInfo }]

/-- The event sequences of the client goroutines of the subtasks from
position `j` on: `none` when a subtask has no Host (line 394 dereferences it). -/
def Ansible.clientRuns (a : Ansible) (w : AnsibleWorld) (round idx : Nat) (serverHost : String)
    (vars : Variables) (plannedTime : Int) (tester : String) :
    Nat → List Task → Option (List (List Event))
  | _, [] => some []
  | j, task :: tasks =>
    match task.Host with
    | none => none
    | some host =>
      (Ansible.clientRuns a w round idx serverHost vars plannedTime tester (j + 1) tasks).map
        (fun rest =>
          Ansible.clientRun a w round idx serverHost vars plannedTime tester j task host :: rest)

/-- What the server goroutine does when its command returns (lines 348-365),
given the value of `mainTaskStopped` at that moment. -/
def Ansible.serverReturn (host : String) (mainTaskStopped : Bool) (err : Option Err) :
    List Event :=
  Event.serverReturned err ::
  match err with
  | none => []
  | some e =>
    if mainTaskStopped then [Event.ignoredServerError (some e)]
    else [Event.addFailedServer host (some e)]

/-- The part of the server goroutine that happens before `runTasks` stops
the server. -/
def Ansible.serverEarly (host : String) : ServerRun → List Event
  | .early err => Ansible.serverReturn host false err
  | .untilCancelled _ => []

/-- The part of the server goroutine that happens after the cancellation of
its context, given the value of `mainTaskStopped`. -/
def Ansible.serverLate (host : String) (mainTaskStopped : Bool) : ServerRun → List Event
  | .early _ => []
  | .untilCancelled err => Ansible.serverReturn host mainTaskStopped err

/-- Method `Ansible.runTasks` (lines 312-468).  `none` is a nil dereference:
of the Host of the main task or of its Addresses (line 319), of its Status
(every path calls one of its methods), or of the Host of a subtask (line
394).  The events of the server goroutine are placed where they take effect:
right after its start when the command returns on its own, after the
cancellation otherwise; on the path that returns at line 458 the deferred
`mainCancel` runs as `runTasks` returns and nothing waits for the goroutine,
so the events after `cancelServer` happen once `runTasks` has returned, and
`status` is the Status after them.  In parallel mode the client goroutines
are interleaved by the schedule of the world, otherwise each runs to its end
before the next starts. -/
def Ansible.runTasks (a : Ansible) (w : AnsibleWorld) (round idx : Nat) (mainTask : Task)
    (plannedTime : Int) (tester : String) : Option RunResult :=
  match mainTask.Host, mainTask.Status with
  | some host, some status =>
    match host.Addresses with
    | none => none
    | some addrs =>
      let templateVars : Variables :=
        { ServerPort := 5601
          ServerAddressV4 := addrs.IPv4.head?.getD ""
          ServerAddressV6 := addrs.IPv6.head?.getD "" }
      match Template w.render mainTask templateVars with
      | (_, some err) =>
        let events := [Event.addFailedServer host.Name (some err)]
        some { events := events, status := status.after events, err := some err }
      | (mainTask, none) =>
        let started :=
          Event.startServer host.Name
            (shellArgs a host.Name (mainTask.Command ++ " " ++ " ".intercalate mainTask.Args)) ::
          Ansible.serverEarly host.Name (w.server round idx)
        let probes := Ansible.probeLoop a w round idx host.Name mainTask.Command
          (a.config.CommandRetries + 1).toNat 0
        if probes.2 then
          match Ansible.clientRuns a w round idx host.Name templateVars plannedTime tester 0
              mainTask.SubTasks with
          | none => none
          | some runs =>
            let clients :=
              if a.runOptions.Mode ≠ RunModeParallel then runs.flatten
              else interleave (w.schedule round idx) runs
            let events := started ++ probes.1 ++ clients ++
              [Event.addSuccessfulServer host.Name, Event.cancelServer] ++
              Ansible.serverLate host.Name true (w.server round idx)
            some { events := events, status := status.after events, err := none }
        else
          let err := "ansible main test task is not running"
          let events := started ++ probes.1 ++
            [Event.addFailedServer host.Name (some err), Event.cancelServer] ++
            Ansible.serverLate host.Name false (w.server round idx)
          some { events := events, status := status.after events, err := some err }
  | _, _ => none

/-- Method `Ansible.Execute` (lines 289-310). -/
def Ansible.Execute (a : Ansible) (w : AnsibleWorld) (plan : Plan) : Option ExecResult :=
  executeRounds (fun round i task => a.runTasks w round i task plan.TestStartTime plan.Tester)
    plan.RunOptions.ContinueOnError 0 plan.Commands

/-! ## The Kubernetes runner (`runners/kubernetes/kubernetes.go`) -/

/-- The fields of `config.RunnerKubernetes` that `createPodsForTasks` reads. -/
structure KubernetesConfig where
  Namespace : String
deriving DecidableEq, Repr

/-- The record `Kubernetes`, with the fields `createPodsForTasks` reads. -/
structure Kubernetes where
  config : KubernetesConfig
  runOptions : RunOptions
deriving DecidableEq, Repr

/-- The surroundings of the Kubernetes runner: the answers of the cluster,
indexed by the round, the position of the server task in the round and, for
client pods, the position of the subtask. -/
structure KubernetesWorld where
  /-- The rendering done by `templateString`. -/
  render : Renderer
  /-- The name `util.GetPNameFromTask` gives the server pod, from the round,
  the host name, the command and the start time. -/
  serverPodName : Nat → String → String → Int → String
  /-- The name `util.GetPNameFromTask` gives a client pod. -/
  clientPodName : Nat → String → String → Int → String
  /-- The error of `k8sutil.PodRecreate` for the server pod. -/
  recreateServer : Nat → Nat → Option Err
  /-- The result of `k8sutil.WaitForPodToRun` for the server pod. -/
  waitServer : Nat → Nat → Bool × Option Err
  /-- The pod IP and the error of the `Get` of the server pod. -/
  getServer : Nat → Nat → String × Option Err
  /-- The error of `k8sutil.PodDeleteByName` for the server pod. -/
  deleteServer : Nat → Nat → Option Err
  /-- The error of `k8sutil.PodRecreate` for a client pod. -/
  recreateClient : Nat → Nat → Nat → Option Err
  /-- The result of `k8sutil.WaitForPodToRunOrSucceed` for a client pod. -/
  waitClient : Nat → Nat → Nat → Bool × Option Err
  /-- The result of `k8sutil.WaitForPodToSucceed` for a client pod. -/
  waitSucceed : Nat → Nat → Nat → Bool × Option Err
  /-- The log stream of a client pod and the error of opening it. -/
  logs : Nat → Nat → Nat → Bytes × Option Err
  /-- The error of `k8sutil.PodDelete` for a client pod. -/
  deleteClient : Nat → Nat → Nat → Option Err
  /-- The clock read at line 283. -/
  now : Nat → Nat → Nat → Int
  /-- The schedule of the client goroutines in parallel mode. -/
  schedule : Nat → Nat → List Nat

/-- Method `Kubernetes.pushLogsToParser` (lines 360-394): the events and the
returned error. -/
def Kubernetes.pushLogsToParser (k : Kubernetes) (w : KubernetesWorld) (round idx j : Nat)
    (plannedTime testTime : Int) (tester serverHost clientHost podName : String) :
    List Event × Option Err :=
  let s := w.waitSucceed round idx j
  match s.2 with
  | some err => ([Event.k8sCall "WaitForPodToSucceed" podName (some err)], some err)
  | none =>
    if s.1 then
      let l := w.logs round idx j
      match l.2 with
      | some err =>
        ([Event.k8sCall "WaitForPodToSucceed" podName none,
          Event.k8sCall "GetLogs" podName (some err)], some err)
      | none =>
        ([Event.k8sCall "WaitForPodToSucceed" podName none,
          Event.k8sCall "GetLogs" podName none,
          Event.send { TestStartTime := plannedTime, TestTime := testTime, Round := round,
                       DataStream := some l.1, Data := "", Tester := tester,
                       ServerHost := serverHost, ClientHost := clientHost,
                       AdditionalInfo := podName }], none)
    else
      ([Event.k8sCall "WaitForPodToSucceed" podName none],
        some ("pod " ++ k.config.Namespace ++ "/" ++ podName ++ " has not succeeded"))

/-- The goroutine of the client subtask at position `j` (lines 280-333). -/
def Kubernetes.clientRun (k : Kubernetes) (w : KubernetesWorld) (round idx : Nat)
    (serverHost : String) (vars : Variables) (plannedTime : Int) (tester : String) (j : Nat)
    (task : Task) (host : Host) : List Event :=
  let testTime := w.now round idx j
  let pName := w.clientPodName round host.Name task.Command plannedTime
  Event.launchClient host.Name ::
  match Template w.render task vars with
  | (_, some err) => [Event.addFailedClient host.Name (some err)]
  | (_, none) =>
    match w.recreateClient round idx j with
    | some err =>
      [Event.k8sCall "PodRecreate" pName (some err), Event.addFailedClient host.Name (some err)]
    | none =>
      Event.k8sCall "PodRecreate" pName none ::
      let r := w.waitClient round idx j
      match r.2 with
      | some err =>
        [Event.k8sCall "WaitForPodToRunOrSucceed" pName (some err),
         Event.addFailedClient host.Name (some err)]
      | none =>
        Event.k8sCall "WaitForPodToRunOrSucceed" pName none ::
        if !r.1 then [Event.addFailedClient host.Name none]
        else
          let pushed := Kubernetes.pushLogsToParser k w round idx j plannedTime testTime tester
            serverHost host.Name pName
          pushed.1 ++
          match pushed.2 with
          | some err => [Event.addFailedClient host.Name (some err)]
          | none =>
            match w.deleteClient round idx j with
            | some err =>
              [Event.k8sCall "PodDelete" pName (some err),
               Event.addFailedClient host.Name (some err)]
            | none =>
              [Event.k8sCall "PodDelete" pName none, Event.addSuccessfulClient host.Name]

/-- The event sequences of the client goroutines of the subtasks from
position `j` on: `none` when a subtask has no Host (line 285 dereferences it). -/
def Kubernetes.clientRuns (k : Kubernetes) (w : KubernetesWorld) (round idx : Nat)
    (serverHost : String) (vars : Variables) (plannedTime : Int) (tester : String) :
    Nat → List Task → Option (List (List Event))
  | _, [] => some []
  | j, task :: tasks =>
    match task.Host with
    | none => none
    | some host =>
      (Kubernetes.clientRuns k w round idx serverHost vars plannedTime tester (j + 1) tasks).map
        (fun rest =>
          Kubernetes.clientRun k w round idx serverHost vars plannedTime tester j task host ::
            rest)

/-- Method `Kubernetes.createPodsForTasks` (lines 215-358).  `none` is a nil
dereference: of the Host of the main task (line 223), of its Status, or of
the Host of a subtask (line 285).  Every `return` of the source returns
`nil`.  In parallel mode the client goroutines are interleaved by the
schedule of the world, otherwise each runs to its end before the next
starts. -/
def Kubernetes.createPodsForTasks (k : Kubernetes) (w : KubernetesWorld) (round idx : Nat)
    (mainTask : Task) (plan : Plan) : Option RunResult :=
  match mainTask.Host, mainTask.Status with
  | some host, some status =>
    let serverPodName := w.serverPodName round host.Name mainTask.Command plan.TestStartTime
    let templateVars : Variables :=
      { ServerPort := 5601, ServerAddressV4 := "", ServerAddressV6 := "" }
    let done := fun (events : List Event) =>
      some { events := events, status := status.after events, err := none }
    match Template w.render mainTask templateVars with
    | (_, some err) => done [Event.addFailedServer host.Name (some err)]
    | (mainTask, none) =>
      match w.recreateServer round idx with
      | some err =>
        done [Event.k8sCall "PodRecreate" serverPodName (some err),
              Event.addFailedServer host.Name (some err)]
      | none =>
        let r := w.waitServer round idx
        match r.2 with
        | some err =>
          done [Event.k8sCall "PodRecreate" serverPodName none,
                Event.k8sCall "WaitForPodToRun" serverPodName (some err),
                Event.addFailedServer host.Name (some err)]
        | none =>
          if !r.1 then
            done [Event.k8sCall "PodRecreate" serverPodName none,
                  Event.k8sCall "WaitForPodToRun" serverPodName none,
                  Event.addFailedServer host.Name none]
          else
            let g := w.getServer round idx
            match g.2 with
            | some err =>
              done [Event.k8sCall "PodRecreate" serverPodName none,
                    Event.k8sCall "WaitForPodToRun" serverPodName none,
                    Event.k8sCall "Get" serverPodName (some err),
                    Event.addFailedServer host.Name (some err)]
            | none =>
              if g.1 = "" then
                done [Event.k8sCall "PodRecreate" serverPodName none,
                      Event.k8sCall "WaitForPodToRun" serverPodName none,
                      Event.k8sCall "Get" serverPodName none,
                      Event.addFailedServer host.Name
                        (some ("failed to get server pod " ++ k.config.Namespace ++ "/" ++
                          serverPodName ++ " IP, got \'" ++ g.1 ++ "\'"))]
              else
                let templateVars := { templateVars with ServerAddressV4 := g.1 }
                match Kubernetes.clientRuns k w round idx host.Name templateVars
                    plan.TestStartTime plan.Tester 0 mainTask.SubTasks with
                | none => none
                | some runs =>
                  let clients :=
                    if k.runOptions.Mode ≠ RunModeParallel then runs.flatten
                    else interleave (w.schedule round idx) runs
                  let before :=
                    [Event.k8sCall "PodRecreate" serverPodName none,
                     Event.k8sCall "WaitForPodToRun" serverPodName none,
                     Event.k8sCall "Get" serverPodName none] ++ clients
                  match w.deleteServer round idx with
                  | some err =>
                    done (before ++ [Event.k8sCall "PodDeleteByName" serverPodName (some err),
                      Event.addFailedServer host.Name (some err)])
                  | none =>
                    done (before ++ [Event.k8sCall "PodDeleteByName" serverPodName none,
                      Event.addSuccessfulServer host.Name])
  | _, _ => none

/-- Method `Kubernetes.Execute` (lines 159-184). -/
def Kubernetes.Execute (k : Kubernetes) (w : KubernetesWorld) (plan : Plan) :
    Option ExecResult :=
  executeRounds (fun round i task => k.createPodsForTasks w round i task plan)
    plan.RunOptions.ContinueOnError 0 plan.Commands

/-! ## Host discovery of the Ansible runner (`GetHostsForTest`, lines 77-184) -/

/-- Function `getHosts` (lines 172-184): the entries of `list` under the
names `names`, or an error at the first name that is not a key of `list`. -/
def getHosts (names : List String) (list : GoMap Host) : Except Err (GoMap Host) :=
  names.foldlM
    (fun hosts h =>
      match list.get? h with
      | some v => .ok (hosts.set h v)
      | none => .error ("server \"" ++ h ++
          "\" not found in ansible hosts list, this should not have happened"))
    []

/-- The end of `getHostNetworkAddress` (lines 242-261), from the two default
addresses read in the facts of the host. -/
def defaultAddresses (host v4 v6 : String) : Except Err IPAddresses :=
  let addresses : IPAddresses :=
    { IPv4 := if v4 ≠ "" then [v4] else [], IPv6 := if v6 ≠ "" then [v6] else [] }
  if v4 = "" ∧ v6 = "" then .error ("no default IP addresses for ansible host " ++ host)
  else .ok addresses

/-- Method `getHostNetworkAddress` (lines 219-262): `run` is the output and
error of the remote `setup` call for the host, `clean` the function
`cleanAnsibleOutput`, `unmarshal` the decoding of the cleaned output by
`json.Unmarshal` into the two default addresses. -/
def getHostNetworkAddress (run : String → Bytes × Option Err) (clean : Bytes → Bytes)
    (unmarshal : Bytes → Except Err (String × String)) (host : String) :
    Except Err IPAddresses :=
  match (run host).2 with
  | some err => .error err
  | none =>
    match unmarshal (clean (run host).1) with
    | .error err => .error err
    | .ok facts => defaultAddresses host facts.1 facts.2

/-- Where a worker goroutine (lines 110-130) stands. -/
inductive Worker where
  /-- At `for host := range in`, ready to receive a host. -/
  | waiting
  /-- It has received this host and has not reported on it yet. -/
  | got (host : String)
  /-- It has returned; `wg.Done` has run. -/
  | exited
deriving DecidableEq, Repr

/-- The state of the goroutines of `GetHostsForTest` from line 97 on: the
feeder (lines 133-143), the workers, and the caller collecting the errors
(lines 145-150). -/
structure Discovery where
  /-- The hosts the feeder has still to send on `inCh`. -/
  toSend : List String
  /-- `close(inCh)` has run. -/
  inClosed : Bool
  /-- `close(retCh)` has run: the loop of lines 146-150 ends. -/
  retClosed : Bool
  workers : List Worker
  /-- The map `hosts`. -/
  hosts : GoMap Host
  /-- The slice `errs`. -/
  errs : List String
deriving DecidableEq, Repr

/-- The moves of the goroutines.  Both channels are unbuffered, so a send and
its receive are one move; the caller is always ready to receive on `retCh`. -/
inductive Move where
  /-- The feeder sends its next host on `inCh` and worker `k` receives it. -/
  | handOver (k : Nat)
  /-- Worker `k` retrieves the facts of its host and sends the result on
  `retCh`; after an error it returns. -/
  | report (k : Nat)
  /-- The feeder, all hosts sent, closes `inCh`. -/
  | closeIn
  /-- Worker `k` finds `inCh` closed, sends nil on `retCh` and returns. -/
  | leave (k : Nat)
  /-- The feeder, `wg.Wait()` over, closes `retCh`. -/
  | closeRet
deriving DecidableEq, Repr

/-- The state at line 131: `n` workers started, nothing sent yet. -/
def Discovery.start (n : Nat) (uniqHosts : List String) : Discovery :=
  { toSend := uniqHosts, inClosed := false, retClosed := false,
    workers := List.replicate n Worker.waiting, hosts := [], errs := [] }

/-- One move, when it is possible in the state; `facts` is the result of
`getHostNetworkAddress` for a host. -/
def Discovery.step (facts : String → Except Err IPAddresses) (d : Discovery) :
    Move → Option Discovery
  | .handOver k =>
    match d.toSend, d.workers[k]? with
    | host :: rest, some Worker.waiting =>
      if d.inClosed then none
      else some { d with toSend := rest, workers := d.workers.set k (Worker.got host) }
    | _, _ => none
  | .report k =>
    match d.workers[k]? with
    | some (Worker.got host) =>
      if d.retClosed then none
      else
        match facts host with
        | .error err =>
          some { d with errs := d.errs ++ [err], workers := d.workers.set k Worker.exited }
        | .ok addresses =>
          some { d with
            hosts := d.hosts.set host { Name := host, Labels := [], Addresses := some addresses }
            workers := d.workers.set k Worker.waiting }
    | _ => none
  | .closeIn =>
    if d.toSend = [] ∧ d.inClosed = false then some { d with inClosed := true } else none
  | .leave k =>
    match d.workers[k]? with
    | some Worker.waiting =>
      if d.inClosed ∧ d.retClosed = false then
        some { d with workers := d.workers.set k Worker.exited }
      else none
    | _ => none
  | .closeRet =>
    if d.inClosed ∧ d.retClosed = false ∧ d.workers.all (fun w => w == Worker.exited) then
      some { d with retClosed := true }
    else none

/-- A sequence of moves, each possible when its turn comes. -/
def Discovery.run (facts : String → Except Err IPAddresses) :
    Discovery → List Move → Option Discovery
  | d, [] => some d
  | d, m :: ms => (d.step facts m).bind (fun d' => Discovery.run facts d' ms)

/-- What `GetHostsForTest` returns (lines 151-169) once the loop over `retCh`
has ended; `none` while the loop has not ended. -/
def Discovery.result (servers clients : List String) (d : Discovery) :
    Option (Except Err Hosts) :=
  if d.retClosed then
    if d.errs.length > 0 then
      some (.error ("errors in retrieving ansible host facts. " ++ " ".intercalate d.errs))
    else
      match getHosts servers d.hosts with
      | .error err => some (.error err)
      | .ok sHosts =>
        match getHosts clients d.hosts with
        | .error err => some (.error err)
        | .ok cHosts => some (.ok { Servers := sHosts, Clients := cHosts })
  else none

/-- The state of the discovery with one worker that has failed on the first
of two hosts. -/
def stuckDiscovery : Discovery :=
  { toSend := ["h2"], inClosed := false, retClosed := false, workers := [Worker.exited],
    hosts := [], errs := ["host unreachable"] }

/-- Fact retrieval that fails for every host. -/
def factsFail : String → Except Err IPAddresses :=
  fun _ => .error "host unreachable"

/-- The state of the discovery with one worker that holds the first of two
hosts. -/
def midDiscovery : Discovery :=
  { toSend := ["h2"], inClosed := false, retClosed := false, workers := [Worker.got "h1"],
    hosts := [], errs := [] }

/-- What holds in every state the discovery can reach from its start on the
hosts `uniq`: `inCh` is closed only when every host has been sent, `retCh`
only when `inCh` is closed and every worker has returned, and every host
whose fact retrieval fails is still to be sent, or in the hands of a worker,
or has left an error in `errs`. -/
def Discovery.sound (facts : String → Except Err IPAddresses) (uniq : List String)
    (d : Discovery) : Prop :=
  (d.inClosed = true → d.toSend = []) ∧
  (d.retClosed = true → d.inClosed = true ∧ ∀ w ∈ d.workers, w = Worker.exited) ∧
  (∀ h ∈ uniq, (∃ e, facts h = .error e) →
    h ∈ d.toSend ∨ Worker.got h ∈ d.workers ∨ d.errs ≠ [])

/-! ## The GoChart output (`outputs/gochart.go`) -/

/-- The record `config.GoChart`. -/
structure ConfigGoChart where
  Types : List String
  FilePath : String
  NamePattern : String
deriving DecidableEq, Repr

/-- The record `config.Output`, with the fields `NewGoChartOutput` reads;
`GoChart` is a pointer. -/
structure ConfigOutput where
  Name : String
  GoChart : Option ConfigGoChart
deriving DecidableEq, Repr

/-- The record `outputs.GoChart`.  Its `config` is the pointer taken from the
configuration; the record it points to is given. -/
structure GoChart where
  config : ConfigGoChart
deriving DecidableEq, Repr

/-- The name pattern written at line 43. -/
def goChartDefaultPattern : String :=
  "\x7b\x7b .UnixTime \x7d\x7d-\x7b\x7b .Data.Tester \x7d\x7d-" ++
    "\x7b\x7b .Data.ServerHost \x7d\x7d_\x7b\x7b .Data.ClientHost \x7d\x7d.goChart"

/-- Function `NewGoChartOutput` (lines 38-46); the argument `cfg` is not
read.  `none` is the nil dereference of line 42 when the output has no
`goChart` block. -/
def NewGoChartOutput (outCfg : ConfigOutput) : Option (GoChart × Option Err) :=
  match outCfg.GoChart with
  | none => none
  | some config =>
    let config :=
      if config.NamePattern ≠ "" then { config with NamePattern := goChartDefaultPattern }
      else config
    some ({ config := config }, none)

/-- What the payload of an `outputs.Data` is for the type assertion of line
51: a `Table`, given by the number of its header and data columns, or
something else. -/
inductive Payload where
  | table (headers columns : Nat)
  | other
deriving DecidableEq, Repr

/-- The record `outputs.Data` as `GoChart.Do` reads it: the metadata of the
frame and the payload. -/
structure OutputData where
  Tester : String
  ServerHost : String
  ClientHost : String
  TestStartTime : Int
  Data : Payload
deriving DecidableEq, Repr

/-- The work an output does on a `Data`. -/
inductive OutputWork where
  /-- The call `getFilenameFromPattern` on a name pattern. -/
  | renderName (pattern : String)
  /-- The call `graph.Render`. -/
  | renderChart
  /-- A write to the file of this name. -/
  | write (filename : String)
deriving DecidableEq, Repr

/-- Method `GoChart.Do` (lines 49-102): the work done and the returned error.
The first statement is the `return` of line 50; lines 51-101 are behind it
and never run. -/
def GoChart.Do (_ip : GoChart) (_data : OutputData) : List OutputWork × Option Err :=
  ([], some "gochart not implemented yet")

/-! ## The command executor (`pkg/executor/executor.go`) -/

/-- The record `CommandExecutor`, with the field the methods could read. -/
structure CommandExecutor where
  env : List String
deriving DecidableEq, Repr

/-- The fields of an `exec.Cmd` that the executor sets before it starts the
command. -/
structure Cmd where
  Path : String
  Args : List String
  Env : List String
deriving DecidableEq, Repr

/-- Method `CommandExecutor.SetEnv` (lines 94-96): the executor of the caller
after the call.  The receiver is a value, so the assignment of line 95 writes
the field of the copy the method works on, and that copy is dropped when the
method returns. -/
def CommandExecutor.SetEnv (ce : CommandExecutor) (e : List String) : CommandExecutor :=
  let receiver := ce
  let _written : CommandExecutor := { receiver with env := e }
  ce

/-- Method `CommandExecutor.ExecuteCommand` (lines 49-64): the command that is
started and the error of running it.  `environ` is what `os.Environ()`
returns, `run` the start of the command and the wait for it. -/
def CommandExecutor.ExecuteCommand (_ce : CommandExecutor) (environ : List String)
    (run : Cmd → Option Err) (command : String) (arg : List String) : Cmd × Option Err :=
  let cmd : Cmd := { Path := command, Args := arg, Env := environ }
  (cmd, run cmd)

/-- Method `CommandExecutor.ExecuteCommandWithOutputByte` (lines 73-91): the
command that is run, its combined output and its error. -/
def CommandExecutor.ExecuteCommandWithOutputByte (_ce : CommandExecutor)
    (environ : List String) (run : Cmd → Bytes × Option Err) (command : String)
    (arg : List String) : Cmd × Bytes × Option Err :=
  let cmd : Cmd := { Path := command, Args := arg, Env := environ }
  (cmd, (run cmd).1, (run cmd).2)

/-- What holds in every state the discovery can reach from its start on the
hosts `uniq` when the facts of every one of them can be retrieved: no error
has been collected, the hosts to send and the hosts in the hands of the
workers are among `uniq`, and every host of `uniq` is still to be sent, or in
the hands of a worker, or stored in `hosts` under its name with its addresses
(lines 121-125). -/
def Discovery.collected (facts : String → Except Err IPAddresses) (uniq : List String)
    (d : Discovery) : Prop :=
  d.errs = [] ∧ (∀ h ∈ d.toSend, h ∈ uniq) ∧ (∀ h, Worker.got h ∈ d.workers → h ∈ uniq) ∧
  ∀ h ∈ uniq, h ∈ d.toSend ∨ Worker.got h ∈ d.workers ∨
    ∃ a, facts h = .ok a ∧
      d.hosts.get? h = some { Name := h, Labels := [], Addresses := some a }

/-! ## Host selection of the Kubernetes runner (`GetHostsForTest`, lines 70-110) -/

/-- The record `config.Hosts`, a selector of hosts, with the fields the test
of the runner sets (kubernetes_test.go lines 52-59); only
`hostsfilter.FilterHostsList` reads them. -/
structure ConfigHosts where
  All : Option Bool
  Random : Option Bool
  Count : Int
deriving DecidableEq, Repr

/-- The record `config.TestHosts`. -/
structure TestHosts where
  Clients : List ConfigHosts
  Servers : List ConfigHosts
deriving DecidableEq, Repr

/-- The result of `hostsfilter.FilterHostsList`, a function outside the files
at hand, on the nodes and a selector.  A selector may pick at random, so the
result is given per call, by the number of the call within `GetHostsForTest`. -/
abbrev HostsFilter := Nat → List Host → ConfigHosts → Except Err (List Host)

/-- The loop over the filtered hosts (lines 87-91 and 100-104): a host is
stored under its name unless the name is a key already. -/
def addFiltered (hosts : GoMap Host) : List Host → GoMap Host
  | [] => hosts
  | host :: filtered =>
    addFiltered (if !hosts.has host.Name then hosts.set host.Name host else hosts) filtered

/-- The loop over the selectors (lines 82-92 and 95-105), from the call
number `call` on: the first error of the filter is returned. -/
def Kubernetes.selectHosts (filter : HostsFilter) (k8sNodes : List Host) :
    Nat → List ConfigHosts → GoMap Host → Except Err (GoMap Host)
  | _, [], hosts => .ok hosts
  | call, sel :: rest, hosts =>
    match filter call k8sNodes sel with
    | .error err => .error err
    | .ok filtered =>
      Kubernetes.selectHosts filter k8sNodes (call + 1) rest (addFiltered hosts filtered)

/-- Method `Kubernetes.GetHostsForTest` (lines 70-110); `nodes` is the result
of `k8sNodesToHosts`. -/
def Kubernetes.GetHostsForTest (nodes : Except Err (List Host)) (filter : HostsFilter)
    (testHosts : TestHosts) : Except Err Hosts :=
  match nodes with
  | .error err => .error err
  | .ok k8sNodes =>
    match Kubernetes.selectHosts filter k8sNodes 0 testHosts.Servers [] with
    | .error err => .error err
    | .ok servers =>
      match Kubernetes.selectHosts filter k8sNodes testHosts.Servers.length
          testHosts.Clients [] with
      | .error err => .error err
      | .ok clients => .ok { Clients := clients, Servers := servers }

/-- The hosts the selectors pick, in the order of the selectors and, for one
selector, of the filtered list, from the call number `call` on. -/
def selectedHosts (filter : HostsFilter) (k8sNodes : List Host) :
    Nat → List ConfigHosts → List Host
  | _, [] => []
  | call, sel :: rest =>
    (match filter call k8sNodes sel with
      | .ok filtered => filtered
      | .error _ => []) ++ selectedHosts filter k8sNodes (call + 1) rest

/-- Every call of the filter for the selectors, from the call number `call`
on, succeeds. -/
def allSelect (filter : HostsFilter) (k8sNodes : List Host) (call : Nat)
    (sels : List ConfigHosts) : Prop :=
  ∀ i sel, sels[i]? = some sel → ∃ filtered, filter (call + i) k8sNodes sel = .ok filtered

/-- The error `err` is the error of the call of the filter for one of the
selectors, from the call number `call` on. -/
def selectFails (filter : HostsFilter) (k8sNodes : List Host) (call : Nat)
    (sels : List ConfigHosts) (err : Err) : Prop :=
  ∃ i sel, sels[i]? = some sel ∧ filter (call + i) k8sNodes sel = .error err

/-- What a worker can still do, as a number of moves: a waiting worker can
leave, a worker that holds a host can report and then leave. -/
def Worker.weight : Worker → Nat
  | .waiting => 1
  | .got _ => 2
  | .exited => 0

/-- A bound on the number of moves that are still possible in a state of the
discovery: every move makes it smaller. -/
def Discovery.measure (d : Discovery) : Nat :=
  2 * d.toSend.length + (d.workers.map Worker.weight).sum +
    (if d.inClosed then 0 else 1) + (if d.retClosed then 0 else 1)

/-- What holds in every state the discovery of `n` workers can reach when the
facts of every host can be retrieved: there are `n` workers, none of them has
returned while `inCh` is open, and without a worker there is no host to
send. -/
def Discovery.alive (n : Nat) (d : Discovery) : Prop :=
  d.workers.length = n ∧ (d.inClosed = false → Worker.exited ∉ d.workers) ∧
    (n = 0 → d.toSend = [])

/-! ### Descriptions of the runs, used to state the theorems -/

/-- The tasks of a round from position `i` on, each with its round and its
position. -/
def roundCells (round : Nat) : Nat → List Task → List (Nat × Nat × Task)
  | _, [] => []
  | i, task :: tasks => (round, i, task) :: roundCells round (i + 1) tasks

/-- The tasks of the rounds from round `round` on, in plan order, each with
its round and its position in the round. -/
def planCells : Nat → List (List Task) → List (Nat × Nat × Task)
  | _, [] => []
  | round, tasks :: rest => roundCells round 0 tasks ++ planCells (round + 1) rest

/-- A step of `Execute` is the one that belongs to a task that ran without
error: a wait of the task's duration for a Sleep-only task, otherwise the
result of `run` on the task, which returned no error. -/
def stepOfCell (run : Nat → Nat → Task → Option RunResult) (c : Nat × Nat × Task)
    (s : Step) : Prop :=
  (c.2.2.Sleep ≠ 0 ∧ s = Step.slept c.2.2.Sleep) ∨
  (c.2.2.Sleep = 0 ∧ ∃ r, run c.1 c.2.1 c.2.2 = some r ∧ r.err = none ∧ s = Step.ran c.1 c.2.1 r)

/-- The loops of `Execute` over the tasks of a plan laid out in plan order:
`executeRounds` on rounds is `executeCells` on their cells. -/
def executeCells (run : Nat → Nat → Task → Option RunResult) (continueOnError : Option Bool) :
    List (Nat × Nat × Task) → Option ExecResult
  | [] => some { steps := [], err := none }
  | c :: cells =>
    if c.2.2.Sleep ≠ 0 then
      (executeCells run continueOnError cells).map
        (fun x => { x with steps := Step.slept c.2.2.Sleep :: x.steps })
    else
      match run c.1 c.2.1 c.2.2 with
      | none => none
      | some r =>
        match r.err with
        | none =>
          (executeCells run continueOnError cells).map
            (fun x => { x with steps := Step.ran c.1 c.2.1 r :: x.steps })
        | some e =>
          match continueOnError with
          | none => none
          | some false => some { steps := [Step.ran c.1 c.2.1 r], err := some e }
          | some true =>
            (executeCells run continueOnError cells).map
              (fun x => { x with steps := Step.ran c.1 c.2.1 r :: x.steps })

/-- How `executeRounds` goes on after a round: it stops at a panic or at a
returned error, otherwise the later steps follow the steps of the round. -/
def afterRound (later : Option ExecResult) : Option (ExecResult × Bool) → Option ExecResult
  | none => none
  | some (r, false) => some r
  | some (r, true) => later.map (fun x => { x with steps := r.steps ++ x.steps })

/-- The event belongs to a client subtask. -/
def Event.isClient : Event → Bool
  | .launchClient _ => true
  | .execClient _ _ _ _ => true
  | .send _ => true
  | .addSuccessfulClient _ => true
  | .addFailedClient _ _ => true
  | _ => false

/-- The event is a readiness probe that returned success. -/
def Event.isReady : Event → Bool
  | .probe _ _ none => true
  | _ => false

/-- The event is the launch of a client subtask on the host named `h`. -/
def Event.launches (h : String) : Event → Bool
  | .launchClient h' => h' == h
  | _ => false

/-- The event is a call `AddSuccessfulClient` for the host named `h`. -/
def Event.succeeds (h : String) : Event → Bool
  | .addSuccessfulClient h' => h' == h
  | _ => false

/-- The event is a call `AddFailedClient` for the host named `h`. -/
def Event.fails (h : String) : Event → Bool
  | .addFailedClient h' _ => h' == h
  | _ => false

/-- The event is a frame sent on the parser channel. -/
def Event.isSend : Event → Bool
  | .send _ => true
  | _ => false

/-- The event is a client command that returned without error. -/
def Event.isExecOk : Event → Bool
  | .execClient _ _ _ none => true
  | _ => false

/-- The event is a call `AddFailedServer`. -/
def Event.isFailedServer : Event → Bool
  | .addFailedServer _ _ => true
  | _ => false

/-- The tasks of round `i` for the servers `ss` with every client range
visiting the Clients map as listed: the round up to the order of SubTasks. -/
def canonRound (cfg : IPerf3Config) (env : Environment) (test : Test) (i : Nat)
    (ss : GoMap Host) : List Task :=
  ss.flatMap (fun s => serverTaskOf cfg RangeOrder.listed env i 0 s.2 :: sleepAfter test i)

/-- Lexicographic order on character sequences, by code point (the order of
Go's string comparison). -/
def lexLe : List Char → List Char → Bool
  | [], _ => true
  | _ :: _, [] => false
  | a :: as, b :: bs => a.toNat < b.toNat || (a.toNat == b.toNat && lexLe as bs)

/-- A list of names is in ascending lexicographic order. -/
def Ascending (l : List String) : Prop :=
  l.Pairwise (fun a b => lexLe a.toList b.toList = true)

/-- The names of the hosts of the tasks of a list, in order. -/
def hostNames (ts : List Task) : List String :=
  (taskHosts ts).map Host.Name

/-- A host named `a`. -/
def hostA : Host :=
  { Name := "a", Labels := [], Addresses := some { IPv4 := ["192.0.2.1"], IPv6 := [] } }

/-- A host named `b`. -/
def hostB : Host :=
  { Name := "b", Labels := [], Addresses := some { IPv4 := ["192.0.2.2"], IPv6 := [] } }

/-- An environment in which `a` and `b` are both servers and clients. -/
def envAB : Environment :=
  { Hosts := { Clients := [("a", hostA), ("b", hostB)], Servers := [("a", hostA), ("b", hostB)] } }

/-- A plain iperf3 configuration: TCP, ten seconds, no additional flags. -/
def cfgPlain : IPerf3Config :=
  { AdditionalFlags := { Clients := [], Server := [] }, UDP := none, Duration := 10, Interval := 1 }

/-- A test of `n` rounds without interval that stops at the first error. -/
def testRounds (n : Nat) : Test :=
  { Type_ := "iperf3"
    RunOptions := { Rounds := n, Interval := 0, Mode := "sequential", ParallelCount := 0,
                    ContinueOnError := some false } }

/-- The event is a call `AddSuccessfulClient` or `AddFailedClient`. -/
def Event.isClientStatus : Event → Bool
  | .addSuccessfulClient _ => true
  | .addFailedClient _ _ => true
  | _ => false

/-- The event is the start of the goroutine of a client subtask. -/
def Event.isLaunch : Event → Bool
  | .launchClient _ => true
  | _ => false

/-- The number of client subtasks in flight after each event of a run,
counted from `n`: the start of a client goroutine adds one, the call on Status
that ends the attempt of a client takes one away. -/
def inFlight : Nat → List Event → List Nat
  | _, [] => []
  | n, e :: es =>
    let n' := if e.isLaunch then n + 1 else if e.isClientStatus then n - 1 else n
    n' :: inFlight n' es

/-- The event is one of the two client calls on Status for the host named
`h`. -/
def Event.resolves (h : String) (e : Event) : Prop :=
  e = Event.addSuccessfulClient h ∨ ∃ err, e = Event.addFailedClient h err

/-- The event is a call `AddFailedServer` for the host named `h`. -/
def Event.failsServer (h : String) : Event → Bool
  | .addFailedServer h' _ => h' == h
  | _ => false

/-- An Ansible runner with one retry of the readiness probe, in sequential
mode. -/
def ansibleX : Ansible :=
  { config := { AnsibleCommand := "ansible", InventoryFilePath := "/etc/ancientt/hosts",
                CommandRetries := 1 }
    runOptions := (testRounds 2).RunOptions
    additionalInfo := "ansible 2.9.6" }

/-- A rendering that leaves every string as it is. -/
def renderPlain : Renderer := fun s _ => .ok s

/-- A world in which the server command runs until it is cancelled and is
then killed, every readiness probe succeeds and every client command
succeeds. -/
def worldReady : AnsibleWorld :=
  { render := renderPlain
    clean := fun b => b
    server := fun _ _ => .untilCancelled (some "signal: killed")
    probe := fun _ _ _ => none
    client := fun _ _ _ => ("{}", none)
    now := fun _ _ _ => 1700000001
    schedule := fun _ _ => [] }

/-- The world `worldReady` with every readiness probe failing. -/
def worldNotReady : AnsibleWorld :=
  { worldReady with probe := fun _ _ _ => some "exit status 1" }

/-- The world `worldReady` with every client command printing a message and
failing. -/
def worldClientFails : AnsibleWorld :=
  { worldReady with
    client := fun _ _ _ => ("iperf3: error - unable to connect to server", some "exit status 1") }

/-- The server task of host `a` with the client `b`. -/
def taskAB : Task :=
  Task.mk (some hostA) "iperf3" ["--json", "--server"] { TCP := [5601], UDP := [] }
    [Task.mk (some hostB) "iperf3" ["--json", "--client=192.0.2.1"] { TCP := [5601], UDP := [] }
      [] 0 none]
    0 (some Status.fresh)

/-- A Sleep-only task of five nanoseconds. -/
def napTask : Task :=
  Task.mk none "" [] { TCP := [], UDP := [] } [] 5 none

/-- A plan of two rounds: a wait and the server task of `a` in the first, the
server task of `a` in the second; it stops at the first error. -/
def planNapAB : Plan :=
  { Tester := "iperf3"
    TestStartTime := 1700000000
    AffectedServers := [("a", hostA), ("b", hostB)]
    Commands := [[napTask, taskAB], [taskAB]]
    RunOptions := (testRounds 2).RunOptions }

/-- What `runTasks` does for the server task of `a` when both readiness
probes fail and the server command is killed by the cancellation. -/
def resNotReady : RunResult :=
  { events :=
      [Event.startServer "a"
        ["--inventory=/etc/ancientt/hosts", "a", "--module-name=shell",
          "--args=iperf3 --json --server"],
       Event.probe 0
        ["--inventory=/etc/ancientt/hosts", "a", "--module-name=shell", "--args=pgrep iperf3"]
        (some "exit status 1"),
       Event.probe 1
        ["--inventory=/etc/ancientt/hosts", "a", "--module-name=shell", "--args=pgrep iperf3"]
        (some "exit status 1"),
       Event.addFailedServer "a" (some "ansible main test task is not running"),
       Event.cancelServer,
       Event.serverReturned (some "signal: killed"),
       Event.addFailedServer "a" (some "signal: killed")]
    status :=
      { SuccessfulHosts := { Servers := [], Clients := [] }
        FailedHosts := { Servers := [("a", 2)], Clients := [] }
        Errors := [("a", [some "ansible main test task is not running",
          some "signal: killed"])] }
    err := some "ansible main test task is not running" }

/-- A plan of two rounds with the server task of `a` in each; it stops at the
first error. -/
def planTwoRounds : Plan :=
  { Tester := "iperf3"
    TestStartTime := 1700000000
    AffectedServers := [("a", hostA), ("b", hostB)]
    Commands := [[taskAB], [taskAB]]
    RunOptions := (testRounds 2).RunOptions }

/-- A Kubernetes runner in sequential mode. -/
def kubeX : Kubernetes :=
  { config := { Namespace := "ancientt" }, runOptions := (testRounds 2).RunOptions }

/-- A cluster in which the server pod of round 0 cannot be created and
everything else succeeds. -/
def clusterNoServerPod : KubernetesWorld :=
  { render := renderPlain
    serverPodName := fun round host _ _ => "ancientt-server-" ++ host ++ "-" ++ toString round
    clientPodName := fun round host _ _ => "ancientt-client-" ++ host ++ "-" ++ toString round
    recreateServer := fun round _ => if round = 0 then some "pods is forbidden" else none
    waitServer := fun _ _ => (true, none)
    getServer := fun _ _ => ("10.0.0.7", none)
    deleteServer := fun _ _ => none
    recreateClient := fun _ _ _ => none
    waitClient := fun _ _ _ => (true, none)
    waitSucceed := fun _ _ _ => (true, none)
    logs := fun _ _ _ => ("{}", none)
    deleteClient := fun _ _ _ => none
    now := fun _ _ _ => 1700000001
    schedule := fun _ _ => [] }

/-- The Sleep-only tasks of a round: those the runners wait on. -/
def sleepTasks (ts : List Task) : List Task :=
  ts.filter (fun t => t.Sleep != 0)

/-- A test of two rounds with an interval of five nanoseconds between them. -/
def testInterval : Test :=
  { Type_ := "iperf3"
    RunOptions := { Rounds := 2, Interval := 5, Mode := "sequential", ParallelCount := 0,
                    ContinueOnError := some false } }

/-- An environment without servers, with the client `b`. -/
def envNoServers : Environment :=
  { Hosts := { Clients := [("b", hostB)], Servers := [] } }

/-- Every entry of an AffectedServers map is keyed by the name of its host,
and the host is one of the environment. -/
def keyedByName (env : Environment) (aff : GoMap Host) : Prop :=
  ∀ e ∈ aff, e.2.Name = e.1 ∧
    (e.2 ∈ env.Hosts.Servers.map Prod.snd ∨ e.2 ∈ env.Hosts.Clients.map Prod.snd)

/-- What every frame of a client of server `serverHost` in round `round` must
carry: the round, the two host names, the tester and the start time of the
plan, and the stream (not the buffer) as payload. -/
def Input.wellFormed (f : Input) (round : Nat) (serverHost clientHost tester : String)
    (startTime : Int) : Prop :=
  f.Round = round ∧ f.ServerHost = serverHost ∧ f.ClientHost = clientHost ∧
    f.Tester = tester ∧ f.TestStartTime = startTime ∧ f.DataStream.isSome = true ∧ f.Data = ""

/-- An iperf3 configuration with additional flags for the server and the
clients: UDP, thirty seconds. -/
def cfgFlags : IPerf3Config :=
  { AdditionalFlags := { Clients := ["--bitrate=10M", "--zerocopy"], Server := ["--one-off"] },
    UDP := some true, Duration := 30, Interval := 2 }

/-- A client task one of whose args names a field that `Variables` does not
have. -/
def taskNope : Task :=
  Task.mk (some hostB) "iperf3" ["--json", "--port=\x7b\x7b .Nope \x7d\x7d"]
    { TCP := [5601], UDP := [] } [] 0 none

/-- The text between the braces of a fact envelope as in `TestGetHostsForTest`
(ansible_test.go lines 72-81), with the IPv4 address only. -/
def factsBody : String :=
  "\n\t\x22ansible_facts\x22: \x7b\n\t\t\x22address\x22: \x22192.0.2.12\x22\n\t\x7d"

/-- A task whose command names a field that `Variables` does not have. -/
def taskNopeCommand : Task :=
  Task.mk (some hostB) "\x7b\x7b .Nope \x7d\x7d" ["--json"] { TCP := [5601], UDP := [] } [] 0 none

/-- A task whose command names the server port and whose second arg names a
field that `Variables` does not have. -/
def taskPortNope : Task :=
  Task.mk (some hostB) "iperf3-\x7b\x7b .ServerPort \x7d\x7d" ["--json", "\x7b\x7b .Nope \x7d\x7d"]
    { TCP := [5601], UDP := [] } [] 0 none

/-- A cluster in which the server pod is created but is not running when the
running timeout is over; everything else succeeds. -/
def clusterServerNotRunning : KubernetesWorld :=
  { clusterNoServerPod with
    recreateServer := fun _ _ => none
    waitServer := fun _ _ => (false, none) }

/-- A cluster in which the client pods are created but are not running when
the running timeout is over; everything else succeeds. -/
def clusterClientNotRunning : KubernetesWorld :=
  { clusterNoServerPod with
    recreateServer := fun _ _ => none
    waitClient := fun _ _ _ => (false, none) }

/-- Fact retrieval that succeeds for every host, with the addresses of the
fact envelope of `TestGetHostsForTest`. -/
def factsOk : String → Except Err IPAddresses :=
  fun _ => .ok { IPv4 := ["192.0.2.12"], IPv6 := ["2001:DB8::2337"] }

/-- A complete discovery of three hosts by two workers: the hosts are handed
over and reported on, `inCh` is closed, the workers leave, `retCh` is closed. -/
def movesTwoWorkers : List Move :=
  [Move.handOver 0, Move.handOver 1, Move.report 1, Move.handOver 1, Move.report 0,
   Move.report 1, Move.closeIn, Move.leave 0, Move.leave 1, Move.closeRet]

/-- Three nodes of a cluster, as hosts. -/
def nodes3 : List Host :=
  [{ Name := "node-0", Labels := [], Addresses := none },
   { Name := "node-1", Labels := [], Addresses := none },
   { Name := "node-2", Labels := [], Addresses := none }]

/-- An answer of the filter: every node for a selector with `All` set, the
first `Count` nodes otherwise. -/
def filterFirst : HostsFilter :=
  fun _ nodes sel => if sel.All = some true then .ok nodes else .ok (nodes.take sel.Count.toNat)

/-- The selector of every host. -/
def selAll : ConfigHosts := { All := some true, Random := none, Count := 0 }

/-- The selector of one host. -/
def selOne : ConfigHosts := { All := none, Random := some true, Count := 1 }

/-- A host accepted by the discovery on its default IPv6 address alone. -/
def hostV6 : Host :=
  { Name := "s6", Labels := [], Addresses := some { IPv4 := [], IPv6 := ["2001:db8::1"] } }

/-- An environment with the server `s6` and the client `b`. -/
def envV6 : Environment :=
  { Hosts := { Clients := [("b", hostB)], Servers := [("s6", hostV6)] } }

/-- The world `worldReady` with the rendering of `templateString`. -/
def worldTemplates : AnsibleWorld :=
  { worldReady with render := templateString (fun _ _ => .error "unsupported template syntax") }

/-- A host named `c`. -/
def hostC : Host :=
  { Name := "c", Labels := [], Addresses := some { IPv4 := ["192.0.2.3"], IPv6 := [] } }

/-- The server task of host `a` with the clients `b` and `c`. -/
def taskABC : Task :=
  Task.mk (some hostA) "iperf3" ["--json", "--server"] { TCP := [5601], UDP := [] }
    [Task.mk (some hostB) "iperf3" ["--json", "--client=192.0.2.1"] { TCP := [5601], UDP := [] }
      [] 0 none,
     Task.mk (some hostC) "iperf3" ["--json", "--client=192.0.2.1"] { TCP := [5601], UDP := [] }
      [] 0 none]
    0 (some Status.fresh)

/-- Run options of the parallel mode with a `ParallelCount` of one. -/
def parallelOne : RunOptions :=
  { Rounds := 1, Interval := 0, Mode := "parallel", ParallelCount := 1,
    ContinueOnError := some false }

/-- The Ansible runner `ansibleX` in parallel mode with a `ParallelCount` of
one. -/
def ansiblePar : Ansible :=
  { ansibleX with runOptions := parallelOne }

/-- The world `worldReady` in which the goroutines of the first two clients
both start before either goes on. -/
def worldOverlap : AnsibleWorld :=
  { worldReady with schedule := fun _ _ => [0, 1] }

/-- The Kubernetes runner `kubeX` in parallel mode with a `ParallelCount` of
one. -/
def kubePar : Kubernetes :=
  { kubeX with runOptions := parallelOne }

/-- A cluster in which everything succeeds and the goroutines of the first
two clients both start before either goes on. -/
def clusterOverlap : KubernetesWorld :=
  { clusterNoServerPod with
    recreateServer := fun _ _ => none
    schedule := fun _ _ => [0, 1] }

/-- A client task one of whose args names a field that `Variables` does not
have, inside a branch that is not executed. -/
def taskSkippedNope : Task :=
  Task.mk (some hostB) "iperf3"
    ["--json", "--port=\x7b\x7b if false \x7d\x7d\x7b\x7b .Nope \x7d\x7d\x7b\x7b end \x7d\x7d"]
    { TCP := [5601], UDP := [] } [] 0 none

/-! ## Theorems -/

/-! ### The iperf3 tester -/

theorem planClients_snd (cfg : IPerf3Config) (server : Host) (cs aff : GoMap Host)
    (subs : List Task) :
    (planClients cfg server cs aff subs).2 = subs ++ cs.map (fun c => clientTask cfg server c.2) := by
  induction cs generalizing aff subs with
  | nil => simp [planClients]
  | cons c cs ih => simp [planClients, ih]

theorem planServers_snd (cfg : IPerf3Config) (σ : RangeOrder) (env : Environment) (test : Test)
    (i : Nat) (ss : GoMap Host) (k : Nat) (aff : GoMap Host) (cmds : List Task) :
    (planServers cfg σ env test i ss k aff cmds).2 = cmds ++ roundOf cfg σ env test i k ss := by
  induction ss generalizing k aff cmds with
  | nil => simp [planServers, roundOf]
  | cons s ss ih =>
    simp only [planServers, roundOf, ih, planClients_snd, serverTaskOf, sleepAfter]
    split <;> simp

theorem planRounds_snd (cfg : IPerf3Config) (σ : RangeOrder) (env : Environment) (test : Test)
    (n i : Nat) (aff : GoMap Host) :
    (planRounds cfg σ env test n i aff).2 = roundsOf cfg σ env test n i := by
  induction n generalizing i aff with
  | zero => simp [planRounds, roundsOf]
  | succ n ih => simp [planRounds, roundsOf, ih, planServers_snd]

theorem roundsOf_length (cfg : IPerf3Config) (σ : RangeOrder) (env : Environment) (test : Test)
    (n i : Nat) : (roundsOf cfg σ env test n i).length = n := by
  induction n generalizing i with
  | zero => simp [roundsOf]
  | succ n ih => simp [roundsOf, ih]

theorem roundsOf_getElem? (cfg : IPerf3Config) (σ : RangeOrder) (env : Environment) (test : Test)
    (n i j : Nat) (h : j < n) :
    (roundsOf cfg σ env test n i)[j]? =
      some (roundOf cfg σ env test (i + j) 0 (σ.servers (i + j) env.Hosts.Servers)) := by
  induction n generalizing i j with
  | zero => omega
  | succ n ih =>
    cases j with
    | zero => simp [roundsOf]
    | succ j =>
      have e : i + 1 + j = i + (j + 1) := by omega
      have := ih (i + 1) j (by omega)
      simp only [roundsOf, List.getElem?_cons_succ, this, e]

theorem serverTaskOf_Sleep (cfg : IPerf3Config) (σ : RangeOrder) (env : Environment) (i k : Nat)
    (server : Host) : (serverTaskOf cfg σ env i k server).Sleep = 0 := rfl

theorem serverTaskOf_Host (cfg : IPerf3Config) (σ : RangeOrder) (env : Environment) (i k : Nat)
    (server : Host) : (serverTaskOf cfg σ env i k server).Host = some server := rfl

theorem serverTaskOf_SubTasks (cfg : IPerf3Config) (σ : RangeOrder) (env : Environment)
    (i k : Nat) (server : Host) :
    (serverTaskOf cfg σ env i k server).SubTasks =
      (σ.clients i k env.Hosts.Clients).map (fun c => clientTask cfg server c.2) := rfl

theorem clientTask_Host (cfg : IPerf3Config) (server client : Host) :
    (clientTask cfg server client).Host = some client := rfl

theorem serverTasks_sleepAfter (test : Test) (i : Nat) : serverTasks (sleepAfter test i) = [] := by
  unfold sleepAfter serverTasks
  split
  · next h => simp [Task.Sleep, h.1]
  · simp

theorem serverTasks_append (a b : List Task) :
    serverTasks (a ++ b) = serverTasks a ++ serverTasks b := by
  simp [serverTasks]

theorem serverTasks_roundOf (cfg : IPerf3Config) (σ : RangeOrder) (env : Environment) (test : Test)
    (i k : Nat) (ss : GoMap Host) :
    serverTasks (roundOf cfg σ env test i k ss) =
      (ss.enumFrom k).map (fun e => serverTaskOf cfg σ env i e.1 e.2.2) := by
  induction ss generalizing k with
  | nil => simp [roundOf, serverTasks]
  | cons s ss ih =>
    have h0 : serverTasks (serverTaskOf cfg σ env i k s.2 ::
        (sleepAfter test i ++ roundOf cfg σ env test i (k + 1) ss)) =
        serverTaskOf cfg σ env i k s.2 ::
          serverTasks (sleepAfter test i ++ roundOf cfg σ env test i (k + 1) ss) := by
      simp [serverTasks, List.filter_cons, serverTaskOf_Sleep]
    rw [roundOf, h0, serverTasks_append, serverTasks_sleepAfter, ih (k + 1)]
    simp [List.enumFrom_cons]

theorem taskHosts_clients (cfg : IPerf3Config) (server : Host) (cs : GoMap Host) :
    taskHosts (cs.map (fun c => clientTask cfg server c.2)) = cs.map Prod.snd := by
  induction cs with
  | nil => simp [taskHosts]
  | cons c cs ih =>
    unfold taskHosts at ih ⊢
    rw [List.map_cons, List.filterMap_cons, clientTask_Host, ih, List.map_cons]

theorem taskHosts_serverTasks (cfg : IPerf3Config) (σ : RangeOrder) (env : Environment)
    (i k : Nat) (ss : GoMap Host) :
    taskHosts ((ss.enumFrom k).map (fun e => serverTaskOf cfg σ env i e.1 e.2.2)) =
      ss.map Prod.snd := by
  induction ss generalizing k with
  | nil => simp [taskHosts]
  | cons s ss ih =>
    have := ih (k + 1)
    unfold taskHosts at this ⊢
    rw [List.enumFrom_cons, List.map_cons, List.filterMap_cons, serverTaskOf_Host, this,
      List.map_cons]

theorem mem_enumFrom_serverTask (cfg : IPerf3Config) (σ : RangeOrder) (env : Environment)
    (i k : Nat) (ss : GoMap Host) (t : Task)
    (h : t ∈ (ss.enumFrom k).map (fun e => serverTaskOf cfg σ env i e.1 e.2.2)) :
    ∃ j s, s ∈ ss ∧ t = serverTaskOf cfg σ env i j s.2 := by
  rw [List.mem_map] at h
  obtain ⟨⟨j, s⟩, hm, rfl⟩ := h
  exact ⟨j, s, List.snd_mem_of_mem_enumFrom hm, rfl⟩

theorem mem_roundsOf (cfg : IPerf3Config) (σ : RangeOrder) (env : Environment) (test : Test)
    (n i : Nat) (r : List Task) (h : r ∈ roundsOf cfg σ env test n i) :
    ∃ j, r = roundOf cfg σ env test j 0 (σ.servers j env.Hosts.Servers) := by
  induction n generalizing i with
  | zero => simp [roundsOf] at h
  | succ n ih =>
    simp only [roundsOf, List.mem_cons] at h
    rcases h with h | h
    · exact ⟨i, h⟩
    · exact ih (i + 1) h

/-- C2: for every visiting order of the maps, every environment and every test
config, `Plan` returns a plan (and no error) whose `Commands` has exactly
`RunOptions.Rounds` entries. -/
theorem plan_commands_length (cfg : IPerf3Config) (σ : RangeOrder) (env : Environment)
    (test : Test) :
    ∃ p, IPerf3.Plan cfg σ env test = .ok p ∧ p.Commands.length = test.RunOptions.Rounds := by
  refine ⟨_, rfl, ?_⟩
  simp [planRounds_snd, roundsOf_length]

/-- C1: with at least one round configured, `Plan` returns a plan with a
round in it, and in every round the server tasks are, host for host, the
entries of the Servers map (one task for each entry), the SubTasks of every
server task are, host for host, the entries of the Clients map (one client
task for each entry, so as many SubTasks as client hosts), and a host that is
both a server and a client gets a server task with itself among the clients. -/
theorem plan_pairing_cartesian (cfg : IPerf3Config) (σ : RangeOrder) (env : Environment)
    (test : Test) (hr : 1 ≤ test.RunOptions.Rounds) :
    ∃ p, IPerf3.Plan cfg σ env test = .ok p ∧ p.Commands ≠ [] ∧
      ∀ round ∈ p.Commands,
        (taskHosts (serverTasks round)).Perm (env.Hosts.Servers.map Prod.snd) ∧
        (serverTasks round).length = env.Hosts.Servers.length ∧
        (∀ t ∈ serverTasks round,
          (taskHosts t.SubTasks).Perm (env.Hosts.Clients.map Prod.snd) ∧
          t.SubTasks.length = env.Hosts.Clients.length) ∧
        (∀ h, h ∈ env.Hosts.Servers.map Prod.snd → h ∈ env.Hosts.Clients.map Prod.snd →
          ∃ t ∈ serverTasks round, t.Host = some h ∧ ∃ c ∈ t.SubTasks, c.Host = some h) := by
  refine ⟨_, rfl, ?_, ?_⟩
  · intro h0
    have := congrArg List.length h0
    simp [planRounds_snd, roundsOf_length] at this
    omega
  · intro round hround
    simp only [planRounds_snd] at hround
    obtain ⟨i, rfl⟩ := mem_roundsOf cfg σ env test _ _ _ hround
    rw [serverTasks_roundOf]
    have hsub : ∀ t ∈ (List.enumFrom 0 (σ.servers i env.Hosts.Servers)).map
        (fun e => serverTaskOf cfg σ env i e.1 e.2.2),
        (taskHosts t.SubTasks).Perm (env.Hosts.Clients.map Prod.snd) ∧
          t.SubTasks.length = env.Hosts.Clients.length := by
      intro t ht
      obtain ⟨j, s, _, rfl⟩ := mem_enumFrom_serverTask cfg σ env i 0 _ t ht
      simp only [serverTaskOf, Task.SubTasks, taskHosts_clients, List.length_map]
      exact ⟨(σ.clients_perm i j _).map _, (σ.clients_perm i j _).length_eq⟩
    refine ⟨?_, ?_, hsub, ?_⟩
    · rw [taskHosts_serverTasks]
      exact (σ.servers_perm i _).map _
    · simp [(σ.servers_perm i env.Hosts.Servers).length_eq]
    · intro h hs hc
      have hmem : h ∈ taskHosts ((List.enumFrom 0 (σ.servers i env.Hosts.Servers)).map
          (fun e => serverTaskOf cfg σ env i e.1 e.2.2)) := by
        rw [taskHosts_serverTasks]
        exact ((σ.servers_perm i _).map _).mem_iff.2 hs
      unfold taskHosts at hmem
      rw [List.mem_filterMap] at hmem
      obtain ⟨t, ht, hth⟩ := hmem
      refine ⟨t, ht, hth, ?_⟩
      have hc2 : h ∈ taskHosts t.SubTasks := (hsub t ht).1.mem_iff.2 hc
      unfold taskHosts at hc2
      rw [List.mem_filterMap] at hc2
      exact hc2

/-- Witness of C1: the plan of one round for the servers and clients `a` and
`b`, with the maps visited from `b` to `a`. -/
theorem plan_pairing_cartesian_witness :
    1 ≤ (testRounds 1).RunOptions.Rounds ∧
    ∃ p, IPerf3.Plan cfgPlain RangeOrder.backwards envAB (testRounds 1) = .ok p ∧
      p.Commands ≠ [] ∧
      ∀ round ∈ p.Commands,
        (taskHosts (serverTasks round)).Perm (envAB.Hosts.Servers.map Prod.snd) ∧
        (serverTasks round).length = envAB.Hosts.Servers.length ∧
        (∀ t ∈ serverTasks round,
          (taskHosts t.SubTasks).Perm (envAB.Hosts.Clients.map Prod.snd) ∧
          t.SubTasks.length = envAB.Hosts.Clients.length) ∧
        (∀ h, h ∈ envAB.Hosts.Servers.map Prod.snd → h ∈ envAB.Hosts.Clients.map Prod.snd →
          ∃ t ∈ serverTasks round, t.Host = some h ∧ ∃ c ∈ t.SubTasks, c.Host = some h) :=
  ⟨by decide, plan_pairing_cartesian cfgPlain RangeOrder.backwards envAB (testRounds 1)
    (by decide)⟩

/-- C9 (as stated, refuted): with the two servers `a` and `b` and the Servers
map visited from `b` to `a`, which Go permits, round 0 of the plan lists the
server task of `b` before that of `a`: not in ascending order of name. -/
theorem plan_not_sorted_by_name :
    ∃ p, IPerf3.Plan cfgPlain RangeOrder.backwards envAB (testRounds 1) = .ok p ∧
      ∃ round ∈ p.Commands, hostNames (serverTasks round) = ["b", "a"] ∧
        ¬ Ascending (hostNames (serverTasks round)) := by
  refine ⟨_, rfl, _, List.mem_cons_self _ _, ?_, ?_⟩
  · decide
  · unfold Ascending
    decide

/-- C9 (amended): `Plan` does not sort.  In round `i` the server tasks appear
in the order in which that round's range statement visits the Servers map,
and the SubTasks of the `k`-th server task appear in the order in which its
range statement visits the Clients map; both orders are rearrangements of the
map entries. -/
theorem plan_order_is_range_order (cfg : IPerf3Config) (σ : RangeOrder) (env : Environment)
    (test : Test) :
    ∃ p, IPerf3.Plan cfg σ env test = .ok p ∧
      ∀ i round, p.Commands[i]? = some round →
        taskHosts (serverTasks round) = (σ.servers i env.Hosts.Servers).map Prod.snd ∧
        ((σ.servers i env.Hosts.Servers).map Prod.snd).Perm (env.Hosts.Servers.map Prod.snd) ∧
        ∀ k t, (serverTasks round)[k]? = some t →
          taskHosts t.SubTasks = (σ.clients i k env.Hosts.Clients).map Prod.snd ∧
          ((σ.clients i k env.Hosts.Clients).map Prod.snd).Perm
            (env.Hosts.Clients.map Prod.snd) := by
  refine ⟨_, rfl, ?_⟩
  intro i round hround
  simp only [planRounds_snd] at hround
  have hi : i < test.RunOptions.Rounds := by
    have := (List.getElem?_eq_some.1 hround).1
    simpa [roundsOf_length] using this
  rw [roundsOf_getElem? cfg σ env test _ 0 i hi] at hround
  simp only [Nat.zero_add, Option.some.injEq] at hround
  subst hround
  rw [serverTasks_roundOf, taskHosts_serverTasks]
  refine ⟨rfl, (σ.servers_perm i _).map _, ?_⟩
  intro k t hk
  rw [List.getElem?_map, List.getElem?_enumFrom] at hk
  cases hs : (σ.servers i env.Hosts.Servers)[k]? with
  | none => simp [hs] at hk
  | some s =>
    simp only [hs, Option.map_some', Option.some.injEq, Nat.zero_add] at hk
    subst hk
    rw [serverTaskOf_SubTasks, taskHosts_clients]
    exact ⟨rfl, (σ.clients_perm i k _).map _⟩

theorem Task.sameUpToOrder_refl (a : Task) : a.sameUpToOrder a :=
  ⟨rfl, rfl, rfl, rfl, rfl, rfl, List.Perm.refl _⟩

theorem Task.sameUpToOrder_symm {a b : Task} (h : a.sameUpToOrder b) : b.sameUpToOrder a :=
  ⟨h.1.symm, h.2.1.symm, h.2.2.1.symm, h.2.2.2.1.symm, h.2.2.2.2.1.symm, h.2.2.2.2.2.1.symm,
    h.2.2.2.2.2.2.symm⟩

theorem Task.sameUpToOrder_trans {a b c : Task} (h : a.sameUpToOrder b)
    (h' : b.sameUpToOrder c) : a.sameUpToOrder c :=
  ⟨h.1.trans h'.1, h.2.1.trans h'.2.1, h.2.2.1.trans h'.2.2.1, h.2.2.2.1.trans h'.2.2.2.1,
    h.2.2.2.2.1.trans h'.2.2.2.2.1, h.2.2.2.2.2.1.trans h'.2.2.2.2.2.1,
    h.2.2.2.2.2.2.trans h'.2.2.2.2.2.2⟩

theorem forall₂_sameUpToOrder_symm {l₁ l₂ : List Task}
    (h : List.Forall₂ Task.sameUpToOrder l₁ l₂) : List.Forall₂ Task.sameUpToOrder l₂ l₁ := by
  induction h with
  | nil => exact List.Forall₂.nil
  | cons hab _ ih => exact List.Forall₂.cons (Task.sameUpToOrder_symm hab) ih

theorem forall₂_sameUpToOrder_trans {l₁ l₂ l₃ : List Task}
    (h : List.Forall₂ Task.sameUpToOrder l₁ l₂) (h' : List.Forall₂ Task.sameUpToOrder l₂ l₃) :
    List.Forall₂ Task.sameUpToOrder l₁ l₃ := by
  induction h generalizing l₃ with
  | nil => cases h'; exact List.Forall₂.nil
  | cons hab _ ih =>
    cases h' with
    | cons hbc hrest => exact List.Forall₂.cons (Task.sameUpToOrder_trans hab hbc) (ih hrest)

theorem roundOf_canonRound (cfg : IPerf3Config) (σ : RangeOrder) (env : Environment) (test : Test)
    (i k : Nat) (ss : GoMap Host) :
    List.Forall₂ Task.sameUpToOrder (roundOf cfg σ env test i k ss)
      (canonRound cfg env test i ss) := by
  induction ss generalizing k with
  | nil => simp [roundOf, canonRound]
  | cons s ss ih =>
    have hc : canonRound cfg env test i (s :: ss) =
        serverTaskOf cfg RangeOrder.listed env i 0 s.2 ::
          (sleepAfter test i ++ canonRound cfg env test i ss) := by
      simp [canonRound, List.flatMap_cons]
    rw [roundOf, hc]
    refine List.Forall₂.cons ?_ (List.rel_append ?_ (ih (k + 1)))
    · exact ⟨rfl, rfl, rfl, rfl, rfl, rfl, (σ.clients_perm i k _).map _⟩
    · exact List.forall₂_same.2 (fun t _ => Task.sameUpToOrder_refl t)

theorem roundsAgree_roundOf (cfg : IPerf3Config) (σ₁ σ₂ : RangeOrder) (env : Environment)
    (test : Test) (i : Nat) :
    roundsAgree (roundOf cfg σ₁ env test i 0 (σ₁.servers i env.Hosts.Servers))
      (roundOf cfg σ₂ env test i 0 (σ₂.servers i env.Hosts.Servers)) := by
  have h1 := roundOf_canonRound cfg σ₁ env test i 0 (σ₁.servers i env.Hosts.Servers)
  have h2 := roundOf_canonRound cfg σ₂ env test i 0 (σ₂.servers i env.Hosts.Servers)
  have hp : (canonRound cfg env test i (σ₁.servers i env.Hosts.Servers)).Perm
      (canonRound cfg env test i (σ₂.servers i env.Hosts.Servers)) :=
    List.Perm.flatMap_right _ ((σ₁.servers_perm i _).trans (σ₂.servers_perm i _).symm)
  have hcomp : Relation.Comp (List.Forall₂ Task.sameUpToOrder) List.Perm
      (roundOf cfg σ₁ env test i 0 (σ₁.servers i env.Hosts.Servers))
      (canonRound cfg env test i (σ₂.servers i env.Hosts.Servers)) := ⟨_, h1, hp⟩
  rw [List.forall₂_comp_perm_eq_perm_comp_forall₂] at hcomp
  obtain ⟨l, hl, hf⟩ := hcomp
  exact ⟨l, hl.symm, forall₂_sameUpToOrder_trans hf (forall₂_sameUpToOrder_symm h2)⟩

theorem roundsAgree_roundsOf (cfg : IPerf3Config) (σ₁ σ₂ : RangeOrder) (env : Environment)
    (test : Test) (n i : Nat) :
    List.Forall₂ roundsAgree (roundsOf cfg σ₁ env test n i) (roundsOf cfg σ₂ env test n i) := by
  induction n generalizing i with
  | zero => exact List.Forall₂.nil
  | succ n ih => exact List.Forall₂.cons (roundsAgree_roundOf cfg σ₁ σ₂ env test i) (ih (i + 1))

theorem has_append_singleton {V : Type} (m : GoMap V) (n k : String) (v : V) :
    GoMap.has (m ++ [(n, v)]) k = (m.has k || n == k) := by
  simp [GoMap.has]

theorem has_addAffected (aff : GoMap Host) (h : Host) (k : String) :
    (addAffected aff h).has k = (aff.has k || h.Name == k) := by
  unfold addAffected
  by_cases hh : aff.has h.Name = true
  · simp only [hh, Bool.not_true, Bool.false_eq_true, ↓reduceIte]
    by_cases hk : h.Name = k
    · subst hk; simp [hh]
    · simp [hk]
  · simp only [Bool.not_eq_true] at hh
    simp only [hh, Bool.not_false, ↓reduceIte, GoMap.set, Bool.false_eq_true]
    exact has_append_singleton aff h.Name k h

theorem has_planClients (cfg : IPerf3Config) (server : Host) (cs aff : GoMap Host)
    (subs : List Task) (k : String) :
    (planClients cfg server cs aff subs).1.has k = (aff.has k || cs.any (fun c => c.2.Name == k)) := by
  induction cs generalizing aff subs with
  | nil => simp [planClients]
  | cons c cs ih => simp [planClients, ih, has_addAffected, Bool.or_assoc]

theorem perm_any_eq {α : Type} {l₁ l₂ : List α} (h : l₁.Perm l₂) (f : α → Bool) :
    l₁.any f = l₂.any f := by
  rw [Bool.eq_iff_iff]
  simp only [List.any_eq_true]
  exact ⟨fun ⟨x, hx, hf⟩ => ⟨x, h.mem_iff.1 hx, hf⟩, fun ⟨x, hx, hf⟩ => ⟨x, h.mem_iff.2 hx, hf⟩⟩

theorem has_planServers (cfg : IPerf3Config) (σ : RangeOrder) (env : Environment) (test : Test)
    (i : Nat) (ss : GoMap Host) (k : Nat) (aff : GoMap Host) (cmds : List Task) (key : String) :
    (planServers cfg σ env test i ss k aff cmds).1.has key =
      (aff.has key || ss.any (fun s => s.2.Name == key) ||
        (!ss.isEmpty && env.Hosts.Clients.any (fun c => c.2.Name == key))) := by
  induction ss generalizing k aff cmds with
  | nil => simp [planServers]
  | cons s ss ih =>
    simp only [planServers, ih, has_planClients, has_addAffected,
      perm_any_eq (σ.clients_perm i k env.Hosts.Clients), List.any_cons, List.isEmpty_cons]
    generalize aff.has key = a
    generalize (s.2.Name == key) = b
    generalize (env.Hosts.Clients.any fun c => c.2.Name == key) = c
    generalize (ss.any fun s => s.2.Name == key) = d
    generalize ss.isEmpty = e
    cases a <;> cases b <;> cases c <;> cases d <;> cases e <;> rfl

theorem has_planRounds (cfg : IPerf3Config) (σ : RangeOrder) (env : Environment) (test : Test)
    (n i : Nat) (aff : GoMap Host) (key : String) :
    (planRounds cfg σ env test n i aff).1.has key =
      (aff.has key || (decide (0 < n) &&
        (env.Hosts.Servers.any (fun s => s.2.Name == key) ||
          (!env.Hosts.Servers.isEmpty && env.Hosts.Clients.any (fun c => c.2.Name == key))))) := by
  induction n generalizing i aff with
  | zero => simp [planRounds]
  | succ n ih =>
    have he : (σ.servers i env.Hosts.Servers).isEmpty = env.Hosts.Servers.isEmpty := by
      have hl := (σ.servers_perm i env.Hosts.Servers).length_eq
      rw [Bool.eq_iff_iff, List.isEmpty_iff_length_eq_zero, List.isEmpty_iff_length_eq_zero, hl]
    simp only [planRounds, ih, has_planServers, he,
      perm_any_eq (σ.servers_perm i env.Hosts.Servers), Nat.zero_lt_succ, decide_True,
      Bool.true_and]
    generalize aff.has key = a
    generalize (env.Hosts.Servers.any fun s => s.2.Name == key) = b
    generalize (env.Hosts.Clients.any fun c => c.2.Name == key) = c
    generalize env.Hosts.Servers.isEmpty = d
    generalize decide (0 < n) = e
    cases a <;> cases b <;> cases c <;> cases d <;> cases e <;> rfl

theorem planServers_congr (cfg : IPerf3Config) (σ₁ σ₂ : RangeOrder) (env : Environment)
    (test : Test) (i : Nat)
    (hc : ∀ k, σ₁.clients i k env.Hosts.Clients = σ₂.clients i k env.Hosts.Clients)
    (ss : GoMap Host) (k : Nat) (aff : GoMap Host) (cmds : List Task) :
    planServers cfg σ₁ env test i ss k aff cmds = planServers cfg σ₂ env test i ss k aff cmds := by
  induction ss generalizing k aff cmds with
  | nil => rfl
  | cons s ss ih => simp only [planServers, hc, ih]

theorem planRounds_congr (cfg : IPerf3Config) (σ₁ σ₂ : RangeOrder) (env : Environment)
    (test : Test)
    (hs : ∀ i, σ₁.servers i env.Hosts.Servers = σ₂.servers i env.Hosts.Servers)
    (hc : ∀ i k, σ₁.clients i k env.Hosts.Clients = σ₂.clients i k env.Hosts.Clients)
    (n i : Nat) (aff : GoMap Host) :
    planRounds cfg σ₁ env test n i aff = planRounds cfg σ₂ env test n i aff := by
  induction n generalizing i aff with
  | zero => rfl
  | succ n ih => simp only [planRounds, hs, planServers_congr cfg σ₁ σ₂ env test i (hc i), ih]

/-- C10 (as stated, refuted): two calls of `Plan` on the same environment and
test config, the first visiting the maps from `a` to `b` and the second from
`b` to `a`, return plans whose rounds differ. -/
theorem plan_two_calls_differ :
    ∃ p₁ p₂, IPerf3.Plan cfgPlain RangeOrder.listed envAB (testRounds 1) = .ok p₁ ∧
      IPerf3.Plan cfgPlain RangeOrder.backwards envAB (testRounds 1) = .ok p₂ ∧
      p₁.Commands ≠ p₂.Commands := by
  refine ⟨_, _, rfl, rfl, ?_⟩
  intro h
  have h' := congrArg (fun c => c.map hostNames) h
  revert h'
  decide

/-- C10 (amended): for every environment, every iperf3 configuration with
`Duration` and `Interval` set and every test config whose `Rounds` is not
negative (the configurations of the embedding), two calls of `Plan` on the
same environment and test config return no error and plans that agree in
`Tester`, `TestStartTime` and `RunOptions`, have the same keys in
`AffectedServers`, and hold round for round the same tasks (same Host,
Command, Args, Ports, Sleep and Status) up to the order of the tasks of a
round and of the SubTasks of a task; when both calls visit the maps in the
same order the two plans are equal. -/
theorem plan_equal_up_to_order (cfg : IPerf3Config) (σ₁ σ₂ : RangeOrder) (env : Environment)
    (test : Test) :
    ∃ p₁ p₂, IPerf3.Plan cfg σ₁ env test = .ok p₁ ∧ IPerf3.Plan cfg σ₂ env test = .ok p₂ ∧
      p₁.Tester = p₂.Tester ∧ p₁.TestStartTime = p₂.TestStartTime ∧
      p₁.RunOptions = p₂.RunOptions ∧
      (∀ key, p₁.AffectedServers.has key = p₂.AffectedServers.has key) ∧
      List.Forall₂ roundsAgree p₁.Commands p₂.Commands ∧
      ((∀ i, σ₁.servers i env.Hosts.Servers = σ₂.servers i env.Hosts.Servers) →
        (∀ i k, σ₁.clients i k env.Hosts.Clients = σ₂.clients i k env.Hosts.Clients) →
        p₁ = p₂) := by
  refine ⟨_, _, rfl, rfl, rfl, rfl, rfl, ?_, ?_, ?_⟩
  · intro key
    simp only [has_planRounds]
  · simp only [planRounds_snd]
    exact roundsAgree_roundsOf cfg σ₁ σ₂ env test _ 0
  · intro hs hc
    simp only [planRounds_congr cfg σ₁ σ₂ env test hs hc]

/-! ### The loops of `Execute` -/

theorem afterRound_cons (later : Option ExecResult) (st : Step)
    (o : Option (ExecResult × Bool)) :
    afterRound later (o.map (fun r => ({ r.1 with steps := st :: r.1.steps }, r.2))) =
      (afterRound later o).map (fun x => { x with steps := st :: x.steps }) := by
  cases o with
  | none => rfl
  | some x =>
    obtain ⟨r, b⟩ := x
    cases b
    · rfl
    · cases later <;> rfl

theorem executeTasks_cells (run : Nat → Nat → Task → Option RunResult) (coe : Option Bool)
    (round : Nat) (tasks : List Task) (i : Nat) (rest : List (Nat × Nat × Task)) :
    executeCells run coe (roundCells round i tasks ++ rest) =
      afterRound (executeCells run coe rest) (executeTasks run coe round i tasks) := by
  induction tasks generalizing i with
  | nil =>
    simp only [roundCells, List.nil_append, executeTasks, afterRound]
    cases executeCells run coe rest <;> rfl
  | cons task tasks ih =>
    simp only [roundCells, List.cons_append, executeCells, executeTasks]
    by_cases hs : task.Sleep ≠ 0
    · rw [if_pos hs, if_pos hs]
      simp only [List.append_eq, ih, afterRound_cons]
    · rw [if_neg hs, if_neg hs]
      cases hr : run round i task with
      | none => rfl
      | some r =>
        dsimp only
        cases he : r.err with
        | none => simp only [List.append_eq, ih, afterRound_cons]
        | some e =>
          cases coe with
          | none => rfl
          | some b =>
            cases b
            · rfl
            · simp only [List.append_eq, ih, afterRound_cons]

theorem executeRounds_cells (run : Nat → Nat → Task → Option RunResult) (coe : Option Bool)
    (round : Nat) (rounds : List (List Task)) :
    executeRounds run coe round rounds = executeCells run coe (planCells round rounds) := by
  induction rounds generalizing round with
  | nil => rfl
  | cons tasks rest ih =>
    rw [planCells, executeTasks_cells, ← ih, executeRounds]
    cases h : executeTasks run coe round 0 tasks with
    | none => rfl
    | some x =>
      obtain ⟨r, b⟩ := x
      cases b <;> rfl

/-! ### Counters of a Status -/

theorem find_key_eq_none {V : Type} (m : GoMap V) (k : String) (hk : m.has k = false) :
    m.find? (fun e => e.1 == k) = none := by
  rw [List.find?_eq_none]
  intro x hx hxk
  have : m.has k = true := List.any_eq_true.2 ⟨x, hx, hxk⟩
  rw [hk] at this
  exact Bool.false_ne_true this

theorem find_key_isSome {V : Type} (m : GoMap V) (k : String) (hk : m.has k = true) :
    ∃ e, m.find? (fun e => e.1 == k) = some e := by
  cases h : m.find? (fun e => e.1 == k) with
  | some e => exact ⟨e, rfl⟩
  | none =>
    rw [List.find?_eq_none] at h
    obtain ⟨x, hx, hxk⟩ := List.any_eq_true.1 hk
    exact absurd hxk (h x hx)

theorem count_append_singleton (m : GoMap Nat) (k h : String) (v : Nat)
    (hk : m.has k = false) :
    GoMap.count (m ++ [(k, v)]) h = if h = k then v else m.count h := by
  unfold GoMap.count
  rw [List.find?_append]
  by_cases e : h = k
  · subst e
    rw [find_key_eq_none m h hk]
    simp
  · have e' : ¬ k = h := fun z => e z.symm
    cases m.find? (fun e => e.1 == h) <;> simp [e, e']

theorem count_map_set (m : GoMap Nat) (k h : String) (v : Nat) (hk : m.has k = true) :
    GoMap.count (m.map (fun e => if e.1 == k then (k, v) else e)) h =
      if h = k then v else m.count h := by
  unfold GoMap.count
  have hf : ((fun e : String × Nat => e.1 == h) ∘ fun e => if e.1 == k then (k, v) else e) =
      fun e => e.1 == h := by
    funext e
    by_cases ek : e.1 = k
    · simp [ek]
    · simp [ek]
  rw [List.find?_map, hf]
  by_cases e : h = k
  · subst e
    obtain ⟨x, hx⟩ := find_key_isSome m h hk
    have hxk : x.1 = h := by simpa using List.find?_some hx
    simp [hx, hxk]
  · cases hx : m.find? (fun e => e.1 == h) with
    | none => simp [e]
    | some x =>
      have hxk : x.1 = h := by simpa using List.find?_some hx
      have hne : ¬ x.1 = k := fun z => e (hxk.symm.trans z)
      simp [e, hne]

theorem count_set (m : GoMap Nat) (k h : String) (v : Nat) :
    (m.set k v).count h = if h = k then v else m.count h := by
  unfold GoMap.set
  by_cases hk : m.has k = true
  · rw [if_pos hk]
    exact count_map_set m k h v hk
  · rw [if_neg hk]
    exact count_append_singleton m k h v (by simpa using hk)

theorem count_incr (m : GoMap Nat) (k h : String) :
    (m.incr k).count h = m.count h + if k == h then 1 else 0 := by
  unfold GoMap.incr
  rw [count_set]
  by_cases e : h = k
  · subst e; simp
  · have e' : ¬ k = h := fun z => e z.symm
    simp [e, e']

theorem after_cons (st : Status) (e : Event) (es : List Event) :
    st.after (e :: es) = (st.apply e).after es := rfl

theorem after_successful_clients (st : Status) (es : List Event) (h : String) :
    (st.after es).SuccessfulHosts.Clients.count h =
      st.SuccessfulHosts.Clients.count h + es.countP (Event.succeeds h) := by
  induction es generalizing st with
  | nil => simp [Status.after]
  | cons e es ih =>
    rw [after_cons, ih, List.countP_cons]
    cases e <;>
      simp [Status.apply, Event.succeeds, Status.AddSuccessfulServer, Status.AddFailedServer,
        Status.AddSuccessfulClient, Status.AddFailedClient, count_incr]
    all_goals omega

theorem after_failed_clients (st : Status) (es : List Event) (h : String) :
    (st.after es).FailedHosts.Clients.count h =
      st.FailedHosts.Clients.count h + es.countP (Event.fails h) := by
  induction es generalizing st with
  | nil => simp [Status.after]
  | cons e es ih =>
    rw [after_cons, ih, List.countP_cons]
    cases e <;>
      simp [Status.apply, Event.fails, Status.AddSuccessfulServer, Status.AddFailedServer,
        Status.AddSuccessfulClient, Status.AddFailedClient, count_incr]
    all_goals omega

/-! ### Interleavings -/

theorem popAt_perm {α : Type} (k : Nat) (ls : List (List α)) (x : α) (ls' : List (List α))
    (h : popAt k ls = some (x, ls')) : ls.flatten.Perm (x :: ls'.flatten) := by
  induction ls generalizing k ls' with
  | nil => simp [popAt] at h
  | cons l ls ih =>
    cases k with
    | zero =>
      cases l with
      | nil => simp [popAt] at h
      | cons y ys =>
        simp only [popAt, Option.some.injEq, Prod.mk.injEq] at h
        obtain ⟨rfl, rfl⟩ := h
        simp
    | succ k =>
      simp only [popAt, Option.map_eq_some'] at h
      obtain ⟨⟨y, rest⟩, hp, he⟩ := h
      simp only [Prod.mk.injEq] at he
      obtain ⟨rfl, rfl⟩ := he
      have := ih k rest hp
      simp only [List.flatten_cons]
      exact (List.Perm.append_left l this).trans List.perm_middle

theorem interleave_perm {α : Type} (schedule : List Nat) (ls : List (List α)) :
    (interleave schedule ls).Perm ls.flatten := by
  induction schedule generalizing ls with
  | nil => exact List.Perm.refl _
  | cons k schedule ih =>
    simp only [interleave]
    cases h : popAt k ls with
    | none => exact ih ls
    | some r =>
      obtain ⟨x, ls'⟩ := r
      exact ((ih ls').cons x).trans (popAt_perm k ls x ls' h).symm

/-! ### The Ansible runner -/

theorem probeLoop_not_client (a : Ansible) (w : AnsibleWorld) (round idx : Nat)
    (host command : String) (n i : Nat) :
    ∀ e ∈ (a.probeLoop w round idx host command n i).1, e.isClient = false := by
  induction n generalizing i with
  | zero => simp [Ansible.probeLoop]
  | succ n ih =>
    intro e he
    simp only [Ansible.probeLoop] at he
    cases hp : w.probe round idx i with
    | none =>
      simp only [hp, List.mem_singleton] at he
      subst he
      rfl
    | some err =>
      simp only [hp, List.mem_cons] at he
      rcases he with he | he
      · subst he
        rfl
      · exact ih (i + 1) e he

theorem probeLoop_ready (a : Ansible) (w : AnsibleWorld) (round idx : Nat)
    (host command : String) (n i : Nat)
    (h : (a.probeLoop w round idx host command n i).2 = true) :
    ∃ e ∈ (a.probeLoop w round idx host command n i).1, e.isReady = true := by
  induction n generalizing i with
  | zero => simp [Ansible.probeLoop] at h
  | succ n ih =>
    simp only [Ansible.probeLoop] at h ⊢
    cases hp : w.probe round idx i with
    | none => exact ⟨_, List.mem_singleton.2 rfl, rfl⟩
    | some err =>
      simp only [hp] at h
      obtain ⟨e, he, hr⟩ := ih (i + 1) h
      exact ⟨e, List.mem_cons_of_mem _ he, hr⟩

theorem probeLoop_all_fail (a : Ansible) (w : AnsibleWorld) (round idx : Nat)
    (host command : String) (n i : Nat)
    (h : ∀ t, t < n → (w.probe round idx (i + t)).isSome = true) :
    (a.probeLoop w round idx host command n i).2 = false := by
  induction n generalizing i with
  | zero => rfl
  | succ n ih =>
    simp only [Ansible.probeLoop]
    have h0 := h 0 (Nat.succ_pos n)
    cases hp : w.probe round idx i with
    | none => simp [hp] at h0
    | some err =>
      refine ih (i + 1) (fun t ht => ?_)
      have := h (t + 1) (Nat.succ_lt_succ ht)
      rwa [show i + (t + 1) = i + 1 + t by omega] at this

theorem Template_SubTasks (render : Renderer) (task : Task) (vars : Variables) :
    (Template render task vars).1.SubTasks = task.SubTasks := by
  cases task with
  | mk h c args p subs d st =>
    simp only [Template]
    cases render c vars with
    | error e => rfl
    | ok c' =>
      cases templateArgs render vars args [] <;> rfl

theorem serverEarly_not_client (host : String) (run : ServerRun) :
    ∀ e ∈ Ansible.serverEarly host run, e.isClient = false := by
  intro e he
  cases run with
  | early err =>
    cases err with
    | none =>
      simp only [Ansible.serverEarly, Ansible.serverReturn, List.mem_singleton] at he
      subst he; rfl
    | some x =>
      simp only [Ansible.serverEarly, Ansible.serverReturn, Bool.false_eq_true, ↓reduceIte,
        List.mem_cons, List.mem_singleton, List.not_mem_nil, or_false] at he
      rcases he with he | he <;> subst he <;> rfl
  | untilCancelled err => simp [Ansible.serverEarly] at he

theorem serverLate_not_client (host : String) (stopped : Bool) (run : ServerRun) :
    ∀ e ∈ Ansible.serverLate host stopped run, e.isClient = false := by
  intro e he
  cases run with
  | untilCancelled err =>
    cases err with
    | none =>
      simp only [Ansible.serverLate, Ansible.serverReturn, List.mem_singleton] at he
      subst he; rfl
    | some x =>
      cases stopped <;>
        simp only [Ansible.serverLate, Ansible.serverReturn, Bool.false_eq_true, ↓reduceIte,
          List.mem_cons, List.mem_singleton, List.not_mem_nil, or_false] at he <;>
        rcases he with he | he <;> subst he <;> rfl
  | early err => simp [Ansible.serverLate] at he

theorem Ansible.runTasks_cases (a : Ansible) (w : AnsibleWorld) (round idx : Nat)
    (mainTask : Task) (plannedTime : Int) (tester : String) (r : RunResult)
    (h : a.runTasks w round idx mainTask plannedTime tester = some r) :
    ∃ host st addrs sargs cmd vars,
      mainTask.Host = some host ∧ mainTask.Status = some st ∧ host.Addresses = some addrs ∧
      r.status = st.after r.events ∧
      ((∃ err, r.events = [Event.addFailedServer host.Name (some err)] ∧ r.err = some err) ∨
       ((a.probeLoop w round idx host.Name cmd (a.config.CommandRetries + 1).toNat 0).2 = false ∧
        r.events = (Event.startServer host.Name sargs ::
            Ansible.serverEarly host.Name (w.server round idx)) ++
          (a.probeLoop w round idx host.Name cmd (a.config.CommandRetries + 1).toNat 0).1 ++
          [Event.addFailedServer host.Name (some "ansible main test task is not running"),
            Event.cancelServer] ++
          Ansible.serverLate host.Name false (w.server round idx) ∧
        r.err = some "ansible main test task is not running") ∨
       ((a.probeLoop w round idx host.Name cmd (a.config.CommandRetries + 1).toNat 0).2 = true ∧
        ∃ runs clients,
          Ansible.clientRuns a w round idx host.Name vars plannedTime tester 0
            mainTask.SubTasks = some runs ∧
          clients.Perm runs.flatten ∧
          (a.runOptions.Mode ≠ RunModeParallel → clients = runs.flatten) ∧
          r.events = (Event.startServer host.Name sargs ::
              Ansible.serverEarly host.Name (w.server round idx)) ++
            (a.probeLoop w round idx host.Name cmd (a.config.CommandRetries + 1).toNat 0).1 ++
            clients ++ [Event.addSuccessfulServer host.Name, Event.cancelServer] ++
            Ansible.serverLate host.Name true (w.server round idx) ∧
          r.err = none)) := by
  unfold Ansible.runTasks at h
  split at h
  · next host status hH hS =>
    split at h
    · exact absurd h (by simp)
    · next addrs hA =>
      refine ⟨host, status, addrs, ?_⟩
      simp only at h
      split at h
      · next t err hT =>
        simp only [Option.some.injEq] at h
        subst h
        exact ⟨[], "", ⟨"", "", 0⟩, hH, hS, hA, rfl, Or.inl ⟨err, rfl, rfl⟩⟩
      · next mainTask' hT =>
        have hsub : mainTask'.SubTasks = mainTask.SubTasks := by
          have := Template_SubTasks w.render mainTask
            { ServerPort := 5601, ServerAddressV4 := addrs.IPv4.head?.getD "",
              ServerAddressV6 := addrs.IPv6.head?.getD "" }
          rw [hT] at this
          exact this
        split at h
        · next hready =>
          split at h
          · exact absurd h (by simp)
          · next runs hruns =>
            simp only [Option.some.injEq] at h
            subst h
            rw [hsub] at hruns
            refine ⟨_, mainTask'.Command, _, hH, hS, hA, rfl, Or.inr (Or.inr ⟨hready, runs, _,
              hruns, ?_, ?_, rfl, rfl⟩)⟩
            · split
              · exact List.Perm.refl _
              · exact interleave_perm _ _
            · intro hm
              rw [if_pos hm]
        · next hready =>
          simp only [Option.some.injEq] at h
          subst h
          refine ⟨_, mainTask'.Command, ⟨"", "", 0⟩, hH, hS, hA, rfl,
            Or.inr (Or.inl ⟨?_, rfl, rfl⟩)⟩
          simpa using hready
  · exact absurd h (by simp)

theorem after_failed_servers (st : Status) (es : List Event) (h : String) :
    (st.after es).FailedHosts.Servers.count h =
      st.FailedHosts.Servers.count h + es.countP (Event.failsServer h) := by
  induction es generalizing st with
  | nil => simp [Status.after]
  | cons e es ih =>
    rw [after_cons, ih, List.countP_cons]
    cases e <;>
      simp [Status.apply, Event.failsServer, Status.AddSuccessfulServer, Status.AddFailedServer,
        Status.AddSuccessfulClient, Status.AddFailedClient, count_incr]
    all_goals omega

theorem prefix_of_not_client (A B pre post : List Event) (e : Event)
    (h : A ++ B = pre ++ e :: post) (he : e.isClient = true)
    (hA : ∀ x ∈ A, x.isClient = false) : ∃ pre', pre = A ++ pre' := by
  rw [List.append_eq_append_iff] at h
  rcases h with ⟨a', h1, h2⟩ | ⟨c', h1, h2⟩
  · exact ⟨a', h1⟩
  · cases c' with
    | nil => exact ⟨[], by simpa using h1.symm⟩
    | cons x c' =>
      simp only [List.cons_append, List.cons.injEq] at h2
      have : e ∈ A := by
        rw [h1, ← h2.1]
        simp
      rw [hA e this] at he
      exact absurd he (by simp)

/-- C3: in `runTasks` of the Ansible runner every action of a client subtask
(its launch, its command, its frame, its Status call) comes after a readiness
probe that returned success; and when the `CommandRetries + 1` probes all
fail, `runTasks` returns an error, no client action happens at all (no client
command, no frame), and the failure is recorded with `AddFailedServer` for the
server host, whose count of failures grows. -/
theorem ansible_readiness_precedes_clients (a : Ansible) (w : AnsibleWorld) (round idx : Nat)
    (mainTask : Task) (plannedTime : Int) (tester : String) (host : Host) (addrs : IPAddresses)
    (st : Status) (hH : mainTask.Host = some host) (hA : host.Addresses = some addrs)
    (hS : mainTask.Status = some st) :
    (∀ r, a.runTasks w round idx mainTask plannedTime tester = some r →
      ∀ pre e post, r.events = pre ++ e :: post → e.isClient = true →
        ∃ p ∈ pre, p.isReady = true) ∧
    ((∀ t, t < (a.config.CommandRetries + 1).toNat → (w.probe round idx t).isSome = true) →
      ∃ r, a.runTasks w round idx mainTask plannedTime tester = some r ∧
        r.err.isSome = true ∧ (∀ e ∈ r.events, e.isClient = false) ∧
        (∃ err, Event.addFailedServer host.Name err ∈ r.events) ∧
        st.FailedHosts.Servers.count host.Name <
          r.status.FailedHosts.Servers.count host.Name) := by
  constructor
  · intro r hr pre e post hev he
    obtain ⟨host', st', addrs', sargs, cmd, vars, _, _, _, _, hcase⟩ :=
      Ansible.runTasks_cases a w round idx mainTask plannedTime tester r hr
    have hmem : e ∈ r.events := by rw [hev]; simp
    rcases hcase with ⟨err, h1, _⟩ | ⟨_, h1, _⟩ | ⟨hready, runs, clients, _, _, _, h1, _⟩
    · rw [h1, List.mem_singleton] at hmem
      subst hmem
      exact absurd he (by simp [Event.isClient])
    · rw [h1] at hmem
      simp only [List.mem_append, List.mem_cons, List.mem_singleton, List.not_mem_nil,
        or_false] at hmem
      rcases hmem with ((hm | hm) | hm) | hm
      · rcases hm with hm | hm
        · subst hm
          exact absurd he (by simp [Event.isClient])
        · rw [serverEarly_not_client _ _ e hm] at he
          exact absurd he (by simp)
      · rw [probeLoop_not_client _ _ _ _ _ _ _ _ e hm] at he
        exact absurd he (by simp)
      · rcases hm with hm | hm <;> subst hm <;> exact absurd he (by simp [Event.isClient])
      · rw [serverLate_not_client _ _ _ e hm] at he
        exact absurd he (by simp)
    · rw [hev, List.append_assoc, List.append_assoc] at h1
      obtain ⟨pre', hpre⟩ := prefix_of_not_client _ _ pre post e h1.symm he (by
        intro x hx
        simp only [List.mem_append, List.mem_cons] at hx
        rcases hx with (hx | hx) | hx
        · subst hx; rfl
        · exact serverEarly_not_client _ _ x hx
        · exact probeLoop_not_client _ _ _ _ _ _ _ _ x hx)
      obtain ⟨p, hp, hpr⟩ := probeLoop_ready _ _ _ _ _ _ _ _ hready
      exact ⟨p, by rw [hpre]; simp [hp], hpr⟩
  · intro hfail
    have hnot : ∀ cmd, (a.probeLoop w round idx host.Name cmd
        (a.config.CommandRetries + 1).toNat 0).2 = false := fun cmd =>
      probeLoop_all_fail a w round idx host.Name cmd _ 0 (fun t ht => by
        simpa using hfail t ht)
    cases hrun : a.runTasks w round idx mainTask plannedTime tester with
    | none =>
      exfalso
      unfold Ansible.runTasks at hrun
      simp only [hH, hS, hA] at hrun
      split at hrun
      · exact absurd hrun (by simp)
      · rw [hnot] at hrun
        simp at hrun
    | some r =>
      obtain ⟨host', st', addrs', sargs, cmd, vars, hH', hS', _, hst, hcase⟩ :=
        Ansible.runTasks_cases a w round idx mainTask plannedTime tester r hrun
      rw [hH] at hH'
      rw [hS] at hS'
      simp only [Option.some.injEq] at hH' hS'
      subst hH' hS'
      have key : r.err.isSome = true ∧ (∀ e ∈ r.events, e.isClient = false) ∧
          ∃ err, Event.addFailedServer host.Name err ∈ r.events := by
        rcases hcase with ⟨err, h1, h2⟩ | ⟨_, h1, h2⟩ | ⟨hready, _⟩
        · refine ⟨by simp [h2], ?_, some err, by simp [h1]⟩
          intro e he
          rw [h1, List.mem_singleton] at he
          subst he
          rfl
        · refine ⟨by simp [h2], ?_, some "ansible main test task is not running",
            by rw [h1]; simp⟩
          intro e hm
          rw [h1] at hm
          simp only [List.mem_append, List.mem_cons, List.mem_singleton, List.not_mem_nil,
            or_false] at hm
          rcases hm with ((hm | hm) | hm) | hm
          · rcases hm with hm | hm
            · subst hm; rfl
            · exact serverEarly_not_client _ _ e hm
          · exact probeLoop_not_client _ _ _ _ _ _ _ _ e hm
          · rcases hm with hm | hm <;> subst hm <;> rfl
          · exact serverLate_not_client _ _ _ e hm
        · rw [hnot] at hready
          exact absurd hready (by simp)
      refine ⟨r, rfl, key.1, key.2.1, key.2.2, ?_⟩
      obtain ⟨err, herr⟩ := key.2.2
      rw [hst, after_failed_servers]
      have : 0 < r.events.countP (Event.failsServer host.Name) :=
        List.countP_pos_iff.2 ⟨_, herr, by simp [Event.failsServer]⟩
      omega

/-- Witness of C3: the server task of `a` in a world where both readiness
probes fail. -/
theorem ansible_readiness_precedes_clients_witness :
    taskAB.Host = some hostA ∧
    hostA.Addresses = some { IPv4 := ["192.0.2.1"], IPv6 := [] } ∧
    taskAB.Status = some Status.fresh ∧
    (∀ r, ansibleX.runTasks worldNotReady 0 0 taskAB 1700000000 "iperf3" = some r →
      ∀ pre e post, r.events = pre ++ e :: post → e.isClient = true →
        ∃ p ∈ pre, p.isReady = true) ∧
    ((∀ t, t < (ansibleX.config.CommandRetries + 1).toNat →
        (worldNotReady.probe 0 0 t).isSome = true) →
      ∃ r, ansibleX.runTasks worldNotReady 0 0 taskAB 1700000000 "iperf3" = some r ∧
        r.err.isSome = true ∧ (∀ e ∈ r.events, e.isClient = false) ∧
        (∃ err, Event.addFailedServer hostA.Name err ∈ r.events) ∧
        Status.fresh.FailedHosts.Servers.count hostA.Name <
          r.status.FailedHosts.Servers.count hostA.Name) :=
  ⟨rfl, rfl, rfl,
    ansible_readiness_precedes_clients ansibleX worldNotReady 0 0 taskAB 1700000000 "iperf3"
      hostA { IPv4 := ["192.0.2.1"], IPv6 := [] } Status.fresh rfl rfl rfl⟩

theorem not_client_counts (h : String) (e : Event) (he : e.isClient = false) :
    Event.launches h e = false ∧ Event.succeeds h e = false ∧ Event.fails h e = false ∧
      e.isSend = false ∧ e.isExecOk = false ∧ e.isClientStatus = false := by
  cases e <;> simp [Event.isClient] at he <;>
    simp [Event.launches, Event.succeeds, Event.fails, Event.isSend, Event.isExecOk,
      Event.isClientStatus]

theorem countP_eq_zero_of_not_client (p : Event → Bool) (es : List Event)
    (hp : ∀ e, e.isClient = false → p e = false) (hes : ∀ e ∈ es, e.isClient = false) :
    es.countP p = 0 := by
  rw [List.countP_eq_zero]
  intro e he
  rw [hp e (hes e he)]
  simp

theorem Ansible.clientRun_counts (a : Ansible) (w : AnsibleWorld) (round idx : Nat)
    (serverHost : String) (vars : Variables) (plannedTime : Int) (tester : String) (j : Nat)
    (task : Task) (host : Host) (h : String) :
    (a.clientRun w round idx serverHost vars plannedTime tester j task host).countP
        (Event.launches h) = (if host.Name == h then 1 else 0) ∧
    (a.clientRun w round idx serverHost vars plannedTime tester j task host).countP
        (Event.succeeds h) +
      (a.clientRun w round idx serverHost vars plannedTime tester j task host).countP
        (Event.fails h) = (if host.Name == h then 1 else 0) ∧
    (a.clientRun w round idx serverHost vars plannedTime tester j task host).countP
        Event.isSend =
      (a.clientRun w round idx serverHost vars plannedTime tester j task host).countP
        Event.isExecOk := by
  unfold Ansible.clientRun
  split
  · simp [List.countP_cons, Event.launches, Event.succeeds, Event.fails, Event.isSend,
      Event.isExecOk]
  · dsimp only
    split
    · next err herr =>
      simp [List.countP_cons, Event.launches, Event.succeeds, Event.fails, Event.isSend,
        Event.isExecOk, herr]
    · next herr =>
      simp [List.countP_cons, Event.launches, Event.succeeds, Event.fails, Event.isSend,
        Event.isExecOk, herr]

theorem Ansible.clientRun_resolves (a : Ansible) (w : AnsibleWorld) (round idx : Nat)
    (serverHost : String) (vars : Variables) (plannedTime : Int) (tester : String) (j : Nat)
    (task : Task) (host : Host) :
    ∃ e, (a.clientRun w round idx serverHost vars plannedTime tester j task host).filter
        Event.isClientStatus = [e] ∧ e.resolves host.Name := by
  unfold Ansible.clientRun
  split
  · exact ⟨_, rfl, Or.inr ⟨_, rfl⟩⟩
  · dsimp only
    split
    · exact ⟨_, rfl, Or.inr ⟨_, rfl⟩⟩
    · exact ⟨_, rfl, Or.inl rfl⟩

theorem Ansible.clientRuns_counts (a : Ansible) (w : AnsibleWorld) (round idx : Nat)
    (serverHost : String) (vars : Variables) (plannedTime : Int) (tester : String)
    (tasks : List Task) (j : Nat) (runs : List (List Event)) (h : String)
    (hr : a.clientRuns w round idx serverHost vars plannedTime tester j tasks = some runs) :
    runs.flatten.countP (Event.launches h) =
        (taskHosts tasks).countP (fun c => c.Name == h) ∧
      runs.flatten.countP (Event.succeeds h) + runs.flatten.countP (Event.fails h) =
        (taskHosts tasks).countP (fun c => c.Name == h) ∧
      runs.flatten.countP Event.isSend = runs.flatten.countP Event.isExecOk ∧
      tasks.length = (taskHosts tasks).length := by
  induction tasks generalizing j runs with
  | nil =>
    simp only [Ansible.clientRuns, Option.some.injEq] at hr
    subst hr
    simp [taskHosts]
  | cons task tasks ih =>
    simp only [Ansible.clientRuns] at hr
    cases hh : task.Host with
    | none => simp [hh] at hr
    | some host =>
      simp only [hh, Option.map_eq_some'] at hr
      obtain ⟨rest, hrest, rfl⟩ := hr
      obtain ⟨i1, i2, i3, i4⟩ := ih (j + 1) rest hrest
      obtain ⟨c1, c2, c3⟩ :=
        Ansible.clientRun_counts a w round idx serverHost vars plannedTime tester j task host h
      have ht : taskHosts (task :: tasks) = host :: taskHosts tasks := by
        simp [taskHosts, List.filterMap_cons, hh]
      rw [ht]
      simp only [List.flatten_cons, List.countP_append, List.countP_cons, List.length_cons]
      refine ⟨by omega, by omega, by omega, by omega⟩

theorem started_not_client (host : String) (sargs : List String) (run : ServerRun) :
    ∀ e ∈ Event.startServer host sargs :: Ansible.serverEarly host run, e.isClient = false := by
  intro e he
  rcases List.mem_cons.1 he with he | he
  · subst he; rfl
  · exact serverEarly_not_client _ _ e he

theorem Ansible.runTasks_countP (a : Ansible) (w : AnsibleWorld) (round idx : Nat)
    (mainTask : Task) (plannedTime : Int) (tester : String) (r : RunResult)
    (hr : a.runTasks w round idx mainTask plannedTime tester = some r) :
    ∃ runs : List (List Event),
      (runs = [] ∨ ∃ host vars, mainTask.Host = some host ∧
        Ansible.clientRuns a w round idx host.Name vars plannedTime tester 0
          mainTask.SubTasks = some runs) ∧
      ∀ p : Event → Bool, (∀ e, e.isClient = false → p e = false) →
        r.events.countP p = runs.flatten.countP p := by
  obtain ⟨host, st, addrs, sargs, cmd, vars, hH, _, _, _, hcase⟩ :=
    Ansible.runTasks_cases a w round idx mainTask plannedTime tester r hr
  rcases hcase with ⟨err, h1, _⟩ | ⟨_, h1, _⟩ | ⟨_, runs, clients, hruns, hperm, _, h1, _⟩
  · refine ⟨[], Or.inl rfl, fun p hp => ?_⟩
    rw [h1]
    simp [List.countP_cons, hp _ (show (Event.addFailedServer host.Name (some err)).isClient =
      false from rfl)]
  · refine ⟨[], Or.inl rfl, fun p hp => ?_⟩
    rw [h1]
    simp only [List.countP_append, List.flatten_nil, List.countP_nil]
    rw [countP_eq_zero_of_not_client p _ hp (started_not_client _ _ _),
      countP_eq_zero_of_not_client p _ hp (probeLoop_not_client _ _ _ _ _ _ _ _),
      countP_eq_zero_of_not_client p _ hp (serverLate_not_client _ _ _),
      countP_eq_zero_of_not_client p
        [Event.addFailedServer host.Name (some "ansible main test task is not running"),
          Event.cancelServer] hp (by
        intro e he
        simp only [List.mem_cons, List.mem_singleton, List.not_mem_nil, or_false] at he
        rcases he with he | he <;> subst he <;> rfl)]
  · refine ⟨runs, Or.inr ⟨host, vars, hH, hruns⟩, fun p hp => ?_⟩
    rw [h1]
    simp only [List.countP_append]
    rw [countP_eq_zero_of_not_client p _ hp (started_not_client _ _ _),
      countP_eq_zero_of_not_client p _ hp (probeLoop_not_client _ _ _ _ _ _ _ _),
      countP_eq_zero_of_not_client p _ hp (serverLate_not_client _ _ _),
      countP_eq_zero_of_not_client p
        [Event.addSuccessfulServer host.Name, Event.cancelServer] hp (by
        intro e he
        simp only [List.mem_cons, List.mem_singleton, List.not_mem_nil, or_false] at he
        rcases he with he | he <;> subst he <;> rfl), hperm.countP_eq]
    omega

theorem launches_not_client (h : String) :
    ∀ e : Event, e.isClient = false → Event.launches h e = false :=
  fun e he => (not_client_counts h e he).1

theorem succeeds_not_client (h : String) :
    ∀ e : Event, e.isClient = false → Event.succeeds h e = false :=
  fun e he => (not_client_counts h e he).2.1

theorem fails_not_client (h : String) :
    ∀ e : Event, e.isClient = false → Event.fails h e = false :=
  fun e he => (not_client_counts h e he).2.2.1

theorem isSend_not_client : ∀ e : Event, e.isClient = false → e.isSend = false :=
  fun e he => (not_client_counts "" e he).2.2.2.1

theorem isExecOk_not_client : ∀ e : Event, e.isClient = false → e.isExecOk = false :=
  fun e he => (not_client_counts "" e he).2.2.2.2.1

/-- After `runTasks` the two client counters of the server task's Status have
grown, for every host name, by the number of client subtasks launched on that
host, which is none or all of the subtasks of that host. -/
theorem Ansible.runTasks_attempts (a : Ansible) (w : AnsibleWorld) (round idx : Nat)
    (mainTask : Task) (plannedTime : Int) (tester : String) (r : RunResult) (st : Status)
    (hS : mainTask.Status = some st)
    (hr : a.runTasks w round idx mainTask plannedTime tester = some r) (h : String) :
    r.status.SuccessfulHosts.Clients.count h + r.status.FailedHosts.Clients.count h =
        st.SuccessfulHosts.Clients.count h + st.FailedHosts.Clients.count h +
          r.events.countP (Event.launches h) ∧
      (r.events.countP (Event.launches h) = 0 ∨
        r.events.countP (Event.launches h) =
          (taskHosts mainTask.SubTasks).countP (fun c => c.Name == h)) := by
  obtain ⟨host, st', addrs, sargs, cmd, vars, _, hS', _, hst, _⟩ :=
    Ansible.runTasks_cases a w round idx mainTask plannedTime tester r hr
  rw [hS] at hS'
  simp only [Option.some.injEq] at hS'
  subst hS'
  obtain ⟨runs, hruns, hcount⟩ :=
    Ansible.runTasks_countP a w round idx mainTask plannedTime tester r hr
  rw [hst, after_successful_clients, after_failed_clients,
    hcount _ (launches_not_client h), hcount _ (succeeds_not_client h),
    hcount _ (fails_not_client h)]
  rcases hruns with rfl | ⟨host', vars', _, hruns⟩
  · simp
  · obtain ⟨c1, c2, _, _⟩ :=
      Ansible.clientRuns_counts a w round idx _ _ plannedTime tester _ 0 runs h hruns
    exact ⟨by omega, Or.inr c1⟩

/-! ### The Kubernetes runner -/

theorem Kubernetes.pushLogsToParser_counts (k : Kubernetes) (w : KubernetesWorld)
    (round idx j : Nat) (plannedTime testTime : Int)
    (tester serverHost clientHost podName : String) (h : String) :
    (k.pushLogsToParser w round idx j plannedTime testTime tester serverHost clientHost
        podName).1.countP (Event.launches h) = 0 ∧
    (k.pushLogsToParser w round idx j plannedTime testTime tester serverHost clientHost
        podName).1.countP (Event.succeeds h) = 0 ∧
    (k.pushLogsToParser w round idx j plannedTime testTime tester serverHost clientHost
        podName).1.countP (Event.fails h) = 0 ∧
    (k.pushLogsToParser w round idx j plannedTime testTime tester serverHost clientHost
        podName).1.filter Event.isClientStatus = [] := by
  unfold Kubernetes.pushLogsToParser
  dsimp only
  split
  · simp [Event.launches, Event.succeeds, Event.fails, Event.isClientStatus]
  · split
    · split <;> simp [Event.launches, Event.succeeds, Event.fails, Event.isClientStatus]
    · simp [Event.launches, Event.succeeds, Event.fails, Event.isClientStatus]

theorem Kubernetes.clientPod_counts (k : Kubernetes) (w : KubernetesWorld) (round idx : Nat)
    (serverHost : String) (vars : Variables) (plannedTime : Int) (tester : String) (j : Nat)
    (task : Task) (host : Host) (h : String) :
    (k.clientRun w round idx serverHost vars plannedTime tester j task host).countP
        (Event.launches h) = (if host.Name == h then 1 else 0) ∧
    (k.clientRun w round idx serverHost vars plannedTime tester j task host).countP
        (Event.succeeds h) +
      (k.clientRun w round idx serverHost vars plannedTime tester j task host).countP
        (Event.fails h) = (if host.Name == h then 1 else 0) := by
  obtain ⟨p1, p2, p3, _⟩ := Kubernetes.pushLogsToParser_counts k w round idx j plannedTime
    (w.now round idx j) tester serverHost host.Name
    (w.clientPodName round host.Name task.Command plannedTime) h
  unfold Kubernetes.clientRun
  dsimp only
  split
  · simp [List.countP_cons, Event.launches, Event.succeeds, Event.fails]
  · split
    · simp [List.countP_cons, Event.launches, Event.succeeds, Event.fails]
    · split
      · simp [List.countP_cons, Event.launches, Event.succeeds, Event.fails]
      · split
        · simp [List.countP_cons, Event.launches, Event.succeeds, Event.fails]
        · split
          · simp [List.countP_cons, List.countP_append, Event.launches, Event.succeeds,
              Event.fails, p1, p2, p3]
          · split <;>
              simp [List.countP_cons, List.countP_append, Event.launches, Event.succeeds,
                Event.fails, p1, p2, p3]

theorem Kubernetes.clientPod_resolves (k : Kubernetes) (w : KubernetesWorld) (round idx : Nat)
    (serverHost : String) (vars : Variables) (plannedTime : Int) (tester : String) (j : Nat)
    (task : Task) (host : Host) :
    ∃ e, (k.clientRun w round idx serverHost vars plannedTime tester j task host).filter
        Event.isClientStatus = [e] ∧ e.resolves host.Name := by
  obtain ⟨_, _, _, p4⟩ := Kubernetes.pushLogsToParser_counts k w round idx j plannedTime
    (w.now round idx j) tester serverHost host.Name
    (w.clientPodName round host.Name task.Command plannedTime) ""
  unfold Kubernetes.clientRun
  dsimp only
  split
  · exact ⟨_, rfl, Or.inr ⟨_, rfl⟩⟩
  · split
    · exact ⟨_, rfl, Or.inr ⟨_, rfl⟩⟩
    · split
      · exact ⟨_, rfl, Or.inr ⟨_, rfl⟩⟩
      · split
        · exact ⟨_, rfl, Or.inr ⟨_, rfl⟩⟩
        · split
          · next err _ =>
            refine ⟨Event.addFailedClient host.Name (some err), ?_, Or.inr ⟨_, rfl⟩⟩
            simp [List.filter_cons, List.filter_append, Event.isClientStatus, p4]
          · split
            · next err _ =>
              refine ⟨Event.addFailedClient host.Name (some err), ?_, Or.inr ⟨_, rfl⟩⟩
              simp [List.filter_cons, List.filter_append, Event.isClientStatus, p4]
            · refine ⟨Event.addSuccessfulClient host.Name, ?_, Or.inl rfl⟩
              simp [List.filter_cons, List.filter_append, Event.isClientStatus, p4]

theorem Kubernetes.clientPods_counts (k : Kubernetes) (w : KubernetesWorld) (round idx : Nat)
    (serverHost : String) (vars : Variables) (plannedTime : Int) (tester : String)
    (tasks : List Task) (j : Nat) (runs : List (List Event)) (h : String)
    (hr : k.clientRuns w round idx serverHost vars plannedTime tester j tasks = some runs) :
    runs.flatten.countP (Event.launches h) =
        (taskHosts tasks).countP (fun c => c.Name == h) ∧
      runs.flatten.countP (Event.succeeds h) + runs.flatten.countP (Event.fails h) =
        (taskHosts tasks).countP (fun c => c.Name == h) := by
  induction tasks generalizing j runs with
  | nil =>
    simp only [Kubernetes.clientRuns, Option.some.injEq] at hr
    subst hr
    simp [taskHosts]
  | cons task tasks ih =>
    simp only [Kubernetes.clientRuns] at hr
    cases hh : task.Host with
    | none => simp [hh] at hr
    | some host =>
      simp only [hh, Option.map_eq_some'] at hr
      obtain ⟨rest, hrest, rfl⟩ := hr
      obtain ⟨i1, i2⟩ := ih (j + 1) rest hrest
      obtain ⟨c1, c2⟩ :=
        Kubernetes.clientPod_counts k w round idx serverHost vars plannedTime tester j task host h
      have ht : taskHosts (task :: tasks) = host :: taskHosts tasks := by
        simp [taskHosts, List.filterMap_cons, hh]
      rw [ht]
      simp only [List.flatten_cons, List.countP_append, List.countP_cons]
      refine ⟨by omega, by omega⟩

theorem Kubernetes.createPodsForTasks_cases (k : Kubernetes) (w : KubernetesWorld)
    (round idx : Nat) (mainTask : Task) (plan : Plan) (r : RunResult)
    (hr : k.createPodsForTasks w round idx mainTask plan = some r) :
    ∃ host st, mainTask.Host = some host ∧ mainTask.Status = some st ∧
      r.status = st.after r.events ∧ r.err = none ∧
      ((∀ e ∈ r.events, e.isClient = false) ∨
        ∃ vars runs clients A B,
          k.clientRuns w round idx host.Name vars plan.TestStartTime plan.Tester 0
            mainTask.SubTasks = some runs ∧
          clients.Perm runs.flatten ∧ r.events = A ++ clients ++ B ∧
          (∀ e ∈ A, e.isClient = false) ∧ (∀ e ∈ B, e.isClient = false)) := by
  unfold Kubernetes.createPodsForTasks at hr
  split at hr
  · next host status hH hS =>
    refine ⟨host, status, hH, hS, ?_⟩
    dsimp only at hr
    split at hr
    · simp only [Option.some.injEq] at hr
      subst hr
      exact ⟨rfl, rfl, Or.inl (by simp [Event.isClient])⟩
    · next mainTask' hT =>
      have hsub : mainTask'.SubTasks = mainTask.SubTasks := by
        have := Template_SubTasks w.render mainTask
          { ServerPort := 5601, ServerAddressV4 := "", ServerAddressV6 := "" }
        rw [hT] at this
        exact this
      split at hr
      · simp only [Option.some.injEq] at hr
        subst hr
        exact ⟨rfl, rfl, Or.inl (by simp [Event.isClient])⟩
      · split at hr
        · simp only [Option.some.injEq] at hr
          subst hr
          exact ⟨rfl, rfl, Or.inl (by simp [Event.isClient])⟩
        · split at hr
          · simp only [Option.some.injEq] at hr
            subst hr
            exact ⟨rfl, rfl, Or.inl (by simp [Event.isClient])⟩
          · split at hr
            · simp only [Option.some.injEq] at hr
              subst hr
              exact ⟨rfl, rfl, Or.inl (by simp [Event.isClient])⟩
            · split at hr
              · simp only [Option.some.injEq] at hr
                subst hr
                exact ⟨rfl, rfl, Or.inl (by simp [Event.isClient])⟩
              · split at hr
                · exact absurd hr (by simp)
                · next runs hruns =>
                  rw [hsub] at hruns
                  have hperm : (if k.runOptions.Mode ≠ RunModeParallel then runs.flatten
                      else interleave (w.schedule round idx) runs).Perm runs.flatten := by
                    split
                    · exact List.Perm.refl _
                    · exact interleave_perm _ _
                  split at hr
                  · simp only [Option.some.injEq] at hr
                    subst hr
                    exact ⟨rfl, rfl, Or.inr ⟨_, runs, _, _, _, hruns, hperm, rfl,
                      by simp [Event.isClient], by simp [Event.isClient]⟩⟩
                  · simp only [Option.some.injEq] at hr
                    subst hr
                    exact ⟨rfl, rfl, Or.inr ⟨_, runs, _, _, _, hruns, hperm, rfl,
                      by simp [Event.isClient], by simp [Event.isClient]⟩⟩
  · exact absurd hr (by simp)

/-- After `createPodsForTasks` the two client counters of the server task's
Status have grown, for every host name, by the number of client subtasks
launched on that host, which is none or all of the subtasks of that host. -/
theorem Kubernetes.createPodsForTasks_attempts (k : Kubernetes) (w : KubernetesWorld)
    (round idx : Nat) (mainTask : Task) (plan : Plan) (r : RunResult) (st : Status)
    (hS : mainTask.Status = some st)
    (hr : k.createPodsForTasks w round idx mainTask plan = some r) (h : String) :
    r.status.SuccessfulHosts.Clients.count h + r.status.FailedHosts.Clients.count h =
        st.SuccessfulHosts.Clients.count h + st.FailedHosts.Clients.count h +
          r.events.countP (Event.launches h) ∧
      (r.events.countP (Event.launches h) = 0 ∨
        r.events.countP (Event.launches h) =
          (taskHosts mainTask.SubTasks).countP (fun c => c.Name == h)) := by
  obtain ⟨host, st', _, hS', hst, _, hcase⟩ :=
    Kubernetes.createPodsForTasks_cases k w round idx mainTask plan r hr
  rw [hS] at hS'
  simp only [Option.some.injEq] at hS'
  subst hS'
  rw [hst, after_successful_clients, after_failed_clients]
  rcases hcase with hnone | ⟨vars, runs, clients, A, B, hruns, hperm, hev, hA, hB⟩
  · rw [countP_eq_zero_of_not_client _ _ (launches_not_client h) hnone,
      countP_eq_zero_of_not_client _ _ (succeeds_not_client h) hnone,
      countP_eq_zero_of_not_client _ _ (fails_not_client h) hnone]
    exact ⟨by omega, Or.inl rfl⟩
  · obtain ⟨c1, c2⟩ :=
      Kubernetes.clientPods_counts k w round idx _ _ _ _ _ 0 runs h hruns
    rw [hev]
    simp only [List.countP_append]
    rw [countP_eq_zero_of_not_client _ A (launches_not_client h) hA,
      countP_eq_zero_of_not_client _ A (succeeds_not_client h) hA,
      countP_eq_zero_of_not_client _ A (fails_not_client h) hA,
      countP_eq_zero_of_not_client _ B (launches_not_client h) hB,
      countP_eq_zero_of_not_client _ B (succeeds_not_client h) hB,
      countP_eq_zero_of_not_client _ B (fails_not_client h) hB,
      hperm.countP_eq, hperm.countP_eq, hperm.countP_eq]
    exact ⟨by omega, Or.inr (by omega)⟩

/-! ### Both runners -/

theorem executeCells_steps (run : Nat → Nat → Task → Option RunResult) (coe : Option Bool)
    (cells : List (Nat × Nat × Task)) (res : ExecResult)
    (h : executeCells run coe cells = some res) (round idx : Nat) (x : RunResult)
    (hx : Step.ran round idx x ∈ res.steps) :
    ∃ task, (round, idx, task) ∈ cells ∧ task.Sleep = 0 ∧ run round idx task = some x := by
  induction cells generalizing res with
  | nil =>
    simp only [executeCells, Option.some.injEq] at h
    subst h
    simp at hx
  | cons c cells ih =>
    have lift : (∃ task, (round, idx, task) ∈ cells ∧ task.Sleep = 0 ∧
        run round idx task = some x) →
        ∃ task, (round, idx, task) ∈ c :: cells ∧ task.Sleep = 0 ∧
          run round idx task = some x :=
      fun ⟨t, h1, h2⟩ => ⟨t, List.mem_cons_of_mem _ h1, h2⟩
    have here : ∀ r, c.2.2.Sleep = 0 → run c.1 c.2.1 c.2.2 = some r →
        Step.ran round idx x = Step.ran c.1 c.2.1 r →
        ∃ task, (round, idx, task) ∈ c :: cells ∧ task.Sleep = 0 ∧
          run round idx task = some x := by
      intro r hs hrun he
      simp only [Step.ran.injEq] at he
      obtain ⟨rfl, rfl, rfl⟩ := he
      exact ⟨c.2.2, List.mem_cons_self _ _, hs, hrun⟩
    simp only [executeCells] at h
    by_cases hs : c.2.2.Sleep ≠ 0
    · rw [if_pos hs, Option.map_eq_some'] at h
      obtain ⟨y, hy, rfl⟩ := h
      simp only [List.mem_cons, reduceCtorEq, false_or] at hx
      exact lift (ih y hy hx)
    · rw [if_neg hs] at h
      have hs0 : c.2.2.Sleep = 0 := by simpa using hs
      cases hrun : run c.1 c.2.1 c.2.2 with
      | none => simp [hrun] at h
      | some r =>
        simp only [hrun] at h
        cases he : r.err with
        | none =>
          simp only [he, Option.map_eq_some'] at h
          obtain ⟨y, hy, rfl⟩ := h
          simp only [List.mem_cons] at hx
          rcases hx with hx | hx
          · exact here r hs0 hrun hx
          · exact lift (ih y hy hx)
        | some e =>
          simp only [he] at h
          cases coe with
          | none => simp at h
          | some b =>
            cases b
            · simp only [Option.some.injEq] at h
              subst h
              simp only [List.mem_singleton] at hx
              exact here r hs0 hrun hx
            · simp only [Option.map_eq_some'] at h
              obtain ⟨y, hy, rfl⟩ := h
              simp only [List.mem_cons] at hx
              rcases hx with hx | hx
              · exact here r hs0 hrun hx
              · exact lift (ih y hy hx)

/-- C4: in both runners the goroutine of a launched client subtask makes
exactly one call among `AddSuccessfulClient` and `AddFailedClient`, for the
host of its task, whatever path it takes; and for every server task that
`Execute` ran, the two client counters of its Status have grown together, for
every host name `h`, by the number of client subtasks launched on `h`, which
is none or all of the task's subtasks on `h`. -/
theorem client_attempts_resolve_once (a : Ansible) (aw : AnsibleWorld) (k : Kubernetes)
    (kw : KubernetesWorld) (plan : Plan) :
    (∀ round idx serverHost vars plannedTime tester j task host,
      ∃ e, (a.clientRun aw round idx serverHost vars plannedTime tester j task host).filter
        Event.isClientStatus = [e] ∧ e.resolves host.Name) ∧
    (∀ round idx serverHost vars plannedTime tester j task host,
      ∃ e, (k.clientRun kw round idx serverHost vars plannedTime tester j task host).filter
        Event.isClientStatus = [e] ∧ e.resolves host.Name) ∧
    (∀ res, a.Execute aw plan = some res → ∀ round idx x, Step.ran round idx x ∈ res.steps →
      ∃ task st, (round, idx, task) ∈ planCells 0 plan.Commands ∧ task.Status = some st ∧
        ∀ h, x.status.SuccessfulHosts.Clients.count h + x.status.FailedHosts.Clients.count h =
            st.SuccessfulHosts.Clients.count h + st.FailedHosts.Clients.count h +
              x.events.countP (Event.launches h) ∧
          (x.events.countP (Event.launches h) = 0 ∨
            x.events.countP (Event.launches h) =
              (taskHosts task.SubTasks).countP (fun c => c.Name == h))) ∧
    (∀ res, k.Execute kw plan = some res → ∀ round idx x, Step.ran round idx x ∈ res.steps →
      ∃ task st, (round, idx, task) ∈ planCells 0 plan.Commands ∧ task.Status = some st ∧
        ∀ h, x.status.SuccessfulHosts.Clients.count h + x.status.FailedHosts.Clients.count h =
            st.SuccessfulHosts.Clients.count h + st.FailedHosts.Clients.count h +
              x.events.countP (Event.launches h) ∧
          (x.events.countP (Event.launches h) = 0 ∨
            x.events.countP (Event.launches h) =
              (taskHosts task.SubTasks).countP (fun c => c.Name == h))) := by
  refine ⟨?_, ?_, ?_, ?_⟩
  · intro round idx serverHost vars plannedTime tester j task host
    exact Ansible.clientRun_resolves a aw round idx serverHost vars plannedTime tester j task host
  · intro round idx serverHost vars plannedTime tester j task host
    exact Kubernetes.clientPod_resolves k kw round idx serverHost vars plannedTime tester j task
      host
  · intro res hres round idx x hx
    unfold Ansible.Execute at hres
    rw [executeRounds_cells] at hres
    obtain ⟨task, hmem, _, hrun⟩ := executeCells_steps _ _ _ res hres round idx x hx
    obtain ⟨host, st, addrs, sargs, cmd, vars, _, hS, _⟩ :=
      Ansible.runTasks_cases a aw round idx task _ _ x hrun
    exact ⟨task, st, hmem, hS, fun h =>
      Ansible.runTasks_attempts a aw round idx task _ _ x st hS hrun h⟩
  · intro res hres round idx x hx
    unfold Kubernetes.Execute at hres
    rw [executeRounds_cells] at hres
    obtain ⟨task, hmem, _, hrun⟩ := executeCells_steps _ _ _ res hres round idx x hx
    obtain ⟨host, st, _, hS, _⟩ :=
      Kubernetes.createPodsForTasks_cases k kw round idx task plan x hrun
    exact ⟨task, st, hmem, hS, fun h =>
      Kubernetes.createPodsForTasks_attempts k kw round idx task plan x st hS hrun h⟩

theorem executeCells_stops (run : Nat → Nat → Task → Option RunResult)
    (pre post : List (Nat × Nat × Task)) (c : Nat × Nat × Task) (res : RunResult) (e : Err)
    (hpre : ∀ x ∈ pre, ∃ s, stepOfCell run x s) (hs : c.2.2.Sleep = 0)
    (hrun : run c.1 c.2.1 c.2.2 = some res) (herr : res.err = some e) :
    ∃ steps, executeCells run (some false) (pre ++ c :: post) =
        some { steps := steps ++ [Step.ran c.1 c.2.1 res], err := some e } ∧
      List.Forall₂ (stepOfCell run) pre steps := by
  induction pre with
  | nil =>
    refine ⟨[], ?_, List.Forall₂.nil⟩
    simp only [List.nil_append, executeCells]
    rw [if_neg (by simp [hs])]
    simp [hrun, herr]
  | cons x pre ih =>
    obtain ⟨steps, hsteps, hall⟩ := ih (fun y hy => hpre y (List.mem_cons_of_mem _ hy))
    obtain ⟨s, hstep⟩ := hpre x (List.mem_cons_self _ _)
    refine ⟨s :: steps, ?_, List.Forall₂.cons hstep hall⟩
    simp only [List.cons_append, executeCells, List.append_eq]
    rcases hstep with ⟨hsl, rfl⟩ | ⟨hsl, r, hr, hre, rfl⟩
    · rw [if_pos hsl, hsteps]
      rfl
    · rw [if_neg (by simp [hsl])]
      simp only [hr, hre, hsteps]
      rfl

/-- C5: when `ContinueOnError` is false and, in plan order, the tasks `pre`
are Sleep-only or run without error and the next task is a server task whose
`runTasks` returns the error `e`, `Execute` of the Ansible runner returns `e`;
its steps are one step for each task of `pre`, in plan order (a wait for a
Sleep-only task, which runs no command, the run of `runTasks` otherwise),
followed by the failing run and nothing else: no later task and no later
round is run, whatever they are. -/
theorem ansible_execute_stops_at_first_error (a : Ansible) (w : AnsibleWorld) (plan : Plan)
    (pre post : List (Nat × Nat × Task)) (round idx : Nat) (task : Task) (res : RunResult)
    (e : Err) (hc : plan.RunOptions.ContinueOnError = some false)
    (hcells : planCells 0 plan.Commands = pre ++ (round, idx, task) :: post)
    (hpre : ∀ c ∈ pre, ∃ s,
      stepOfCell (fun r i t => a.runTasks w r i t plan.TestStartTime plan.Tester) c s)
    (hs : task.Sleep = 0)
    (hrun : a.runTasks w round idx task plan.TestStartTime plan.Tester = some res)
    (herr : res.err = some e) :
    ∃ steps, a.Execute w plan =
        some { steps := steps ++ [Step.ran round idx res], err := some e } ∧
      List.Forall₂
        (stepOfCell (fun r i t => a.runTasks w r i t plan.TestStartTime plan.Tester)) pre
        steps := by
  unfold Ansible.Execute
  rw [executeRounds_cells, hc, hcells]
  exact executeCells_stops _ pre post (round, idx, task) res e hpre hs hrun herr

theorem runTasks_notReady_eval :
    ansibleX.runTasks worldNotReady 0 1 taskAB 1700000000 "iperf3" = some resNotReady := by
  decide

theorem napCell_step (c : Nat × Nat × Task) (hc : c ∈ [((0 : Nat), (0 : Nat), napTask)]) :
    ∃ s, stepOfCell (fun r i t => ansibleX.runTasks worldNotReady r i t
      planNapAB.TestStartTime planNapAB.Tester) c s := by
  rw [List.mem_singleton] at hc
  subst hc
  exact ⟨Step.slept 5, Or.inl ⟨by decide, rfl⟩⟩

/-- Witness of C5: a wait, then the server task of `a` whose readiness probes
fail, then a second round that is not run. -/
theorem ansible_execute_stops_at_first_error_witness :
    planNapAB.RunOptions.ContinueOnError = some false ∧
    planCells 0 planNapAB.Commands = [(0, 0, napTask)] ++ (0, 1, taskAB) :: [(1, 0, taskAB)] ∧
    (∀ c ∈ [((0 : Nat), (0 : Nat), napTask)], ∃ s,
      stepOfCell (fun r i t => ansibleX.runTasks worldNotReady r i t
        planNapAB.TestStartTime planNapAB.Tester) c s) ∧
    taskAB.Sleep = 0 ∧
    ansibleX.runTasks worldNotReady 0 1 taskAB planNapAB.TestStartTime planNapAB.Tester =
      some resNotReady ∧
    resNotReady.err = some "ansible main test task is not running" ∧
    ∃ steps, ansibleX.Execute worldNotReady planNapAB =
        some { steps := steps ++ [Step.ran 0 1 resNotReady],
               err := some "ansible main test task is not running" } ∧
      List.Forall₂
        (stepOfCell (fun r i t => ansibleX.runTasks worldNotReady r i t
          planNapAB.TestStartTime planNapAB.Tester)) [(0, 0, napTask)] steps :=
  ⟨rfl, rfl, napCell_step, rfl, runTasks_notReady_eval, rfl,
    ansible_execute_stops_at_first_error ansibleX worldNotReady planNapAB [(0, 0, napTask)]
      [(1, 0, taskAB)] 0 1 taskAB resNotReady "ansible main test task is not running" rfl rfl
      napCell_step rfl runTasks_notReady_eval rfl⟩

theorem executeCells_err_none (run : Nat → Nat → Task → Option RunResult) (coe : Option Bool)
    (hrun : ∀ r i t x, run r i t = some x → x.err = none)
    (cells : List (Nat × Nat × Task)) (res : ExecResult)
    (h : executeCells run coe cells = some res) : res.err = none := by
  induction cells generalizing res with
  | nil =>
    simp only [executeCells, Option.some.injEq] at h
    subst h
    rfl
  | cons c cells ih =>
    simp only [executeCells] at h
    by_cases hs : c.2.2.Sleep ≠ 0
    · rw [if_pos hs, Option.map_eq_some'] at h
      obtain ⟨y, hy, rfl⟩ := h
      exact ih y hy
    · rw [if_neg hs] at h
      cases hr : run c.1 c.2.1 c.2.2 with
      | none => simp [hr] at h
      | some r =>
        simp only [hr, hrun _ _ _ r hr, Option.map_eq_some'] at h
        obtain ⟨y, hy, rfl⟩ := h
        exact ih y hy

/-- C6 (code bug): with `ContinueOnError` false and a cluster that refuses
the server pod of round 0, `Execute` of the Kubernetes runner records the
failure, returns no error and goes on to run round 1; and in general
`Execute` of the Kubernetes runner never returns an error, because every
`return` of `createPodsForTasks` returns nil. -/
theorem kubernetes_execute_never_returns_error :
    planTwoRounds.RunOptions.ContinueOnError = some false ∧
    (∃ x0 x1, kubeX.Execute clusterNoServerPod planTwoRounds =
        some { steps := [Step.ran 0 0 x0, Step.ran 1 0 x1], err := none } ∧
      x0.events = [Event.k8sCall "PodRecreate" "ancientt-server-a-0" (some "pods is forbidden"),
        Event.addFailedServer "a" (some "pods is forbidden")] ∧
      Event.addSuccessfulServer "a" ∈ x1.events) ∧
    (∀ (k : Kubernetes) (w : KubernetesWorld) (plan : Plan) (res : ExecResult),
      k.Execute w plan = some res → res.err = none) := by
  refine ⟨rfl, ⟨_, _, rfl, rfl, by decide⟩, ?_⟩
  intro k w plan res h
  unfold Kubernetes.Execute at h
  rw [executeRounds_cells] at h
  refine executeCells_err_none _ _ (fun r i t x hx => ?_) _ res h
  obtain ⟨_, _, _, _, _, herr, _⟩ := Kubernetes.createPodsForTasks_cases k w r i t plan x hx
  exact herr

/-- C7 (as stated, refuted): the command of client `b` fails after printing
a message; the executor hands `runTasks` the output together with the error,
and `runTasks` sends no frame. -/
theorem ansible_failed_client_output_not_sent :
    ∃ r, ansibleX.runTasks worldClientFails 0 0 taskAB 1700000000 "iperf3" = some r ∧
      Event.execClient "b"
        ["--inventory=/etc/ancientt/hosts", "b", "--module-name=shell",
          "--args=iperf3 --json --client=192.0.2.1"]
        "iperf3: error - unable to connect to server" (some "exit status 1") ∈ r.events ∧
      r.events.filter Event.isSend = [] := by
  refine ⟨_, rfl, by decide, by decide⟩

/-- C7 (amended): the goroutine of a client subtask sends exactly one frame,
with the cleaned output of its command, when the rendering of the task and
the command both return without error, and no frame otherwise (also when the
command returned output together with an error); so the frames `runTasks`
sends are as many as the client commands that returned without error. -/
theorem ansible_frame_per_successful_client (a : Ansible) (w : AnsibleWorld) (round idx : Nat)
    (mainTask : Task) (plannedTime : Int) (tester : String) :
    (∀ serverHost vars j task host,
      ((Template w.render task vars).2 = none → (w.client round idx j).2 = none →
        (a.clientRun w round idx serverHost vars plannedTime tester j task host).filter
            Event.isSend =
          [Event.send { TestStartTime := plannedTime, TestTime := w.now round idx j,
                        Round := round, DataStream := some (w.clean (w.client round idx j).1),
                        Data := "", Tester := tester, ServerHost := serverHost,
                        ClientHost := host.Name, AdditionalInfo := a.additionalInfo }]) ∧
      (¬ ((Template w.render task vars).2 = none ∧ (w.client round idx j).2 = none) →
        (a.clientRun w round idx serverHost vars plannedTime tester j task host).filter
            Event.isSend = [])) ∧
    (∀ r, a.runTasks w round idx mainTask plannedTime tester = some r →
      r.events.countP Event.isSend = r.events.countP Event.isExecOk) := by
  constructor
  · intro serverHost vars j task host
    unfold Ansible.clientRun
    cases hT : Template w.render task vars with
    | mk t o =>
      cases o with
      | some err => simp [Event.isSend]
      | none =>
        cases hc : (w.client round idx j).2 with
        | some err => simp [Event.isSend, hc]
        | none => simp [Event.isSend, hc]
  · intro r hr
    obtain ⟨runs, hruns, hcount⟩ :=
      Ansible.runTasks_countP a w round idx mainTask plannedTime tester r hr
    rw [hcount _ isSend_not_client, hcount _ isExecOk_not_client]
    rcases hruns with rfl | ⟨host, vars, _, hruns⟩
    · rfl
    · exact (Ansible.clientRuns_counts a w round idx _ _ plannedTime tester _ 0 runs "" hruns).2.2.1

theorem probeLoop_not_cancel (a : Ansible) (w : AnsibleWorld) (round idx : Nat)
    (host command : String) (n i : Nat) :
    ∀ e ∈ (a.probeLoop w round idx host command n i).1, e ≠ Event.cancelServer := by
  induction n generalizing i with
  | zero => simp [Ansible.probeLoop]
  | succ n ih =>
    intro e he
    simp only [Ansible.probeLoop] at he
    cases hp : w.probe round idx i with
    | none =>
      simp only [hp, List.mem_singleton] at he
      subst he
      simp
    | some err =>
      simp only [hp, List.mem_cons] at he
      rcases he with he | he
      · subst he
        simp
      · exact ih (i + 1) e he

theorem serverEarly_not_cancel (host : String) (run : ServerRun) :
    ∀ e ∈ Ansible.serverEarly host run, e ≠ Event.cancelServer := by
  intro e he
  cases run with
  | early err =>
    cases err with
    | none =>
      simp only [Ansible.serverEarly, Ansible.serverReturn, List.mem_singleton] at he
      subst he; simp
    | some x =>
      simp only [Ansible.serverEarly, Ansible.serverReturn, Bool.false_eq_true, ↓reduceIte,
        List.mem_cons, List.mem_singleton, List.not_mem_nil, or_false] at he
      rcases he with he | he <;> subst he <;> simp
  | untilCancelled err => simp [Ansible.serverEarly] at he

theorem serverLate_stopped (host : String) (run : ServerRun) :
    ∀ e ∈ Ansible.serverLate host true run, e.isFailedServer = false := by
  intro e he
  cases run with
  | untilCancelled err =>
    cases err with
    | none =>
      simp only [Ansible.serverLate, Ansible.serverReturn, List.mem_singleton] at he
      subst he; rfl
    | some x =>
      simp only [Ansible.serverLate, Ansible.serverReturn, ↓reduceIte,
        List.mem_cons, List.mem_singleton, List.not_mem_nil, or_false] at he
      rcases he with he | he <;> subst he <;> rfl
  | early err => simp [Ansible.serverLate] at he

theorem Ansible.clientRun_isClient (a : Ansible) (w : AnsibleWorld) (round idx : Nat)
    (serverHost : String) (vars : Variables) (plannedTime : Int) (tester : String) (j : Nat)
    (task : Task) (host : Host) :
    ∀ e ∈ a.clientRun w round idx serverHost vars plannedTime tester j task host,
      e.isClient = true := by
  unfold Ansible.clientRun
  split
  · simp [Event.isClient]
  · dsimp only
    split <;> simp [Event.isClient]

theorem Ansible.clientRuns_isClient (a : Ansible) (w : AnsibleWorld) (round idx : Nat)
    (serverHost : String) (vars : Variables) (plannedTime : Int) (tester : String)
    (tasks : List Task) (j : Nat) (runs : List (List Event))
    (hr : a.clientRuns w round idx serverHost vars plannedTime tester j tasks = some runs) :
    ∀ e ∈ runs.flatten, e.isClient = true := by
  induction tasks generalizing j runs with
  | nil =>
    simp only [Ansible.clientRuns, Option.some.injEq] at hr
    subst hr
    simp
  | cons task tasks ih =>
    simp only [Ansible.clientRuns] at hr
    cases hh : task.Host with
    | none => simp [hh] at hr
    | some host =>
      simp only [hh, Option.map_eq_some'] at hr
      obtain ⟨rest, hrest, rfl⟩ := hr
      intro e he
      simp only [List.flatten_cons, List.mem_append] at he
      rcases he with he | he
      · exact Ansible.clientRun_isClient a w round idx serverHost vars plannedTime tester j task
          host e he
      · exact ih (j + 1) rest hrest e he

/-- C8 (code bug): both readiness probes fail, `runTasks` records the failure
and returns, the deferred `mainCancel` cancels the context of the server
command, the command is killed and returns an error, and the goroutine, which
finds `mainTaskStopped` still false, records that error with `AddFailedServer`:
the call after `cancelServer` in the events, the second failure of `a` in the
Status.  On the path on which `runTasks` returns no error (the clients are
done and `mainTaskStopped` is set before the cancellation) no
`AddFailedServer` follows the cancellation. -/
theorem ansible_records_server_error_after_cancel :
    (∃ r pre, ansibleX.runTasks worldNotReady 0 1 taskAB 1700000000 "iperf3" = some r ∧
      r.events = pre ++ [Event.cancelServer, Event.serverReturned (some "signal: killed"),
        Event.addFailedServer "a" (some "signal: killed")] ∧
      r.status.FailedHosts.Servers.count "a" = 2 ∧
      r.status.Errors.get? "a" =
        some [some "ansible main test task is not running", some "signal: killed"]) ∧
    (∀ (a : Ansible) (w : AnsibleWorld) (round idx : Nat) (mainTask : Task) (plannedTime : Int)
      (tester : String) (r : RunResult),
      a.runTasks w round idx mainTask plannedTime tester = some r → r.err = none →
      ∃ pre post, r.events = pre ++ Event.cancelServer :: post ∧
        (∀ e ∈ pre, e ≠ Event.cancelServer) ∧ ∀ e ∈ post, e.isFailedServer = false) := by
  refine ⟨⟨resNotReady, resNotReady.events.take 4, by decide, by decide, by decide,
    by decide⟩, ?_⟩
  intro a w round idx mainTask plannedTime tester r hr herr
  obtain ⟨host, st, addrs, sargs, cmd, vars, _, _, _, _, hcase⟩ :=
    Ansible.runTasks_cases a w round idx mainTask plannedTime tester r hr
  rcases hcase with ⟨err, _, h2⟩ | ⟨_, _, h2⟩ | ⟨_, runs, clients, hruns, hperm, _, h1, _⟩
  · rw [h2] at herr
    exact absurd herr (by simp)
  · rw [h2] at herr
    exact absurd herr (by simp)
  · refine ⟨(Event.startServer host.Name sargs ::
        Ansible.serverEarly host.Name (w.server round idx)) ++
        (a.probeLoop w round idx host.Name cmd (a.config.CommandRetries + 1).toNat 0).1 ++
        clients ++ [Event.addSuccessfulServer host.Name],
      Ansible.serverLate host.Name true (w.server round idx), ?_, ?_, serverLate_stopped _ _⟩
    · rw [h1]
      simp
    · intro e he
      simp only [List.mem_append, List.mem_cons, List.mem_singleton, List.not_mem_nil,
        or_false] at he
      rcases he with (((he | he) | he) | he) | he
      · subst he; simp
      · exact serverEarly_not_cancel _ _ e he
      · exact probeLoop_not_cancel _ _ _ _ _ _ _ _ e he
      · intro hc
        have := Ansible.clientRuns_isClient a w round idx _ _ plannedTime tester _ 0 runs hruns e
          (hperm.mem_iff.1 he)
        rw [hc] at this
        exact absurd this (by simp [Event.isClient])
      · subst he; simp

/-! ### The iperf3 tester: intervals, empty hosts, affected servers -/

theorem sleepTasks_append (a b : List Task) :
    sleepTasks (a ++ b) = sleepTasks a ++ sleepTasks b := by
  simp [sleepTasks]

theorem sleepTasks_sleepAfter (test : Test) (i : Nat) :
    sleepTasks (sleepAfter test i) = sleepAfter test i := by
  unfold sleepAfter sleepTasks
  split
  · next h => simp [Task.Sleep, h.1]
  · simp

theorem sleepAfter_length (test : Test) (i : Nat) :
    (sleepAfter test i).length =
      if test.RunOptions.Interval ≠ 0 ∧ i ≠ test.RunOptions.Rounds - 1 then 1 else 0 := by
  unfold sleepAfter
  split <;> simp

theorem sleepTasks_roundOf_length (cfg : IPerf3Config) (σ : RangeOrder) (env : Environment)
    (test : Test) (i k : Nat) (ss : GoMap Host) :
    (sleepTasks (roundOf cfg σ env test i k ss)).length =
      ss.length * (sleepAfter test i).length := by
  induction ss generalizing k with
  | nil => simp [roundOf, sleepTasks]
  | cons s ss ih =>
    have h0 : sleepTasks (serverTaskOf cfg σ env i k s.2 ::
        (sleepAfter test i ++ roundOf cfg σ env test i (k + 1) ss)) =
        sleepTasks (sleepAfter test i ++ roundOf cfg σ env test i (k + 1) ss) := by
      simp [sleepTasks, List.filter_cons, serverTaskOf_Sleep]
    rw [roundOf, h0, sleepTasks_append, sleepTasks_sleepAfter, List.length_append, ih (k + 1),
      List.length_cons, Nat.succ_mul]
    omega

theorem mem_roundOf (cfg : IPerf3Config) (σ : RangeOrder) (env : Environment) (test : Test)
    (i k : Nat) (ss : GoMap Host) (t : Task) (h : t ∈ roundOf cfg σ env test i k ss) :
    (∃ j s, s ∈ ss ∧ t = serverTaskOf cfg σ env i j s.2) ∨ t ∈ sleepAfter test i := by
  induction ss generalizing k with
  | nil => simp [roundOf] at h
  | cons s ss ih =>
    simp only [roundOf, List.mem_cons, List.mem_append] at h
    rcases h with h | h | h
    · exact Or.inl ⟨k, s, List.mem_cons_self _ _, h⟩
    · exact Or.inr h
    · rcases ih (k + 1) h with ⟨j, s', hs', ht⟩ | h'
      · exact Or.inl ⟨j, s', List.mem_cons_of_mem _ hs', ht⟩
      · exact Or.inr h'

/-- C11 (code bug): with the servers `a` and `b`, two rounds and an interval
of 5, round 0 of the plan holds a Sleep-only task after each of the two server
tasks, the first of them between the server tasks; in general a round that
gets Sleep-only tasks at all (interval set, not the last round) gets as many
as there are servers, and every other round gets none. -/
theorem plan_sleep_after_every_server :
    (∃ p, IPerf3.Plan cfgPlain RangeOrder.listed envAB testInterval = .ok p ∧
      p.Commands.map (fun r => r.map (fun t => (t.Host.map Host.Name, t.Sleep))) =
        [[(some "a", 0), (none, 5), (some "b", 0), (none, 5)], [(some "a", 0), (some "b", 0)]]) ∧
    (∀ (cfg : IPerf3Config) (σ : RangeOrder) (env : Environment) (test : Test),
      ∃ p, IPerf3.Plan cfg σ env test = .ok p ∧
        ∀ i round, p.Commands[i]? = some round →
          (sleepTasks round).length =
            if test.RunOptions.Interval ≠ 0 ∧ i ≠ test.RunOptions.Rounds - 1 then
              env.Hosts.Servers.length
            else 0) := by
  refine ⟨⟨_, rfl, by decide⟩, ?_⟩
  intro cfg σ env test
  refine ⟨_, rfl, ?_⟩
  intro i round hround
  simp only [planRounds_snd] at hround
  have hi : i < test.RunOptions.Rounds := by
    have := (List.getElem?_eq_some.1 hround).1
    simpa [roundsOf_length] using this
  rw [roundsOf_getElem? cfg σ env test _ 0 i hi] at hround
  simp only [Nat.zero_add, Option.some.injEq] at hround
  subst hround
  rw [sleepTasks_roundOf_length, sleepAfter_length, (σ.servers_perm i _).length_eq]
  split <;> simp

theorem keyedByName_addAffected (env : Environment) (aff : GoMap Host) (h : Host)
    (hk : keyedByName env aff)
    (hh : h ∈ env.Hosts.Servers.map Prod.snd ∨ h ∈ env.Hosts.Clients.map Prod.snd) :
    keyedByName env (addAffected aff h) := by
  unfold addAffected
  by_cases hhas : aff.has h.Name = true
  · simpa [hhas] using hk
  · simp only [Bool.not_eq_true] at hhas
    simp only [hhas, Bool.not_false, ↓reduceIte, GoMap.set, Bool.false_eq_true]
    intro e he
    rcases List.mem_append.1 he with he | he
    · exact hk e he
    · rw [List.mem_singleton] at he
      subst he
      exact ⟨rfl, hh⟩

theorem keyedByName_planClients (cfg : IPerf3Config) (env : Environment) (server : Host)
    (cs aff : GoMap Host) (subs : List Task) (hk : keyedByName env aff)
    (hcs : ∀ c ∈ cs, c.2 ∈ env.Hosts.Clients.map Prod.snd) :
    keyedByName env (planClients cfg server cs aff subs).1 := by
  induction cs generalizing aff subs with
  | nil => simpa [planClients] using hk
  | cons c cs ih =>
    simp only [planClients]
    exact ih _ _ (keyedByName_addAffected env aff c.2 hk (Or.inr (hcs c (List.mem_cons_self _ _))))
      (fun c' hc' => hcs c' (List.mem_cons_of_mem _ hc'))

theorem keyedByName_planServers (cfg : IPerf3Config) (σ : RangeOrder) (env : Environment)
    (test : Test) (i : Nat) (ss : GoMap Host) (k : Nat) (aff : GoMap Host) (cmds : List Task)
    (hk : keyedByName env aff) (hss : ∀ s ∈ ss, s.2 ∈ env.Hosts.Servers.map Prod.snd) :
    keyedByName env (planServers cfg σ env test i ss k aff cmds).1 := by
  induction ss generalizing k aff cmds with
  | nil => simpa [planServers] using hk
  | cons s ss ih =>
    simp only [planServers]
    refine ih _ _ _ ?_ (fun s' hs' => hss s' (List.mem_cons_of_mem _ hs'))
    refine keyedByName_planClients cfg env s.2 _ _ _
      (keyedByName_addAffected env aff s.2 hk (Or.inl (hss s (List.mem_cons_self _ _)))) ?_
    intro c hc
    exact List.mem_map_of_mem _ ((σ.clients_perm i k _).mem_iff.1 hc)

theorem keyedByName_planRounds (cfg : IPerf3Config) (σ : RangeOrder) (env : Environment)
    (test : Test) (n i : Nat) (aff : GoMap Host) (hk : keyedByName env aff) :
    keyedByName env (planRounds cfg σ env test n i aff).1 := by
  induction n generalizing i aff with
  | zero => simpa [planRounds] using hk
  | succ n ih =>
    simp only [planRounds]
    refine ih _ _ (keyedByName_planServers cfg σ env test i _ 0 aff [] hk ?_)
    intro s hs
    exact List.mem_map_of_mem _ ((σ.servers_perm i _).mem_iff.1 hs)

theorem planRounds_no_servers (cfg : IPerf3Config) (σ : RangeOrder) (env : Environment)
    (test : Test) (hs : env.Hosts.Servers = []) (n i : Nat) (aff : GoMap Host) :
    planRounds cfg σ env test n i aff = (aff, List.replicate n []) := by
  induction n generalizing i aff with
  | zero => rfl
  | succ n ih =>
    have h0 : σ.servers i env.Hosts.Servers = [] := by
      have := σ.servers_perm i env.Hosts.Servers
      rw [hs] at this ⊢
      exact this.eq_nil
    simp only [planRounds, h0, planServers, ih, List.replicate_succ]

/-- C12 (as stated, refuted): with no servers and two rounds configured the
plan has two round entries, both empty. -/
theorem plan_empty_hosts_keeps_rounds :
    ∃ p, IPerf3.Plan cfgPlain RangeOrder.listed envNoServers (testRounds 2) = .ok p ∧
      p.Commands = [[], []] ∧ p.Commands.length ≠ 0 :=
  ⟨_, rfl, rfl, by decide⟩

/-- C12 (amended): `Plan` returns no error and a plan with as many round
entries as rounds are configured, also when the environment has no servers or
no clients; without servers every round is empty and AffectedServers is
empty, without clients no task of any round has SubTasks. -/
theorem plan_empty_hosts (cfg : IPerf3Config) (σ : RangeOrder) (env : Environment)
    (test : Test) :
    ∃ p, IPerf3.Plan cfg σ env test = .ok p ∧
      p.Commands.length = test.RunOptions.Rounds ∧
      (env.Hosts.Servers = [] →
        p.Commands = List.replicate test.RunOptions.Rounds [] ∧ p.AffectedServers = []) ∧
      (env.Hosts.Clients = [] → ∀ round ∈ p.Commands, ∀ t ∈ round, t.SubTasks = []) := by
  refine ⟨_, rfl, by simp [planRounds_snd, roundsOf_length], ?_, ?_⟩
  · intro hs
    simp only [planRounds_no_servers cfg σ env test hs]
    exact ⟨trivial, trivial⟩
  · intro hc round hround t ht
    simp only [planRounds_snd] at hround
    obtain ⟨i, rfl⟩ := mem_roundsOf cfg σ env test _ _ _ hround
    rcases mem_roundOf cfg σ env test i 0 _ t ht with ⟨j, s, _, rfl⟩ | hsl
    · rw [serverTaskOf_SubTasks]
      have := σ.clients_perm i j env.Hosts.Clients
      rw [hc] at this ⊢
      rw [this.eq_nil]
      rfl
    · unfold sleepAfter at hsl
      split at hsl
      · rw [List.mem_singleton] at hsl
        subst hsl
        rfl
      · simp at hsl

/-- C13 (as stated, refuted): with zero rounds configured `Plan` returns a
plan and no error. -/
theorem plan_zero_rounds_is_no_error :
    ∃ p, IPerf3.Plan cfgPlain RangeOrder.listed envAB (testRounds 0) = .ok p ∧
      p.Commands = [] :=
  ⟨_, rfl, rfl⟩

/-- C13 (amended): `Plan` validates nothing; with zero rounds configured it
returns, without error, the plan that carries the tester's name and has no
rounds and no affected servers. -/
theorem plan_zero_rounds (cfg : IPerf3Config) (σ : RangeOrder) (env : Environment)
    (test : Test) (h : test.RunOptions.Rounds = 0) :
    ∃ p, IPerf3.Plan cfg σ env test = .ok p ∧ p.Tester = test.Type_ ∧ p.Commands = [] ∧
      p.AffectedServers = [] := by
  refine ⟨_, rfl, rfl, ?_, ?_⟩ <;> simp [h, planRounds]

/-- Witness of C13: the servers and clients `a` and `b`, zero rounds. -/
theorem plan_zero_rounds_witness :
    (testRounds 0).RunOptions.Rounds = 0 ∧
    ∃ p, IPerf3.Plan cfgPlain RangeOrder.listed envAB (testRounds 0) = .ok p ∧
      p.Tester = (testRounds 0).Type_ ∧ p.Commands = [] ∧ p.AffectedServers = [] :=
  ⟨rfl, plan_zero_rounds cfgPlain RangeOrder.listed envAB (testRounds 0) rfl⟩

/-- C14 (as stated, refuted): with one round, no servers and the client `b`
(keyed by its name) AffectedServers is empty, although `b` is a host of the
environment. -/
theorem plan_affected_without_servers :
    ∃ p, IPerf3.Plan cfgPlain RangeOrder.listed envNoServers (testRounds 1) = .ok p ∧
      p.AffectedServers = [] ∧
      envNoServers.Hosts.Clients.map (fun e => (e.1, e.2.Name)) = [("b", "b")] :=
  ⟨_, rfl, rfl, by decide⟩

/-- C14 (amended): AffectedServers is keyed by host name and holds hosts of
the environment only.  A name is a key exactly when at least one round is
configured and the name is that of a server or, provided the environment has
a server at all, that of a client; every key maps to a host with that name. -/
theorem plan_affected_servers (cfg : IPerf3Config) (σ : RangeOrder) (env : Environment)
    (test : Test) :
    ∃ p, IPerf3.Plan cfg σ env test = .ok p ∧
      (∀ key, p.AffectedServers.has key =
        (decide (0 < test.RunOptions.Rounds) &&
          (env.Hosts.Servers.any (fun s => s.2.Name == key) ||
            (!env.Hosts.Servers.isEmpty &&
              env.Hosts.Clients.any (fun c => c.2.Name == key))))) ∧
      (∀ key h, p.AffectedServers.get? key = some h →
        h.Name = key ∧
          (h ∈ env.Hosts.Servers.map Prod.snd ∨ h ∈ env.Hosts.Clients.map Prod.snd)) := by
  refine ⟨_, rfl, ?_, ?_⟩
  · intro key
    rw [has_planRounds]
    simp [GoMap.has]
  · intro key h hget
    have hk := keyedByName_planRounds cfg σ env test test.RunOptions.Rounds 0 []
      (fun e he => absurd he (List.not_mem_nil e))
    simp only [GoMap.get?, Option.map_eq_some'] at hget
    obtain ⟨e, he, rfl⟩ := hget
    have hmem := List.mem_of_find?_eq_some he
    have hkey : e.1 = key := by simpa using List.find?_some he
    obtain ⟨h1, h2⟩ := hk e hmem
    exact ⟨h1.trans hkey, h2⟩

/-! ### Frames -/

theorem send_isClient (f : Input) (es : List Event) (hes : ∀ e ∈ es, e.isClient = false) :
    Event.send f ∉ es := by
  intro h
  have := hes _ h
  simp [Event.isClient] at this

theorem mem_roundCells (round : Nat) (tasks : List Task) (i0 : Nat) (c : Nat × Nat × Task)
    (h : c ∈ roundCells round i0 tasks) :
    c.1 = round ∧ i0 ≤ c.2.1 ∧ tasks[c.2.1 - i0]? = some c.2.2 := by
  induction tasks generalizing i0 with
  | nil => simp [roundCells] at h
  | cons t tasks ih =>
    simp only [roundCells, List.mem_cons] at h
    rcases h with h | h
    · subst h
      simp
    · obtain ⟨h1, h2, h3⟩ := ih (i0 + 1) h
      refine ⟨h1, by omega, ?_⟩
      have e : c.2.1 - i0 = (c.2.1 - (i0 + 1)) + 1 := by omega
      rw [e, List.getElem?_cons_succ]
      exact h3

theorem mem_planCells (rounds : List (List Task)) (r0 : Nat) (c : Nat × Nat × Task)
    (h : c ∈ planCells r0 rounds) :
    r0 ≤ c.1 ∧ ∃ tasks, rounds[c.1 - r0]? = some tasks ∧ tasks[c.2.1]? = some c.2.2 := by
  induction rounds generalizing r0 with
  | nil => simp [planCells] at h
  | cons ts rounds ih =>
    simp only [planCells, List.mem_append] at h
    rcases h with h | h
    · obtain ⟨h1, _, h3⟩ := mem_roundCells r0 ts 0 c h
      refine ⟨by omega, ts, ?_, by simpa using h3⟩
      simp [h1]
    · obtain ⟨h1, tasks, h2, h3⟩ := ih (r0 + 1) h
      refine ⟨by omega, tasks, ?_, h3⟩
      have e : c.1 - r0 = (c.1 - (r0 + 1)) + 1 := by omega
      rw [e, List.getElem?_cons_succ]
      exact h2

theorem Ansible.clientRun_frames (a : Ansible) (w : AnsibleWorld) (round idx : Nat)
    (serverHost : String) (vars : Variables) (plannedTime : Int) (tester : String) (j : Nat)
    (task : Task) (host : Host) (f : Input)
    (hf : Event.send f ∈ a.clientRun w round idx serverHost vars plannedTime tester j task host) :
    f.wellFormed round serverHost host.Name tester plannedTime := by
  unfold Ansible.clientRun at hf
  split at hf
  · simp at hf
  · dsimp only at hf
    split at hf
    · simp at hf
    · simp only [List.mem_cons, reduceCtorEq, Event.send.injEq, List.mem_singleton,
        List.not_mem_nil, or_false, false_or] at hf
      subst hf
      exact ⟨rfl, rfl, rfl, rfl, rfl, rfl, rfl⟩

theorem Ansible.clientRuns_frames (a : Ansible) (w : AnsibleWorld) (round idx : Nat)
    (serverHost : String) (vars : Variables) (plannedTime : Int) (tester : String)
    (tasks : List Task) (j : Nat) (runs : List (List Event)) (f : Input)
    (hr : a.clientRuns w round idx serverHost vars plannedTime tester j tasks = some runs)
    (hf : Event.send f ∈ runs.flatten) :
    ∃ task ∈ tasks, ∃ host, task.Host = some host ∧
      f.wellFormed round serverHost host.Name tester plannedTime := by
  induction tasks generalizing j runs with
  | nil =>
    simp only [Ansible.clientRuns, Option.some.injEq] at hr
    subst hr
    simp at hf
  | cons task tasks ih =>
    simp only [Ansible.clientRuns] at hr
    cases hh : task.Host with
    | none => simp [hh] at hr
    | some host =>
      simp only [hh, Option.map_eq_some'] at hr
      obtain ⟨rest, hrest, rfl⟩ := hr
      simp only [List.flatten_cons, List.mem_append] at hf
      rcases hf with hf | hf
      · exact ⟨task, List.mem_cons_self _ _, host, hh,
          Ansible.clientRun_frames a w round idx serverHost vars plannedTime tester j task host f
            hf⟩
      · obtain ⟨t, ht, h', hh', hw⟩ := ih (j + 1) rest hrest hf
        exact ⟨t, List.mem_cons_of_mem _ ht, h', hh', hw⟩

theorem Ansible.runTasks_frames (a : Ansible) (w : AnsibleWorld) (round idx : Nat)
    (mainTask : Task) (plannedTime : Int) (tester : String) (r : RunResult) (f : Input)
    (hr : a.runTasks w round idx mainTask plannedTime tester = some r)
    (hf : Event.send f ∈ r.events) :
    ∃ host, mainTask.Host = some host ∧ ∃ sub ∈ mainTask.SubTasks, ∃ client,
      sub.Host = some client ∧ f.wellFormed round host.Name client.Name tester plannedTime := by
  obtain ⟨host, st, addrs, sargs, cmd, vars, hH, _, _, _, hcase⟩ :=
    Ansible.runTasks_cases a w round idx mainTask plannedTime tester r hr
  refine ⟨host, hH, ?_⟩
  rcases hcase with ⟨err, h1, _⟩ | ⟨_, h1, _⟩ | ⟨_, runs, clients, hruns, hperm, _, h1, _⟩
  · rw [h1] at hf
    simp at hf
  · rw [h1] at hf
    simp only [List.mem_append, List.mem_cons, reduceCtorEq, List.mem_singleton,
      List.not_mem_nil, or_false, false_or] at hf
    rcases hf with (hf | hf) | hf
    · exact absurd hf (send_isClient f _ (serverEarly_not_client _ _))
    · exact absurd hf (send_isClient f _ (probeLoop_not_client _ _ _ _ _ _ _ _))
    · exact absurd hf (send_isClient f _ (serverLate_not_client _ _ _))
  · rw [h1] at hf
    simp only [List.mem_append, List.mem_cons, reduceCtorEq, List.mem_singleton,
      List.not_mem_nil, or_false, false_or] at hf
    rcases hf with ((hf | hf) | hf) | hf
    · exact absurd hf (send_isClient f _ (serverEarly_not_client _ _))
    · exact absurd hf (send_isClient f _ (probeLoop_not_client _ _ _ _ _ _ _ _))
    · exact Ansible.clientRuns_frames a w round idx _ _ plannedTime tester _ 0 runs f hruns
        (hperm.mem_iff.1 hf)
    · exact absurd hf (send_isClient f _ (serverLate_not_client _ _ _))

theorem Kubernetes.pushLogsToParser_frames (k : Kubernetes) (w : KubernetesWorld)
    (round idx j : Nat) (plannedTime testTime : Int)
    (tester serverHost clientHost podName : String) (f : Input)
    (hf : Event.send f ∈ (k.pushLogsToParser w round idx j plannedTime testTime tester
      serverHost clientHost podName).1) :
    f.wellFormed round serverHost clientHost tester plannedTime := by
  unfold Kubernetes.pushLogsToParser at hf
  dsimp only at hf
  split at hf
  · simp at hf
  · split at hf
    · split at hf
      · simp at hf
      · simp only [List.mem_cons, reduceCtorEq, Event.send.injEq, List.mem_singleton,
          List.not_mem_nil, or_false, false_or] at hf
        subst hf
        exact ⟨rfl, rfl, rfl, rfl, rfl, rfl, rfl⟩
    · simp at hf

theorem Kubernetes.clientPod_frames (k : Kubernetes) (w : KubernetesWorld) (round idx : Nat)
    (serverHost : String) (vars : Variables) (plannedTime : Int) (tester : String) (j : Nat)
    (task : Task) (host : Host) (f : Input)
    (hf : Event.send f ∈ k.clientRun w round idx serverHost vars plannedTime tester j task host) :
    f.wellFormed round serverHost host.Name tester plannedTime := by
  have key := Kubernetes.pushLogsToParser_frames k w round idx j plannedTime (w.now round idx j)
    tester serverHost host.Name (w.clientPodName round host.Name task.Command plannedTime) f
  unfold Kubernetes.clientRun at hf
  dsimp only at hf
  split at hf
  · simp at hf
  · split at hf
    · simp at hf
    · split at hf
      · simp at hf
      · split at hf
        · simp at hf
        · simp only [List.mem_cons, reduceCtorEq, false_or, List.mem_append] at hf
          rcases hf with hf | hf
          · exact key hf
          · split at hf
            · simp at hf
            · split at hf <;> simp at hf

theorem Kubernetes.clientPods_frames (k : Kubernetes) (w : KubernetesWorld) (round idx : Nat)
    (serverHost : String) (vars : Variables) (plannedTime : Int) (tester : String)
    (tasks : List Task) (j : Nat) (runs : List (List Event)) (f : Input)
    (hr : k.clientRuns w round idx serverHost vars plannedTime tester j tasks = some runs)
    (hf : Event.send f ∈ runs.flatten) :
    ∃ task ∈ tasks, ∃ host, task.Host = some host ∧
      f.wellFormed round serverHost host.Name tester plannedTime := by
  induction tasks generalizing j runs with
  | nil =>
    simp only [Kubernetes.clientRuns, Option.some.injEq] at hr
    subst hr
    simp at hf
  | cons task tasks ih =>
    simp only [Kubernetes.clientRuns] at hr
    cases hh : task.Host with
    | none => simp [hh] at hr
    | some host =>
      simp only [hh, Option.map_eq_some'] at hr
      obtain ⟨rest, hrest, rfl⟩ := hr
      simp only [List.flatten_cons, List.mem_append] at hf
      rcases hf with hf | hf
      · exact ⟨task, List.mem_cons_self _ _, host, hh,
          Kubernetes.clientPod_frames k w round idx serverHost vars plannedTime tester j task host
            f hf⟩
      · obtain ⟨t, ht, h', hh', hw⟩ := ih (j + 1) rest hrest hf
        exact ⟨t, List.mem_cons_of_mem _ ht, h', hh', hw⟩

theorem Kubernetes.createPodsForTasks_frames (k : Kubernetes) (w : KubernetesWorld)
    (round idx : Nat) (mainTask : Task) (plan : Plan) (r : RunResult) (f : Input)
    (hr : k.createPodsForTasks w round idx mainTask plan = some r)
    (hf : Event.send f ∈ r.events) :
    ∃ host, mainTask.Host = some host ∧ ∃ sub ∈ mainTask.SubTasks, ∃ client,
      sub.Host = some client ∧
        f.wellFormed round host.Name client.Name plan.Tester plan.TestStartTime := by
  obtain ⟨host, st, hH, _, _, _, hcase⟩ :=
    Kubernetes.createPodsForTasks_cases k w round idx mainTask plan r hr
  refine ⟨host, hH, ?_⟩
  rcases hcase with hnone | ⟨vars, runs, clients, A, B, hruns, hperm, hev, hA, hB⟩
  · exact absurd hf (send_isClient f _ hnone)
  · rw [hev] at hf
    simp only [List.mem_append] at hf
    rcases hf with (hf | hf) | hf
    · exact absurd hf (send_isClient f _ hA)
    · exact Kubernetes.clientPods_frames k w round idx _ _ _ _ _ 0 runs f hruns
        (hperm.mem_iff.1 hf)
    · exact absurd hf (send_isClient f _ hB)

/-- C19: every frame that `Execute` of either runner sends while it runs the
server task at position `idx` of round `round` (the zero-based index into
`plan.Commands`) carries that round, the name of the host of that server task,
the name of the host of one of its client subtasks, the tester and the start
time of the plan, and has the stream set and the buffer empty. -/
theorem frames_carry_round_and_hosts (a : Ansible) (aw : AnsibleWorld) (k : Kubernetes)
    (kw : KubernetesWorld) (plan : Plan) :
    (∀ res, a.Execute aw plan = some res → ∀ round idx x, Step.ran round idx x ∈ res.steps →
      ∀ f, Event.send f ∈ x.events →
        ∃ tasks task server, plan.Commands[round]? = some tasks ∧ tasks[idx]? = some task ∧
          task.Host = some server ∧ ∃ sub ∈ task.SubTasks, ∃ client, sub.Host = some client ∧
            f.wellFormed round server.Name client.Name plan.Tester plan.TestStartTime) ∧
    (∀ res, k.Execute kw plan = some res → ∀ round idx x, Step.ran round idx x ∈ res.steps →
      ∀ f, Event.send f ∈ x.events →
        ∃ tasks task server, plan.Commands[round]? = some tasks ∧ tasks[idx]? = some task ∧
          task.Host = some server ∧ ∃ sub ∈ task.SubTasks, ∃ client, sub.Host = some client ∧
            f.wellFormed round server.Name client.Name plan.Tester plan.TestStartTime) := by
  constructor
  · intro res hres round idx x hx f hf
    unfold Ansible.Execute at hres
    rw [executeRounds_cells] at hres
    obtain ⟨task, hmem, _, hrun⟩ := executeCells_steps _ _ _ res hres round idx x hx
    obtain ⟨_, tasks, h1, h2⟩ := mem_planCells plan.Commands 0 _ hmem
    obtain ⟨server, hH, hrest⟩ := Ansible.runTasks_frames a aw round idx task _ _ x f hrun hf
    exact ⟨tasks, task, server, by simpa using h1, h2, hH, hrest⟩
  · intro res hres round idx x hx f hf
    unfold Kubernetes.Execute at hres
    rw [executeRounds_cells] at hres
    obtain ⟨task, hmem, _, hrun⟩ := executeCells_steps _ _ _ res hres round idx x hx
    obtain ⟨_, tasks, h1, h2⟩ := mem_planCells plan.Commands 0 _ hmem
    obtain ⟨server, hH, hrest⟩ :=
      Kubernetes.createPodsForTasks_frames k kw round idx task plan x f hrun hf
    exact ⟨tasks, task, server, by simpa using h1, h2, hH, hrest⟩

/-! ### Host discovery -/

theorem stuckDiscovery_no_move (m : Move) : stuckDiscovery.step factsFail m = none := by
  cases m with
  | handOver k => cases k <;> rfl
  | report k => cases k <;> rfl
  | closeIn => rfl
  | leave k => cases k <;> rfl
  | closeRet => rfl

theorem discovery_step_closed (d d' : Discovery) (m : Move)
    (hd : d = Discovery.start 1 ["h1", "h2"] ∨ d = midDiscovery ∨ d = stuckDiscovery)
    (h : d.step factsFail m = some d') :
    d' = Discovery.start 1 ["h1", "h2"] ∨ d' = midDiscovery ∨ d' = stuckDiscovery := by
  rcases hd with rfl | rfl | rfl
  · cases m with
    | handOver k =>
      cases k with
      | zero =>
        have : (Discovery.start 1 ["h1", "h2"]).step factsFail (Move.handOver 0) =
            some midDiscovery := rfl
        rw [this] at h
        exact Or.inr (Or.inl (Option.some.inj h).symm)
      | succ k => exact absurd h (by simp [Discovery.step, Discovery.start])
    | report k =>
      cases k with
      | zero => exact absurd h (by simp [Discovery.step, Discovery.start])
      | succ k => exact absurd h (by simp [Discovery.step, Discovery.start])
    | closeIn => exact absurd h (by simp [Discovery.step, Discovery.start])
    | leave k =>
      cases k with
      | zero => exact absurd h (by simp [Discovery.step, Discovery.start])
      | succ k => exact absurd h (by simp [Discovery.step, Discovery.start])
    | closeRet => exact absurd h (by simp [Discovery.step, Discovery.start])
  · cases m with
    | handOver k =>
      cases k with
      | zero => exact absurd h (by simp [Discovery.step, midDiscovery])
      | succ k => exact absurd h (by simp [Discovery.step, midDiscovery])
    | report k =>
      cases k with
      | zero =>
        have : midDiscovery.step factsFail (Move.report 0) = some stuckDiscovery := rfl
        rw [this] at h
        exact Or.inr (Or.inr (Option.some.inj h).symm)
      | succ k => exact absurd h (by simp [Discovery.step, midDiscovery])
    | closeIn => exact absurd h (by simp [Discovery.step, midDiscovery])
    | leave k =>
      cases k with
      | zero => exact absurd h (by simp [Discovery.step, midDiscovery])
      | succ k => exact absurd h (by simp [Discovery.step, midDiscovery])
    | closeRet => exact absurd h (by simp [Discovery.step, midDiscovery])
  · rw [stuckDiscovery_no_move] at h
    exact absurd h (by simp)

theorem discovery_run_closed (moves : List Move) (d d' : Discovery)
    (hd : d = Discovery.start 1 ["h1", "h2"] ∨ d = midDiscovery ∨ d = stuckDiscovery)
    (h : Discovery.run factsFail d moves = some d') :
    d' = Discovery.start 1 ["h1", "h2"] ∨ d' = midDiscovery ∨ d' = stuckDiscovery := by
  induction moves generalizing d with
  | nil =>
    simp only [Discovery.run, Option.some.injEq] at h
    subst h
    exact hd
  | cons m ms ih =>
    simp only [Discovery.run, Option.bind_eq_some] at h
    obtain ⟨d1, h1, h2⟩ := h
    exact ih d1 (discovery_step_closed d d1 m hd h1) h2

theorem mem_set_of_ne {α : Type} (l : List α) (k : Nat) (x y z : α) (hx : x ∈ l)
    (hk : l[k]? = some y) (hne : x ≠ y) : x ∈ l.set k z := by
  induction l generalizing k with
  | nil => simp at hx
  | cons a l ih =>
    cases k with
    | zero =>
      simp only [List.getElem?_cons_zero, Option.some.injEq] at hk
      subst hk
      simp only [List.set_cons_zero, List.mem_cons]
      rcases List.mem_cons.1 hx with h | h
      · exact absurd h hne
      · exact Or.inr h
    | succ k =>
      simp only [List.getElem?_cons_succ] at hk
      simp only [List.set_cons_succ, List.mem_cons]
      rcases List.mem_cons.1 hx with h | h
      · exact Or.inl h
      · exact Or.inr (ih k h hk)

theorem mem_set_self {α : Type} (l : List α) (k : Nat) (y z : α) (hk : l[k]? = some y) :
    z ∈ l.set k z := by
  induction l generalizing k with
  | nil => simp at hk
  | cons a l ih =>
    cases k with
    | zero => simp
    | succ k =>
      simp only [List.getElem?_cons_succ] at hk
      simp only [List.set_cons_succ, List.mem_cons]
      exact Or.inr (ih k hk)

theorem Discovery.sound_start (facts : String → Except Err IPAddresses) (n : Nat)
    (uniq : List String) : (Discovery.start n uniq).sound facts uniq := by
  refine ⟨?_, ?_, ?_⟩
  · intro h
    simp [Discovery.start] at h
  · intro h
    simp [Discovery.start] at h
  · intro h hh _
    exact Or.inl hh

theorem Discovery.sound_step (facts : String → Except Err IPAddresses) (uniq : List String)
    (d d' : Discovery) (m : Move) (hd : d.sound facts uniq) (h : d.step facts m = some d') :
    d'.sound facts uniq := by
  obtain ⟨h1, h2, h3⟩ := hd
  cases m with
  | handOver k =>
    simp only [Discovery.step] at h
    split at h
    · next host rest hts hw =>
      split at h
      · exact absurd h (by simp)
      · next hin =>
        simp only [Option.some.injEq] at h
        subst h
        refine ⟨fun hc => absurd hc hin, fun hr => ?_, ?_⟩
        · exact absurd (h2 hr).1 hin
        · intro x hx hf
          rcases h3 x hx hf with h' | h' | h'
          · rw [hts] at h'
            rcases List.mem_cons.1 h' with h'' | h''
            · subst h''
              exact Or.inr (Or.inl (mem_set_self _ k _ _ hw))
            · exact Or.inl h''
          · exact Or.inr (Or.inl (mem_set_of_ne _ k _ _ _ h' hw (by simp)))
          · exact Or.inr (Or.inr h')
    · exact absurd h (by simp)
  | report k =>
    simp only [Discovery.step] at h
    split at h
    · next host hw =>
      split at h
      · exact absurd h (by simp)
      · next hret =>
        split at h
        · next err hf =>
          simp only [Option.some.injEq] at h
          subst h
          exact ⟨h1, fun hr => absurd hr hret, fun x _ _ => Or.inr (Or.inr (by simp))⟩
        · next addresses hf =>
          simp only [Option.some.injEq] at h
          subst h
          refine ⟨h1, fun hr => absurd hr hret, ?_⟩
          intro x hx hfx
          rcases h3 x hx hfx with h' | h' | h'
          · exact Or.inl h'
          · refine Or.inr (Or.inl (mem_set_of_ne _ k _ _ _ h' hw ?_))
            intro hxh
            simp only [Worker.got.injEq] at hxh
            subst hxh
            obtain ⟨e, he⟩ := hfx
            rw [he] at hf
            exact absurd hf (by simp)
          · exact Or.inr (Or.inr h')
    · exact absurd h (by simp)
  | closeIn =>
    simp only [Discovery.step] at h
    split at h
    · next hc =>
      simp only [Option.some.injEq] at h
      subst h
      refine ⟨fun _ => hc.1, fun hr => ⟨rfl, (h2 hr).2⟩, ?_⟩
      intro x hx hf
      exact h3 x hx hf
    · exact absurd h (by simp)
  | leave k =>
    simp only [Discovery.step] at h
    split at h
    · next hw =>
      split at h
      · next hc =>
        simp only [Option.some.injEq] at h
        subst h
        refine ⟨h1, fun hr => ?_, ?_⟩
        · rw [hc.2] at hr
          exact absurd hr (by simp)
        · intro x hx hf
          rcases h3 x hx hf with h' | h' | h'
          · exact Or.inl h'
          · exact Or.inr (Or.inl (mem_set_of_ne _ k _ _ _ h' hw (by simp)))
          · exact Or.inr (Or.inr h')
      · exact absurd h (by simp)
    · exact absurd h (by simp)
  | closeRet =>
    simp only [Discovery.step] at h
    split at h
    · next hc =>
      simp only [Option.some.injEq] at h
      subst h
      refine ⟨h1, fun _ => ⟨hc.1, ?_⟩, h3⟩
      intro w hw
      have := List.all_eq_true.1 hc.2.2 w hw
      simpa using this
    · exact absurd h (by simp)

theorem Discovery.sound_run (facts : String → Except Err IPAddresses) (uniq : List String)
    (moves : List Move) (d d' : Discovery) (hd : d.sound facts uniq)
    (h : Discovery.run facts d moves = some d') : d'.sound facts uniq := by
  induction moves generalizing d with
  | nil =>
    simp only [Discovery.run, Option.some.injEq] at h
    subst h
    exact hd
  | cons m ms ih =>
    simp only [Discovery.run, Option.bind_eq_some] at h
    obtain ⟨d1, h1, h2⟩ := h
    exact ih d1 (Discovery.sound_step facts uniq d d1 m hd h1) h2

/-- C20 (code bug): one worker, the two hosts `h1` and `h2`, fact retrieval
failing.  The worker takes `h1`, reports the error and returns; then no move
is possible any more: the feeder waits to send `h2` on `inCh`, which nobody
receives, and the caller waits on `retCh`, which nobody closes.  Whatever the
goroutines do from the start, `retCh` is never closed, so `GetHostsForTest`
never returns: neither an error nor hosts.  Whenever the loop over `retCh`
does end, for any number of workers and any hosts, a host whose facts could
not be retrieved makes the result an error. -/
theorem discovery_deadlocks_after_worker_error :
    Discovery.run factsFail (Discovery.start 1 ["h1", "h2"]) [Move.handOver 0, Move.report 0] =
      some stuckDiscovery ∧
    stuckDiscovery.errs = ["host unreachable"] ∧ stuckDiscovery.toSend = ["h2"] ∧
    (∀ m, stuckDiscovery.step factsFail m = none) ∧
    (∀ moves d servers clients,
      Discovery.run factsFail (Discovery.start 1 ["h1", "h2"]) moves = some d →
        d.retClosed = false ∧ d.result servers clients = none) ∧
    (∀ (facts : String → Except Err IPAddresses) (n : Nat) (uniq : List String)
      (moves : List Move) (d : Discovery) (servers clients : List String),
      Discovery.run facts (Discovery.start n uniq) moves = some d → d.retClosed = true →
      (∃ h ∈ uniq, ∃ e, facts h = .error e) →
        ∃ e, d.result servers clients = some (.error e)) := by
  refine ⟨rfl, rfl, rfl, stuckDiscovery_no_move, ?_, ?_⟩
  · intro moves d servers clients h
    have hret : d.retClosed = false := by
      rcases discovery_run_closed moves _ d (Or.inl rfl) h with rfl | rfl | rfl <;> rfl
    exact ⟨hret, by simp [Discovery.result, hret]⟩
  · intro facts n uniq moves d servers clients hrun hret ⟨h, hh, hf⟩
    obtain ⟨h1, h2, h3⟩ :=
      Discovery.sound_run facts uniq moves _ d (Discovery.sound_start facts n uniq) hrun
    obtain ⟨hin, hw⟩ := h2 hret
    have herrs : d.errs ≠ [] := by
      rcases h3 h hh hf with h' | h' | h'
      · rw [h1 hin] at h'
        simp at h'
      · exact absurd (hw _ h') (by simp)
      · exact h'
    have hlen : d.errs.length > 0 := List.length_pos.2 herrs
    exact ⟨"errors in retrieving ansible host facts. " ++ " ".intercalate d.errs,
      by simp [Discovery.result, hret, hlen]⟩

/-! ### Rendering the commands (`cmdtemplate`) -/

theorem splitAt2_none (a b : Char) : ∀ s : List Char, ¬ [a, b] <:+: s → splitAt2 a b s = none
  | [], _ => rfl
  | [_], _ => rfl
  | c :: d :: rest, h => by
    have h1 : ¬ (c = a ∧ d = b) := by
      rintro ⟨rfl, rfl⟩
      exact h ⟨[], rest, rfl⟩
    have h2 : ¬ [a, b] <:+: d :: rest :=
      fun hi => h (hi.trans (List.suffix_cons c _).isInfix)
    simp [splitAt2, h1, splitAt2_none a b (d :: rest) h2]

theorem splitAt2_first (a b : Char) (rest : List Char) :
    ∀ text : List Char, ¬ [a, b] <:+: text ++ [a] →
      splitAt2 a b (text ++ a :: b :: rest) = some (text, rest)
  | [], _ => by simp [splitAt2]
  | [c], h => by
    have h1 : ¬ (c = a ∧ a = b) := by
      rintro ⟨rfl, rfl⟩
      exact h ⟨[], [], rfl⟩
    simp [splitAt2, h1]
  | c :: d :: text, h => by
    have h1 : ¬ (c = a ∧ d = b) := by
      rintro ⟨rfl, rfl⟩
      exact h ⟨[], text ++ [c], by simp⟩
    have h2 : ¬ [a, b] <:+: (d :: text) ++ [a] :=
      fun hi => h (hi.trans (List.suffix_cons c _).isInfix)
    have ih := splitAt2_first a b rest (d :: text) h2
    simp only [List.cons_append] at ih
    simp [splitAt2, h1, ih]

theorem not_infix_pair_of_not_mem (c x : Char) (l : List Char) (h : c ∉ l) : ¬ [c, x] <:+: l :=
  fun hi => h (hi.subset (List.mem_cons_self _ _))

theorem not_infix_snoc_of_not_mem (c : Char) (l : List Char) (h : c ∉ l) :
    ¬ [c, c] <:+: l ++ [c] := by
  rintro ⟨p, q, e⟩
  rcases List.eq_nil_or_concat q with rfl | ⟨q', x, rfl⟩
  · have e' : (p ++ [c]) ++ [c] = l ++ [c] := by simpa using e
    have := List.append_cancel_right e'
    exact h (this ▸ by simp)
  · have e' : (p ++ c :: c :: q') ++ [x] = l ++ [c] := by simpa using e
    have := (List.append_inj' e' rfl).1
    exact h (this ▸ by simp)

theorem digitChar_ne_brace : ∀ k, k < 10 → '{' ≠ Nat.digitChar k := by
  decide

theorem toDigitsCore_no_brace (fuel n : Nat) (ds : List Char) (h : '{' ∉ ds) :
    '{' ∉ Nat.toDigitsCore 10 fuel n ds := by
  induction fuel generalizing n ds with
  | zero => simpa [Nat.toDigitsCore] using h
  | succ f ih =>
    simp only [Nat.toDigitsCore]
    split_ifs
    · simp [h, digitChar_ne_brace (n % 10) (Nat.mod_lt _ (by decide))]
    · exact ih _ _ (by simp [h, digitChar_ne_brace (n % 10) (Nat.mod_lt _ (by decide))])

theorem nat_toString_no_brace (n : Nat) : '{' ∉ (toString n).toList := by
  show '{' ∉ (Nat.repr n).toList
  simpa [Nat.repr, Nat.toDigits, List.asString] using toDigitsCore_no_brace (n + 1) n [] (by simp)

theorem int_toString_no_brace (d : Int) : '{' ∉ (toString d).toList := by
  cases d with
  | ofNat m => exact nat_toString_no_brace m
  | negSucc m =>
    show '{' ∉ ("-" ++ toString (m + 1)).toList
    have := nat_toString_no_brace (m + 1)
    simp only [String.toList, String.data_append, List.mem_append] at this ⊢
    rintro (h | h)
    · revert h; decide
    · exact this h

theorem renderChars_noAction (other : OtherSyntax) (vars : Variables) (fuel : Nat)
    (s : List Char) (h : ¬ ['{', '{'] <:+: s) : renderChars other vars fuel s = .ok s := by
  cases fuel with
  | zero => rfl
  | succ n => simp [renderChars, splitAt2_none _ _ s h]

theorem splitAt2_length (a b : Char) :
    ∀ (s text rest : List Char), splitAt2 a b s = some (text, rest) →
      text.length + rest.length + 2 = s.length
  | [], _, _, h => by simp [splitAt2] at h
  | [_], _, _, h => by simp [splitAt2] at h
  | c :: d :: s, text, rest, h => by
    simp only [splitAt2] at h
    split at h
    · simp only [Option.some.injEq, Prod.mk.injEq] at h
      obtain ⟨rfl, rfl⟩ := h
      simp
    · cases hr : splitAt2 a b (d :: s) with
      | none => simp [hr] at h
      | some r =>
        obtain ⟨t', r'⟩ := r
        simp only [hr, Option.map_some', Option.some.injEq, Prod.mk.injEq] at h
        obtain ⟨rfl, rfl⟩ := h
        have := splitAt2_length a b (d :: s) t' r' hr
        simp only [List.length_cons] at this ⊢
        omega

theorem renderChars_fuel (other : OtherSyntax) (vars : Variables) (fuel fuel' : Nat)
    (s : List Char) (h : s.length < fuel) (h' : s.length < fuel') :
    renderChars other vars fuel s = renderChars other vars fuel' s := by
  induction fuel generalizing fuel' s with
  | zero => omega
  | succ f ih =>
    obtain ⟨f', rfl⟩ : ∃ f', fuel' = f' + 1 := ⟨fuel' - 1, by omega⟩
    simp only [renderChars]
    cases h1 : splitAt2 '{' '{' s with
    | none => rfl
    | some r1 =>
      obtain ⟨text, afterOpen⟩ := r1
      simp only
      cases h2 : splitAt2 '}' '}' afterOpen with
      | none => rfl
      | some r2 =>
        obtain ⟨body, rest⟩ := r2
        simp only
        have l1 := splitAt2_length _ _ _ _ _ h1
        have l2 := splitAt2_length _ _ _ _ _ h2
        rw [ih f' rest (by omega) (by omega)]

theorem templateString_noAction (other : OtherSyntax) (vars : Variables) (s : String)
    (h : noAction s) : templateString other s vars = .ok s := by
  unfold templateString
  rw [renderChars_noAction other vars _ s.toList h]
  rfl

theorem templateString_no_brace (other : OtherSyntax) (vars : Variables) (s : String)
    (h : '{' ∉ s.toList) : templateString other s vars = .ok s :=
  templateString_noAction other vars s (not_infix_pair_of_not_mem _ _ _ h)

theorem templateString_port (other : OtherSyntax) (a v6 : String) :
    templateString other "--port=\x7b\x7b .ServerPort \x7d\x7d" ⟨a, v6, 5601⟩ =
      .ok "--port=5601" := rfl

theorem templateString_client (other : OtherSyntax) (a v6 : String) (p : Int) :
    templateString other "--client=\x7b\x7b .ServerAddressV4 \x7d\x7d" ⟨a, v6, p⟩ =
      .ok ("--client=" ++ a) := by
  have h : renderChars other ⟨a, v6, p⟩
      ("--client=\x7b\x7b .ServerAddressV4 \x7d\x7d".length + 1)
      "--client=\x7b\x7b .ServerAddressV4 \x7d\x7d".toList =
        .ok ("--client=".toList ++ a.toList ++ []) := rfl
  unfold templateString
  rw [h]
  simp only [List.append_nil]
  rfl

theorem templateArgs_map (render : Renderer) (vars : Variables) (g : String → String) :
    ∀ (args acc : List String), (∀ x ∈ args, render x vars = .ok (g x)) →
      templateArgs render vars args acc = .ok (acc ++ args.map g)
  | [], acc, _ => by simp [templateArgs]
  | x :: rest, acc, h => by
    simp only [templateArgs, h x (List.mem_cons_self _ _)]
    rw [templateArgs_map render vars g rest _ (fun y hy => h y (List.mem_cons_of_mem _ hy))]
    simp

theorem templateArgs_error (render : Renderer) (vars : Variables) (s : String) (e : Err)
    (hs : render s vars = .error e) :
    ∀ (args acc : List String), s ∈ args → ∃ e', templateArgs render vars args acc = .error e'
  | [], _, h => by simp at h
  | x :: rest, acc, h => by
    simp only [templateArgs]
    cases hx : render x vars with
    | error e' => exact ⟨e', rfl⟩
    | ok v =>
      rcases List.mem_cons.1 h with rfl | h'
      · rw [hs] at hx; cases hx
      · exact templateArgs_error render vars s e hs rest _ h'

theorem not_space_of_name_char (c : Char) (h : (c.isAlphanum || c == '_') = true) :
    isActionSpace c = false := by
  cases hc : isActionSpace c with
  | false => rfl
  | true =>
    simp only [isActionSpace, Bool.or_eq_true, beq_iff_eq] at hc
    rcases hc with ((rfl | rfl) | rfl) | rfl <;> revert h <;> decide

theorem fieldName_no_space (name : List Char) (h : isFieldName name = true) :
    ∀ c ∈ name, isActionSpace c = false := by
  cases name with
  | nil => simp
  | cons c cs =>
    simp only [isFieldName, Bool.and_eq_true, List.all_eq_true] at h
    intro x hx
    rcases List.mem_cons.1 hx with rfl | hx
    · apply not_space_of_name_char
      have := h.1
      simp only [Bool.or_eq_true] at this ⊢
      rcases this with h1 | h1
      · left; simp [Char.isAlphanum, h1]
      · right; exact h1
    · exact not_space_of_name_char x (h.2 x hx)

theorem dropWhile_all (p : Char → Bool) (ws r : List Char) (h : ∀ c ∈ ws, p c = true) :
    (ws ++ r).dropWhile p = r.dropWhile p := by
  induction ws with
  | nil => rfl
  | cons w ws ih =>
    simp only [List.cons_append]
    rw [List.dropWhile_cons_of_pos (h w (List.mem_cons_self _ _))]
    exact ih (fun c hc => h c (List.mem_cons_of_mem _ hc))

theorem dropWhile_none (p : Char → Bool) (l : List Char) (h : ∀ c ∈ l, p c = false) :
    l.dropWhile p = l := by
  cases l with
  | nil => rfl
  | cons c cs => simp [List.dropWhile, h c (List.mem_cons_self _ _)]

theorem trimAction_field (ws₁ ws₂ name : List Char) (h₁ : ∀ c ∈ ws₁, isActionSpace c = true)
    (h₂ : ∀ c ∈ ws₂, isActionSpace c = true) (hn : isFieldName name = true) :
    trimAction (ws₁ ++ '.' :: name ++ ws₂) = '.' :: name := by
  have hx : ∀ c ∈ '.' :: name, isActionSpace c = false := by
    intro c hc
    rcases List.mem_cons.1 hc with rfl | hc
    · rfl
    · exact fieldName_no_space name hn c hc
  have hr : ∀ c ∈ ('.' :: name).reverse, isActionSpace c = false :=
    fun c hc => hx c (List.mem_reverse.1 hc)
  have hw : ∀ c ∈ ws₂.reverse, isActionSpace c = true :=
    fun c hc => h₂ c (List.mem_reverse.1 hc)
  unfold trimAction
  rw [List.append_assoc, dropWhile_all _ _ _ h₁, List.cons_append,
    List.dropWhile_cons_of_neg (by simp [isActionSpace]), ← List.cons_append,
    List.reverse_append, dropWhile_all _ _ _ hw, dropWhile_none _ _ hr, List.reverse_reverse]

theorem fieldRef_field (ws₁ ws₂ name : List Char) (h₁ : ∀ c ∈ ws₁, isActionSpace c = true)
    (h₂ : ∀ c ∈ ws₂, isActionSpace c = true) (hn : isFieldName name = true) :
    fieldRef? (ws₁ ++ '.' :: name ++ ws₂) = some name := by
  unfold fieldRef?
  rw [trimAction_field ws₁ ws₂ name h₁ h₂ hn]
  simp [hn]

theorem fieldName_no_close (name : List Char) (h : isFieldName name = true) : '}' ∉ name := by
  cases name with
  | nil => simp
  | cons c cs =>
    simp only [isFieldName, Bool.and_eq_true, List.all_eq_true] at h
    intro hx
    rcases List.mem_cons.1 hx with hc | hx
    · have := h.1
      rw [← hc] at this
      revert this
      decide
    · have := h.2 _ hx
      revert this
      decide

theorem space_ne_close (ws : List Char) (h : ∀ c ∈ ws, isActionSpace c = true) : '}' ∉ ws :=
  fun hx => absurd (h _ hx) (by decide)

theorem field_unknown (vars : Variables) (name : String)
    (h : name ∉ ["ServerAddressV4", "ServerAddressV6", "ServerPort"]) :
    ∃ e, vars.field name = .error e := by
  simp only [List.mem_cons, List.mem_singleton, List.not_mem_nil, or_false, not_or] at h
  refine ⟨"template: main: can\x27t evaluate field " ++ name ++
    " in type cmdtemplate.Variables", ?_⟩
  simp [Variables.field, h.1, h.2.1, h.2.2]

theorem renderChars_action (other : OtherSyntax) (vars : Variables) (fuel : Nat)
    (text ws₁ ws₂ n rest : List Char) (htext : ¬ ['{', '{'] <:+: text ++ ['{'])
    (h₁ : ∀ c ∈ ws₁, isActionSpace c = true) (h₂ : ∀ c ∈ ws₂, isActionSpace c = true)
    (hn : isFieldName n = true) :
    renderChars other vars (fuel + 1)
        (text ++ '{' :: '{' :: (ws₁ ++ '.' :: n ++ ws₂) ++ '}' :: '}' :: rest) =
      match vars.field (String.mk n) with
      | .error err => .error err
      | .ok value =>
        match renderChars other vars fuel rest with
        | .error err => .error err
        | .ok out => .ok (text ++ value.toList ++ out) := by
  have hbody : ¬ ['}', '}'] <:+: (ws₁ ++ '.' :: n ++ ws₂) ++ ['}'] := by
    apply not_infix_snoc_of_not_mem
    simp only [List.mem_append, List.mem_cons, not_or]
    exact ⟨⟨space_ne_close ws₁ h₁, by decide, fieldName_no_close _ hn⟩, space_ne_close ws₂ h₂⟩
  have e1 := splitAt2_first '{' '{' ((ws₁ ++ '.' :: n ++ ws₂) ++ '}' :: '}' :: rest)
    text htext
  have e2 := splitAt2_first '}' '}' rest (ws₁ ++ '.' :: n ++ ws₂) hbody
  have e3 := fieldRef_field ws₁ ws₂ n h₁ h₂ hn
  simp only [List.append_assoc, List.cons_append] at e1 e2 e3
  simp only [renderChars, List.append_assoc, List.cons_append]
  rw [e1]
  simp only
  rw [e2]
  simp only
  rw [e3]

theorem renderChars_unknown (other : OtherSyntax) (vars : Variables) (name : List Char)
    (hn : String.mk name ∉ ["ServerAddressV4", "ServerAddressV6", "ServerPort"])
    (s : List Char) (h : RefersTo name s) :
    ∀ fuel, s.length < fuel → ∃ e, renderChars other vars fuel s = .error e := by
  induction h with
  | here text ws₁ ws₂ rest htext h₁ h₂ hname =>
    intro fuel hfuel
    obtain ⟨f, rfl⟩ : ∃ f, fuel = f + 1 := ⟨fuel - 1, by omega⟩
    obtain ⟨e, he⟩ := field_unknown vars (String.mk name) hn
    exact ⟨e, by rw [renderChars_action other vars f text ws₁ ws₂ name rest htext h₁ h₂ hname, he]⟩
  | later text ws₁ ws₂ n rest htext h₁ h₂ hname _ ih =>
    intro fuel hfuel
    obtain ⟨f, rfl⟩ : ∃ f, fuel = f + 1 := ⟨fuel - 1, by omega⟩
    rw [renderChars_action other vars f text ws₁ ws₂ n rest htext h₁ h₂ hname]
    cases hv : vars.field (String.mk n) with
    | error e => exact ⟨e, rfl⟩
    | ok value =>
      obtain ⟨e, he⟩ := ih f (by
        simp only [List.length_append, List.length_cons] at hfuel
        omega)
      exact ⟨e, by simp only [he]⟩

theorem templateString_unknown (other : OtherSyntax) (vars : Variables) (s name : String)
    (h : refersToField s name)
    (hn : name ∉ ["ServerAddressV4", "ServerAddressV6", "ServerPort"]) :
    ∃ e, templateString other s vars = .error e := by
  obtain ⟨e, he⟩ := renderChars_unknown other vars name.toList hn s.toList h
    (s.length + 1) (Nat.lt_succ_self _)
  exact ⟨e, by unfold templateString; rw [he]⟩

theorem renderedArg_noAction (a f : String) (h : noAction f) : renderedArg a f = f := by
  unfold renderedArg
  have h1 : f ≠ "--port=\x7b\x7b .ServerPort \x7d\x7d" := by
    rintro rfl
    exact h (by decide)
  have h2 : f ≠ "--client=\x7b\x7b .ServerAddressV4 \x7d\x7d" := by
    rintro rfl
    exact h (by decide)
  simp [h1, h2]

theorem noAction_of_no_brace (f : String) (h : '{' ∉ f.toList) : noAction f :=
  not_infix_pair_of_not_mem _ _ _ h

theorem render_flag (other : OtherSyntax) (vars : Variables) (a f : String) (h : noAction f) :
    templateString other f vars = .ok (renderedArg a f) := by
  rw [renderedArg_noAction a f h, templateString_noAction other vars f h]

theorem render_decimal (other : OtherSyntax) (vars : Variables) (a pre : String) (d : Int)
    (h : '{' ∉ pre.toList) :
    templateString other (pre ++ toString d) vars = .ok (renderedArg a (pre ++ toString d)) := by
  apply render_flag
  apply noAction_of_no_brace
  have := int_toString_no_brace d
  simp only [String.toList, String.data_append, List.mem_append, not_or] at this h ⊢
  exact ⟨h, this⟩

theorem server_args_render (other : OtherSyntax) (cfg : IPerf3Config) (server : Host)
    (a v6 : String) (hflags : ∀ f ∈ cfg.AdditionalFlags.Server, noAction f) :
    ∀ x ∈ (buildIPerf3ServerCommand cfg server).2,
      templateString other x ⟨a, v6, 5601⟩ = .ok (renderedArg a x) := by
  intro x hx
  have hx' : x ∈ ["--json", "--port=\x7b\x7b .ServerPort \x7d\x7d", "--server", "--udp"] ∨
      x ∈ cfg.AdditionalFlags.Server := by
    unfold buildIPerf3ServerCommand at hx
    simp only at hx
    split at hx <;> simp only [List.mem_append, List.mem_cons, List.mem_singleton,
      List.not_mem_nil, or_false] at hx ⊢ <;> tauto
  rcases hx' with hx' | hx'
  · simp only [List.mem_cons, List.mem_singleton, List.not_mem_nil, or_false] at hx'
    rcases hx' with rfl | rfl | rfl | rfl <;> rfl
  · exact render_flag other _ a x (hflags x hx')

theorem client_args_render (other : OtherSyntax) (cfg : IPerf3Config) (server client : Host)
    (a v6 : String) (hflags : ∀ f ∈ cfg.AdditionalFlags.Clients, noAction f) :
    ∀ x ∈ (buildIPerf3ClientCommand cfg server client).2,
      templateString other x ⟨a, v6, 5601⟩ = .ok (renderedArg a x) := by
  intro x hx
  have hx' : x ∈ ["--time=" ++ toString cfg.Duration, "--interval=" ++ toString cfg.Interval,
      "--json", "--port=\x7b\x7b .ServerPort \x7d\x7d",
      "--client=\x7b\x7b .ServerAddressV4 \x7d\x7d", "--udp"] ∨
      x ∈ cfg.AdditionalFlags.Clients := by
    unfold buildIPerf3ClientCommand at hx
    simp only at hx
    split at hx <;> simp only [List.mem_append, List.mem_cons, List.mem_singleton,
      List.not_mem_nil, or_false] at hx ⊢ <;> tauto
  rcases hx' with hx' | hx'
  · simp only [List.mem_cons, List.mem_singleton, List.not_mem_nil, or_false] at hx'
    rcases hx' with rfl | rfl | rfl | rfl | rfl | rfl
    · exact render_decimal other _ a "--time=" _ (by decide)
    · exact render_decimal other _ a "--interval=" _ (by decide)
    · rfl
    · rfl
    · exact templateString_client other a v6 5601
    · rfl
  · exact render_flag other _ a x (hflags x hx')

theorem Template_rendered (render : Renderer) (vars : Variables) (g : String → String)
    (t : Task) (hc : render t.Command vars = .ok t.Command)
    (ha : ∀ x ∈ t.Args, render x vars = .ok (g x)) :
    Template render t vars =
      (Task.mk t.Host t.Command (t.Args.map g) t.Ports t.SubTasks t.Sleep t.Status, none) := by
  cases t with
  | mk h c args p subs d st =>
    simp only [Task.Command, Task.Args] at hc ha
    simp only [Template, hc, templateArgs_map render vars g args [] ha, List.nil_append,
      Task.Host, Task.Command, Task.Args, Task.Ports, Task.SubTasks, Task.Sleep, Task.Status]

theorem Template_error (render : Renderer) (vars : Variables) (t : Task) (s : String) (e : Err)
    (hs : render s vars = .error e) (hmem : t.Command = s ∨ s ∈ t.Args) :
    (∃ e', (Template render t vars).2 = some e') ∧ (Template render t vars).1.Args = t.Args := by
  cases t with
  | mk h c args p subs d st =>
    simp only [Task.Command, Task.Args] at hmem
    simp only [Template]
    cases hc : render c vars with
    | error e' => exact ⟨⟨e', rfl⟩, rfl⟩
    | ok c' =>
      rcases hmem with rfl | hmem
      · rw [hs] at hc; cases hc
      · obtain ⟨e', he'⟩ := templateArgs_error render vars s e hs args [] hmem
        simp only [he']
        exact ⟨⟨e', rfl⟩, rfl⟩

theorem planned_server_rendered (other : OtherSyntax) (cfg : IPerf3Config) (σ : RangeOrder)
    (env : Environment) (i k : Nat) (server : Host) (a v6 : String)
    (hflags : ∀ f ∈ cfg.AdditionalFlags.Server, noAction f) :
    Template (templateString other) (serverTaskOf cfg σ env i k server) ⟨a, v6, 5601⟩ =
      (Task.mk (some server) "iperf3"
        ((serverTaskOf cfg σ env i k server).Args.map (renderedArg a)) (iperf3Ports cfg)
        (serverTaskOf cfg σ env i k server).SubTasks 0 (some Status.fresh), none) :=
  Template_rendered (templateString other) _ (renderedArg a) (serverTaskOf cfg σ env i k server)
    rfl (server_args_render other cfg server a v6 hflags)

theorem planned_client_rendered (other : OtherSyntax) (cfg : IPerf3Config)
    (server client : Host) (a v6 : String)
    (hflags : ∀ f ∈ cfg.AdditionalFlags.Clients, noAction f) :
    Template (templateString other) (clientTask cfg server client) ⟨a, v6, 5601⟩ =
      (Task.mk (some client) "iperf3"
        ((clientTask cfg server client).Args.map (renderedArg a)) (iperf3Ports cfg) [] 0 none,
        none) :=
  Template_rendered (templateString other) _ (renderedArg a) (clientTask cfg server client)
    rfl (client_args_render other cfg server client a v6 hflags)

theorem server_has_port_arg (cfg : IPerf3Config) (server : Host) :
    "--port=\x7b\x7b .ServerPort \x7d\x7d" ∈ (buildIPerf3ServerCommand cfg server).2 := by
  unfold buildIPerf3ServerCommand
  simp only
  split <;> simp

theorem client_has_port_and_address_arg (cfg : IPerf3Config) (server client : Host) :
    "--port=\x7b\x7b .ServerPort \x7d\x7d" ∈ (buildIPerf3ClientCommand cfg server client).2 ∧
    "--client=\x7b\x7b .ServerAddressV4 \x7d\x7d" ∈
      (buildIPerf3ClientCommand cfg server client).2 := by
  unfold buildIPerf3ClientCommand
  simp only
  split <;> simp

/-- C17: when the additional flags of the configuration hold no `{{`,
`Template` with the server port 5601 and the server address `a` succeeds on
every server task of the plan and on every client subtask of it.  The command
stays as it was and the args are rendered one by one in their order: the arg
`--port={{ .ServerPort }}` becomes `--port=5601`, the arg
`--client={{ .ServerAddressV4 }}` becomes `--client=` followed by `a`, every
other arg stays as it was.  A server task holds the port arg, a client subtask
the port arg and the address arg. -/
theorem template_renders_planned_tasks (other : OtherSyntax) (cfg : IPerf3Config)
    (σ : RangeOrder) (env : Environment) (test : Test) (a v6 : String)
    (hflags : ∀ f ∈ cfg.AdditionalFlags.Server ++ cfg.AdditionalFlags.Clients, noAction f) :
    ∃ p, IPerf3.Plan cfg σ env test = .ok p ∧
      ∀ round ∈ p.Commands, ∀ t ∈ serverTasks round,
        (∃ t', Template (templateString other) t ⟨a, v6, 5601⟩ = (t', none) ∧
          t'.Command = t.Command ∧ t'.Args = t.Args.map (renderedArg a) ∧
          t'.Args.length = t.Args.length ∧ "--port=5601" ∈ t'.Args) ∧
        ∀ c ∈ t.SubTasks,
          ∃ c', Template (templateString other) c ⟨a, v6, 5601⟩ = (c', none) ∧
            c'.Command = c.Command ∧ c'.Args = c.Args.map (renderedArg a) ∧
            c'.Args.length = c.Args.length ∧ "--port=5601" ∈ c'.Args ∧
            "--client=" ++ a ∈ c'.Args := by
  have hS : ∀ f ∈ cfg.AdditionalFlags.Server, noAction f :=
    fun f hf => hflags f (List.mem_append_left _ hf)
  have hC : ∀ f ∈ cfg.AdditionalFlags.Clients, noAction f :=
    fun f hf => hflags f (List.mem_append_right _ hf)
  refine ⟨_, rfl, ?_⟩
  intro round hround t ht
  simp only [planRounds_snd] at hround
  obtain ⟨j, rfl⟩ := mem_roundsOf cfg σ env test _ _ round hround
  rw [serverTasks_roundOf] at ht
  obtain ⟨e, _, rfl⟩ := List.mem_map.1 ht
  constructor
  · refine ⟨_, planned_server_rendered other cfg σ env j e.1 e.2.2 a v6 hS, rfl, rfl,
      by simp [Task.Args], ?_⟩
    exact List.mem_map.2 ⟨_, server_has_port_arg cfg e.2.2, rfl⟩
  · intro c hc
    rw [serverTaskOf_SubTasks] at hc
    obtain ⟨cl, _, rfl⟩ := List.mem_map.1 hc
    refine ⟨_, planned_client_rendered other cfg e.2.2 cl.2 a v6 hC, rfl, rfl,
      by simp [Task.Args], ?_, ?_⟩
    · exact List.mem_map.2 ⟨_, (client_has_port_and_address_arg cfg e.2.2 cl.2).1, rfl⟩
    · exact List.mem_map.2 ⟨_, (client_has_port_and_address_arg cfg e.2.2 cl.2).2, rfl⟩

/-- Witness for C17: the configuration with the additional flags `--one-off`,
`--bitrate=10M` and `--zerocopy`, the hosts `a` and `b`, one round, the
address 192.0.2.1. -/
theorem template_renders_planned_tasks_witness :
    (∀ f ∈ cfgFlags.AdditionalFlags.Server ++ cfgFlags.AdditionalFlags.Clients, noAction f) ∧
    ∃ p, IPerf3.Plan cfgFlags RangeOrder.listed envAB (testRounds 1) = .ok p ∧
      ∀ round ∈ p.Commands, ∀ t ∈ serverTasks round,
        (∃ t', Template (templateString (fun _ _ => .error "unsupported")) t
            ⟨"192.0.2.1", "", 5601⟩ = (t', none) ∧
          t'.Command = t.Command ∧ t'.Args = t.Args.map (renderedArg "192.0.2.1") ∧
          t'.Args.length = t.Args.length ∧ "--port=5601" ∈ t'.Args) ∧
        ∀ c ∈ t.SubTasks,
          ∃ c', Template (templateString (fun _ _ => .error "unsupported")) c
              ⟨"192.0.2.1", "", 5601⟩ = (c', none) ∧
            c'.Command = c.Command ∧ c'.Args = c.Args.map (renderedArg "192.0.2.1") ∧
            c'.Args.length = c.Args.length ∧ "--port=5601" ∈ c'.Args ∧
            "--client=" ++ "192.0.2.1" ∈ c'.Args :=
  ⟨by unfold noAction; decide,
   template_renders_planned_tasks (fun _ _ => .error "unsupported") cfgFlags RangeOrder.listed
     envAB (testRounds 1) "192.0.2.1" "" (by unfold noAction; decide)⟩

/-- C18 (counterexample): the second arg of `taskSkippedNope` is
`--port={{ if false }}{{ .Nope }}{{ end }}`: it references the field `Nope`,
which `Variables` does not have, in a branch that is not executed.  `Template`
returns no error for it, whatever the variables are, and renders the arg as
`--port=`: the placeholder has become empty text. -/
theorem template_unknown_field_in_skipped_branch :
    taskSkippedNope.Args = ["--json", "--port=" ++ "\x7b\x7b if false \x7d\x7d" ++
      "\x7b\x7b .Nope \x7d\x7d" ++ "\x7b\x7b end \x7d\x7d"] ∧
    "Nope" ∉ ["ServerAddressV4", "ServerAddressV6", "ServerPort"] ∧
    ∀ (beyond : OtherSyntax) (vars : Variables),
      (Template (templateString (conditionalSyntax beyond)) taskSkippedNope vars).2 = none ∧
      (Template (templateString (conditionalSyntax beyond)) taskSkippedNope vars).1.Command =
        "iperf3" ∧
      (Template (templateString (conditionalSyntax beyond)) taskSkippedNope vars).1.Args =
        ["--json", "--port="] := by
  refine ⟨by decide, by decide, fun beyond vars => ⟨rfl, rfl, rfl⟩⟩

/-- C18 (amended): when the command of a task or one of its args holds an
action that names a field other than `ServerAddressV4`, `ServerAddressV6` and
`ServerPort` and nothing else (as `{{ .Nope }}` does), and only text and
actions that name one field each stand before it, so that the action is
executed, `Template` returns an error and leaves the args of the task as they
were, whatever the variables and the other args are and whatever
`text/template` yields for other syntax: the placeholder is not rendered as
empty text. -/
theorem template_unknown_field_is_error (other : OtherSyntax) (task : Task) (vars : Variables)
    (s name : String) (hs : refersToField s name)
    (hn : name ∉ ["ServerAddressV4", "ServerAddressV6", "ServerPort"])
    (hmem : task.Command = s ∨ s ∈ task.Args) :
    (∃ e, (Template (templateString other) task vars).2 = some e) ∧
    (Template (templateString other) task vars).1.Args = task.Args := by
  obtain ⟨e, he⟩ := templateString_unknown other vars s name hs hn
  exact Template_error (templateString other) vars task s e he hmem

/-- Witness for C18: the arg `--port={{ .Nope }}` of `taskNope`. -/
theorem template_unknown_field_is_error_witness :
    refersToField "--port=\x7b\x7b .Nope \x7d\x7d" "Nope" ∧
    "Nope" ∉ ["ServerAddressV4", "ServerAddressV6", "ServerPort"] ∧
    (taskNope.Command = "--port=\x7b\x7b .Nope \x7d\x7d" ∨
      "--port=\x7b\x7b .Nope \x7d\x7d" ∈ taskNope.Args) ∧
    (∃ e, (Template (templateString (fun _ _ => .ok "")) taskNope
      ⟨"192.0.2.1", "", 5601⟩).2 = some e) ∧
    (Template (templateString (fun _ _ => .ok "")) taskNope ⟨"192.0.2.1", "", 5601⟩).1.Args =
      taskNope.Args :=
  ⟨RefersTo.here "--port=".toList [' '] [' '] [] (by decide) (by decide) (by decide) rfl,
   by decide, Or.inr (by decide),
   template_unknown_field_is_error (fun _ _ => .ok "") taskNope ⟨"192.0.2.1", "", 5601⟩
     "--port=\x7b\x7b .Nope \x7d\x7d" "Nope"
     (RefersTo.here "--port=".toList [' '] [' '] [] (by decide) (by decide) (by decide) rfl)
     (by decide) (Or.inr (by decide))⟩

/-! ### The output cleaner -/

theorem stripPrefix_eq_some (m xs r : List Char) (h : stripPrefix m xs = some r) : xs = m ++ r := by
  induction m generalizing xs with
  | nil =>
    simp only [stripPrefix, Option.some.injEq] at h
    simpa using h
  | cons c cs ih =>
    cases xs with
    | nil => simp [stripPrefix] at h
    | cons x xs =>
      simp only [stripPrefix] at h
      split at h
      · next hx => rw [hx, ih xs h]; rfl
      · cases h

theorem stripPrefix_append (m r : List Char) : stripPrefix m (m ++ r) = some r := by
  induction m with
  | nil => rfl
  | cons c cs ih => simp [stripPrefix, ih]

theorem markerAt_eq_some (xs r : List Char) (h : markerAt xs = some r) :
    xs = openArrow ++ r ∨ xs = openShell ++ r := by
  unfold markerAt at h
  split at h
  · next r' h' => cases h; exact Or.inl (stripPrefix_eq_some _ _ _ h')
  · exact Or.inr (stripPrefix_eq_some _ _ _ h)

theorem markerAt_length (xs r : List Char) (h : markerAt xs = some r) : r.length < xs.length := by
  rcases markerAt_eq_some xs r h with e | e <;> rw [e] <;> simp [openArrow, openShell] <;> omega

theorem markerAt_suffix (x : Char) (xs r : List Char) (h : markerAt (x :: xs) = some r) :
    r <:+ xs := by
  rcases markerAt_eq_some _ r h with e | e
  · simp only [openArrow, List.cons_append, List.cons.injEq] at e
    exact ⟨['>', ' ', '{'], by simpa using e.2.symm⟩
  · simp only [openShell, List.cons_append, List.cons.injEq] at e
    exact ⟨['>', '>', '\n', '{'], by simpa using e.2.symm⟩

theorem afterLastMarker_none_suffix (xs post : List Char) (h : afterLastMarker xs = none)
    (hp : post <:+ xs) : afterLastMarker post = none ∧ markerAt post = none := by
  induction xs generalizing post with
  | nil =>
    rw [List.suffix_nil] at hp
    subst hp
    exact ⟨rfl, rfl⟩
  | cons x xs ih =>
    simp only [afterLastMarker] at h
    cases h1 : afterLastMarker xs with
    | some r => rw [h1] at h; cases h
    | none =>
      rw [h1] at h
      simp only at h
      rcases List.suffix_cons_iff.1 hp with rfl | hp'
      · exact ⟨by simp only [afterLastMarker, h1, h], h⟩
      · exact ih post h1 hp'

theorem afterLastMarker_some (xs r : List Char) (h : afterLastMarker xs = some r) :
    r.length < xs.length ∧ afterLastMarker r = none := by
  induction xs with
  | nil => cases h
  | cons x xs ih =>
    simp only [afterLastMarker] at h
    cases h1 : afterLastMarker xs with
    | some r' =>
      rw [h1] at h
      cases h
      exact ⟨Nat.lt_succ_of_lt (ih h1).1, (ih h1).2⟩
    | none =>
      rw [h1] at h
      simp only at h
      exact ⟨markerAt_length _ _ h,
        (afterLastMarker_none_suffix xs r h1 (markerAt_suffix x xs r h)).1⟩

theorem afterLastMarker_none_of_noOpen (xs : List Char) (h : noOpenMarker xs) :
    afterLastMarker xs = none := by
  induction xs with
  | nil => rfl
  | cons x xs ih =>
    have hxs : noOpenMarker xs :=
      ⟨fun hi => h.1 (hi.trans (List.suffix_cons x _).isInfix),
       fun hi => h.2 (hi.trans (List.suffix_cons x _).isInfix)⟩
    simp only [afterLastMarker, ih hxs]
    cases hm : markerAt (x :: xs) with
    | none => rfl
    | some r =>
      rcases markerAt_eq_some _ r hm with e | e
      · exact absurd ⟨[], r, by simpa using e.symm⟩ h.1
      · exact absurd ⟨[], r, by simpa using e.symm⟩ h.2

theorem stripPrefix_split (a b xs : List Char) :
    stripPrefix (a ++ b) xs =
      match stripPrefix a xs with
      | some rest => stripPrefix b rest
      | none => none := by
  induction a generalizing xs with
  | nil => rfl
  | cons c cs ih =>
    cases xs with
    | nil => rfl
    | cons x xs =>
      simp only [List.cons_append, stripPrefix]
      split
      · exact ih xs
      · rfl

theorem matchK_lits (s : List Char) (k : Cont) (p : Option Char) (xs : List Char) :
    matchK (Regex.lits s) k p xs =
      match stripPrefix s xs with
      | some rest => k (lastOf p s) rest
      | none => none := by
  induction s generalizing p xs with
  | nil => rfl
  | cons c cs ih =>
    cases xs with
    | nil => rfl
    | cons x xs =>
      simp only [Regex.lits, matchK, stripPrefix, lastOf]
      split
      · next hx => rw [ih, hx]
      · rfl

theorem matchK_seq (a b : Regex) (k : Cont) : matchK (.seq a b) k = matchK a (matchK b k) := rfl

theorem matchK_bol (k : Cont) (p : Option Char) (xs : List Char) :
    matchK .bol k p xs = if p = none ∨ p = some '\n' then k p xs else none := rfl

theorem matchK_star (a : Regex) (k : Cont) (p : Option Char) (xs : List Char) :
    matchK (.star a) k p xs = starLoop (matchK a) k xs.length p xs := rfl

theorem matchK_alt (a b : Regex) (k : Cont) (p : Option Char) (xs : List Char) :
    matchK (.alt a b) k p xs =
      match matchK a k p xs with
      | some r => some r
      | none => matchK b k p xs := rfl

theorem matchK_any_cons (k : Cont) (p : Option Char) (x : Char) (xs : List Char) :
    matchK .any k p (x :: xs) = k (some x) xs := rfl

theorem matchK_lit_cons (c : Char) (k : Cont) (p : Option Char) (x : Char) (xs : List Char) :
    matchK (.lit c) k p (x :: xs) = if x = c then k (some x) xs else none := rfl

theorem matchK_eol_cons (k : Cont) (p : Option Char) (x : Char) (xs : List Char) :
    matchK .eol k p (x :: xs) = if x = '\n' then k p (x :: xs) else none := rfl

theorem starLoop_any (k : Cont) (n : Nat) (p : Option Char) (xs : List Char)
    (h : xs.length ≤ n) : starLoop (matchK .any) k n p xs = lastK k p xs := by
  induction n generalizing p xs with
  | zero =>
    have : xs = [] := List.length_eq_zero.1 (Nat.le_zero.1 h)
    subst this
    rfl
  | succ n ih =>
    cases xs with
    | nil => rfl
    | cons x xs =>
      have hl : xs.length ≤ n := by simpa using h
      simp only [starLoop, lastK]
      rw [matchK_any_cons]
      simp only [List.length_cons, Nat.lt_succ_self, if_true]
      rw [ih (some x) xs hl]

theorem openK (p : Option Char) (xs : List Char) :
    matchK (.alt (Regex.lits openArrow)
        (.seq (Regex.lits [' ', '>', '>']) (.seq .eol (Regex.lits ['\n', '{']))))
      (fun p xs => some (p, xs)) p xs = (markerAt xs).map (fun r => (some '{', r)) := by
  have h2 : ∀ q rest, matchK .eol (matchK (Regex.lits ['\n', '{']) (fun p xs => some (p, xs)))
      q rest = (stripPrefix ['\n', '{'] rest).map (fun r => (some '{', r)) := by
    intro q rest
    cases rest with
    | nil => rfl
    | cons x t =>
      rw [matchK_eol_cons]
      by_cases hx : x = '\n'
      · rw [if_pos hx, matchK_lits]
        cases stripPrefix ['\n', '{'] (x :: t) <;> rfl
      · rw [if_neg hx]
        simp [stripPrefix, hx]
  rw [matchK_alt, matchK_seq, matchK_seq, matchK_lits, matchK_lits]
  unfold markerAt
  have h3 : stripPrefix openShell xs =
      match stripPrefix [' ', '>', '>'] xs with
      | some rest => stripPrefix ['\n', '{'] rest
      | none => none := stripPrefix_split [' ', '>', '>'] ['\n', '{'] xs
  cases h1 : stripPrefix openArrow xs with
  | some r => rfl
  | none =>
    simp only
    rw [h3]
    cases stripPrefix [' ', '>', '>'] xs with
    | none => rfl
    | some rest => simp only [h2]

theorem lastK_open (k : Cont) (h : ∀ p xs, k p xs = (markerAt xs).map (fun r => (some '{', r)))
    (p : Option Char) (xs : List Char) :
    lastK k p xs = (afterLastMarker xs).map (fun r => (some '{', r)) := by
  induction xs generalizing p with
  | nil => simp [lastK, h, afterLastMarker, markerAt, stripPrefix, openArrow, openShell]
  | cons x xs ih =>
    simp only [lastK, afterLastMarker, ih]
    cases afterLastMarker xs with
    | some r => rfl
    | none => simp only [Option.map_none', h]

theorem matchAt_head (p : Option Char) (xs : List Char) :
    matchAt jsonHeadCleanRegex p xs =
      if p = none ∨ p = some '\n' then (afterLastMarker xs).map (fun r => (some '{', r))
      else none := by
  unfold matchAt jsonHeadCleanRegex
  rw [matchK_seq, matchK_bol, matchK_seq]
  split
  · rw [matchK_star, starLoop_any _ _ _ _ (Nat.le_refl _)]
    exact lastK_open _ openK p xs
  · rfl

theorem lastK_fin (p : Option Char) (xs : List Char) :
    ∃ q, lastK (fun p xs => some (p, xs)) p xs = some (q, []) := by
  induction xs generalizing p with
  | nil => exact ⟨p, rfl⟩
  | cons x xs ih =>
    obtain ⟨q, hq⟩ := ih (some x)
    exact ⟨q, by simp only [lastK, hq]⟩

theorem matchAt_tail_close (p : Option Char) (xs : List Char) (hp : p = none ∨ p = some '\n') :
    ∃ q, matchAt jsonTailCleanRegex p ('}' :: xs) = some (q, []) := by
  obtain ⟨q, hq⟩ := lastK_fin (some '}') xs
  refine ⟨q, ?_⟩
  unfold matchAt jsonTailCleanRegex
  rw [matchK_seq, matchK_bol, if_pos hp, matchK_seq, matchK_lit_cons, if_pos rfl, matchK_star,
    starLoop_any _ _ _ _ (Nat.le_refl _)]
  exact hq

theorem matchAt_tail_none (p : Option Char) (xs : List Char)
    (h : ¬ ((p = none ∨ p = some '\n') ∧ xs.head? = some '}')) :
    matchAt jsonTailCleanRegex p xs = none := by
  unfold matchAt jsonTailCleanRegex
  rw [matchK_seq, matchK_bol, matchK_seq]
  split
  · next hp =>
    cases xs with
    | nil => rfl
    | cons x t =>
      have hx : x ≠ '}' := fun hx => h ⟨hp, by simp [hx]⟩
      rw [matchK_lit_cons, if_neg hx]
  · rfl

theorem replaceAll_none (m : Cont) (repl : List Char) (fuel : Nat) (flag : Bool)
    (p : Option Char) (xs : List Char) (h : ∀ post, post <:+ xs → ∀ q, m q post = none) :
    replaceAll m repl fuel flag p xs = xs := by
  induction fuel generalizing flag p xs with
  | zero => rfl
  | succ fuel ih =>
    simp only [replaceAll, h xs (List.suffix_refl _) p]
    cases xs with
    | nil => rfl
    | cons x t =>
      simp only
      rw [ih false (some x) t (fun post hp q => h post (hp.trans (List.suffix_cons x t)) q)]

theorem replaceAll_head (fuel : Nat) (xs : List Char) :
    replaceAll (matchAt jsonHeadCleanRegex) ['{'] (fuel + 1) false none xs = headClean xs := by
  have hnone : ∀ ys, afterLastMarker ys = none → ∀ n flag p,
      replaceAll (matchAt jsonHeadCleanRegex) ['{'] n flag p ys = ys := by
    intro ys hys n flag p
    apply replaceAll_none
    intro post hp q
    rw [matchAt_head, (afterLastMarker_none_suffix ys post hys hp).1]
    split <;> rfl
  unfold headClean
  cases h : afterLastMarker xs with
  | none => exact hnone xs h _ _ _
  | some r =>
    have hr := afterLastMarker_some xs r h
    simp only [replaceAll, matchAt_head, h, true_or, if_true, Option.map_some', hr.1]
    rw [hnone r hr.2]
    rfl

theorem replaceAll_tail (fuel : Nat) (flag : Bool) (p : Option Char) (xs : List Char)
    (h : xs.length < fuel) :
    replaceAll (matchAt jsonTailCleanRegex) ['}'] fuel flag p xs = tailCut p xs := by
  induction fuel generalizing flag p xs with
  | zero => omega
  | succ fuel ih =>
    cases xs with
    | nil =>
      simp only [replaceAll, tailCut]
      rw [matchAt_tail_none p [] (by simp)]
    | cons x t =>
      by_cases hc : (p = none ∨ p = some '\n') ∧ x = '}'
      · obtain ⟨hp, rfl⟩ := hc
        obtain ⟨q, hq⟩ := matchAt_tail_close p t hp
        have hend : ∀ n b, replaceAll (matchAt jsonTailCleanRegex) ['}'] n b q [] = [] := by
          intro n b
          cases n with
          | zero => rfl
          | succ n =>
            simp only [replaceAll]
            rw [matchAt_tail_none q [] (by simp)]
        simp only [replaceAll, hq, tailCut, hp, and_self, if_true, List.length_nil,
          List.length_cons, Nat.zero_lt_succ, hend]
        rfl
      · have hm : matchAt jsonTailCleanRegex p (x :: t) = none :=
          matchAt_tail_none p (x :: t) (by simpa using hc)
        simp only [replaceAll, hm, tailCut, if_neg hc]
        rw [ih false (some x) t (by simpa using h)]

theorem cleanChars_eq (xs : List Char) : cleanChars xs = tailCut none (headClean xs) := by
  unfold cleanChars Regex.ReplaceAll
  rw [replaceAll_head, replaceAll_tail _ _ _ _ (Nat.lt_succ_self _)]

theorem tailCut_id (c : Char) (xs : List Char) (h : noCloseLine c xs) :
    tailCut (some c) xs = xs := by
  induction xs generalizing c with
  | nil => rfl
  | cons x t ih =>
    have hc : ¬ ((some c = none ∨ some c = some '\n') ∧ x = '}') := by
      rintro ⟨h1 | h1, rfl⟩
      · cases h1
      · cases h1
        exact h ⟨[], t, rfl⟩
    have ht : noCloseLine x t := fun hi => h (hi.trans (List.suffix_cons c _).isInfix)
    simp only [tailCut, if_neg hc, ih x ht]

theorem tailCut_close (c : Char) (body rest : List Char) (h : noCloseLine c body) :
    tailCut (some c) (body ++ '\n' :: '}' :: rest) = body ++ ['\n', '}'] := by
  induction body generalizing c with
  | nil => simp [tailCut]
  | cons x t ih =>
    have hc : ¬ ((some c = none ∨ some c = some '\n') ∧ x = '}') := by
      rintro ⟨h1 | h1, rfl⟩
      · cases h1
      · cases h1
        exact h ⟨[], t, rfl⟩
    have ht : noCloseLine x t := fun hi => h (hi.trans (List.suffix_cons c _).isInfix)
    simp only [List.cons_append, tailCut, if_neg hc, List.append_eq, ih x ht]

theorem tailCut_line (c : Char) (j rest : List Char) (hc : c ≠ '\n') (hj : '\n' ∉ j) :
    tailCut (some c) (j ++ '\n' :: rest) = j ++ '\n' :: tailCut (some '\n') rest := by
  induction j generalizing c with
  | nil => simp [tailCut]
  | cons x t ih =>
    have hx : x ≠ '\n' := fun e => hj (e ▸ List.mem_cons_self _ _)
    have ht : '\n' ∉ t := fun e => hj (List.mem_cons_of_mem _ e)
    simp only [List.cons_append, tailCut, hc, Option.some.injEq, reduceCtorEq, or_self,
      false_and, if_false, List.append_eq, ih x hx ht]

theorem markerAt_before_close (l rest : List Char) (h : markerAt l = none) :
    markerAt (l ++ '\n' :: '}' :: rest) = none := by
  rcases l with _ | ⟨a, _ | ⟨b, _ | ⟨c, _ | ⟨d, _ | ⟨e, l⟩⟩⟩⟩⟩ <;>
    simp only [markerAt, stripPrefix, openArrow, openShell, List.nil_append, List.cons_append]
      at h ⊢ <;>
    split_ifs at h ⊢ <;> simp_all

theorem afterLastMarker_cons (x : Char) (xs : List Char) :
    afterLastMarker (x :: xs) =
      match afterLastMarker xs with
      | some r => some r
      | none => markerAt (x :: xs) := rfl

theorem afterLastMarker_envelope (body trailer : List Char) (hb : afterLastMarker body = none)
    (ht : afterLastMarker trailer = none) :
    afterLastMarker (body ++ '\n' :: '}' :: trailer) = none := by
  induction body with
  | nil =>
    have h1 : markerAt ('}' :: trailer) = none := by
      simp [markerAt, stripPrefix, openArrow, openShell]
    have h2 : markerAt ('\n' :: '}' :: trailer) = none := by
      simp [markerAt, stripPrefix, openArrow, openShell]
    simp only [List.nil_append, afterLastMarker_cons, ht, h1, h2]
  | cons b bs ih =>
    have hbs := afterLastMarker_none_suffix (b :: bs) bs hb (List.suffix_cons b bs)
    have hm := (afterLastMarker_none_suffix (b :: bs) (b :: bs) hb (List.suffix_refl _)).2
    have := markerAt_before_close (b :: bs) trailer hm
    simp only [List.cons_append] at this
    simp only [List.cons_append, afterLastMarker_cons, ih hbs.1, this]

theorem afterLastMarker_open (banner rest : List Char) (h : afterLastMarker rest = none) :
    afterLastMarker (banner ++ openArrow ++ rest) = some rest := by
  induction banner with
  | nil =>
    have h1 : markerAt ('{' :: rest) = none := by
      simp [markerAt, stripPrefix, openArrow, openShell]
    have h2 : markerAt (' ' :: '{' :: rest) = none := by
      simp [markerAt, stripPrefix, openArrow, openShell]
    have h3 : markerAt ('>' :: ' ' :: '{' :: rest) = none := by
      simp [markerAt, stripPrefix, openArrow, openShell]
    have h4 : markerAt ('=' :: '>' :: ' ' :: '{' :: rest) = some rest := by
      simp [markerAt, stripPrefix, openArrow, openShell]
    simp only [openArrow, List.nil_append, List.cons_append, afterLastMarker_cons, h, h1, h2,
      h3, h4]
  | cons b bs ih =>
    simp only [List.cons_append, List.append_assoc] at ih ⊢
    simp only [afterLastMarker_cons, ih]

theorem cleanChars_open (banner rest : List Char) (h : afterLastMarker rest = none) :
    cleanChars (banner ++ openArrow ++ rest) = '{' :: tailCut (some '{') rest := by
  rw [cleanChars_eq]
  unfold headClean
  rw [afterLastMarker_open banner rest h]
  simp [tailCut]

theorem clean_envelope_chars (banner body trailer : List Char) (hb : noOpenMarker body)
    (ht : noOpenMarker trailer) (hl : noCloseLine '{' body) :
    cleanChars (banner ++ openArrow ++ (body ++ '\n' :: '}' :: trailer)) =
      '{' :: (body ++ ['\n', '}']) := by
  rw [cleanChars_open banner _ (afterLastMarker_envelope body trailer
    (afterLastMarker_none_of_noOpen body hb) (afterLastMarker_none_of_noOpen trailer ht)),
    tailCut_close '{' body trailer hl]

theorem clean_single_line_chars (banner j trailing : List Char)
    (hopen : noOpenMarker (j ++ '\n' :: trailing)) (hj : '\n' ∉ j)
    (hl : noCloseLine '\n' trailing) :
    cleanChars (banner ++ openArrow ++ (j ++ '\n' :: trailing)) =
      '{' :: (j ++ '\n' :: trailing) := by
  rw [cleanChars_open banner _ (afterLastMarker_none_of_noOpen _ hopen),
    tailCut_line '{' j trailing (by decide) hj, tailCut_id '\n' trailing hl]

/-- C15 (counterexample): the output `host | SUCCESS => {"changed": false}`
followed by a line end is cleaned to the object followed by the line end, and
with the trailing line `done` behind it the trailing line is kept as well:
neither result is the object alone. -/
theorem clean_single_line_keeps_trailing_text :
    cleanAnsibleOutput ("host | SUCCESS" ++ " => " ++ "\x7b\x22changed\x22: false\x7d" ++ "\n" ++ "")
      = "\x7b\x22changed\x22: false\x7d\n" ∧
    cleanAnsibleOutput
        ("host | SUCCESS" ++ " => " ++ "\x7b\x22changed\x22: false\x7d" ++ "\n" ++ "done\n")
      = "\x7b\x22changed\x22: false\x7d\ndone\n" ∧
    "\x7b\x22changed\x22: false\x7d\n" ≠ "\x7b\x22changed\x22: false\x7d" ∧
    "\x7b\x22changed\x22: false\x7d\ndone\n" ≠ "\x7b\x22changed\x22: false\x7d" := by
  refine ⟨by rfl, by rfl, by decide, by decide⟩

/-- C15 (amended): for the output `banner ++ " => " ++ J ++ "\n" ++ trailing`,
where `J` is an opening brace followed by `j`, `j` holds no line end, the text
behind the opening brace holds no open marker and no line of `trailing` begins
with a closing brace, the cleaner returns `J ++ "\n" ++ trailing`: the banner
is removed, the line end and the trailing text are kept. -/
theorem clean_single_line_removes_banner_only (banner j trailing : String)
    (hopen : noOpenMarker (j ++ "\n" ++ trailing).toList) (hj : '\n' ∉ j.toList)
    (hl : noCloseLine '\n' trailing.toList) :
    cleanAnsibleOutput (banner ++ " => " ++ ("\x7b" ++ j) ++ "\n" ++ trailing) =
      ("\x7b" ++ j) ++ "\n" ++ trailing := by
  have e : (banner ++ " => " ++ ("\x7b" ++ j) ++ "\n" ++ trailing).toList =
      (banner.toList ++ [' ']) ++ openArrow ++ (j.toList ++ '\n' :: trailing.toList) := by
    simp [String.toList, String.data_append, openArrow]
  have hopen' : noOpenMarker (j.toList ++ '\n' :: trailing.toList) := by
    simpa [String.toList, String.data_append] using hopen
  unfold cleanAnsibleOutput
  rw [e, clean_single_line_chars _ _ _ hopen' hj hl]
  apply String.ext
  simp [String.toList, String.data_append]

/-- Witness for C15 (amended): the banner `host | SUCCESS`, the object
`{"changed": false}` and the trailing line `done`. -/
theorem clean_single_line_removes_banner_only_witness :
    noOpenMarker ("\x22changed\x22: false\x7d" ++ "\n" ++ "done\n").toList ∧
    '\n' ∉ "\x22changed\x22: false\x7d".toList ∧
    noCloseLine '\n' "done\n".toList ∧
    cleanAnsibleOutput ("host | SUCCESS" ++ " => " ++ ("\x7b" ++ "\x22changed\x22: false\x7d") ++
        "\n" ++ "done\n") =
      ("\x7b" ++ "\x22changed\x22: false\x7d") ++ "\n" ++ "done\n" :=
  ⟨by unfold noOpenMarker; decide, by decide, by unfold noCloseLine; decide,
   clean_single_line_removes_banner_only "host | SUCCESS" "\x22changed\x22: false\x7d" "done\n"
     (by unfold noOpenMarker; decide) (by decide) (by unfold noCloseLine; decide)⟩

/-- C16: for the text `banner ++ "=> {" ++ body ++ "\n}" ++ trailer`, where
neither open marker occurs in `body` or in `trailer` and no line of `body`
begins with a closing brace, the cleaner returns `"{" ++ body ++ "\n}"`,
whatever the banner and the trailer are. -/
theorem clean_strips_envelope (banner body trailer : String)
    (hb : noOpenMarker body.toList) (ht : noOpenMarker trailer.toList)
    (hl : noCloseLine '{' body.toList) :
    cleanAnsibleOutput (banner ++ "=> \x7b" ++ body ++ "\n\x7d" ++ trailer) =
      "\x7b" ++ body ++ "\n\x7d" := by
  have e : (banner ++ "=> \x7b" ++ body ++ "\n\x7d" ++ trailer).toList =
      banner.toList ++ openArrow ++ (body.toList ++ '\n' :: '}' :: trailer.toList) := by
    simp [String.toList, String.data_append, openArrow]
  unfold cleanAnsibleOutput
  rw [e, clean_envelope_chars _ _ _ hb ht hl]
  apply String.ext
  simp [String.toList, String.data_append]

/-- Witness for C16: the fact envelope of `TestGetHostsForTest`, followed by a
trailer. -/
theorem clean_strips_envelope_witness :
    noOpenMarker factsBody.toList ∧ noOpenMarker "\nPLAY RECAP\n".toList ∧
    noCloseLine '{' factsBody.toList ∧
    cleanAnsibleOutput ("192.0.2.5 | SUCCESS " ++ "=> \x7b" ++ factsBody ++ "\n\x7d" ++
        "\nPLAY RECAP\n") =
      "\x7b" ++ factsBody ++ "\n\x7d" :=
  ⟨by unfold noOpenMarker; decide, by unfold noOpenMarker; decide,
   by unfold noCloseLine; decide,
   clean_strips_envelope "192.0.2.5 | SUCCESS " factsBody "\nPLAY RECAP\n"
     (by unfold noOpenMarker; decide) (by unfold noOpenMarker; decide)
     (by unfold noCloseLine; decide)⟩

/-! ### The GoChart output and the command executor -/

/-- C24 (code bug): the guard of line 42 is inverted.  With an empty
`NamePattern` the output keeps the empty pattern, and with the pattern
`run-{{ .UnixTime }}.png` it overwrites the pattern of the user with the
default; in general the pattern of the output is empty when the configured one
is empty and the default otherwise. -/
theorem gochart_pattern_guard_inverted :
    NewGoChartOutput
        { Name := "gochart"
          GoChart := some { Types := [], FilePath := "/tmp", NamePattern := "" } } =
      some ({ config := { Types := [], FilePath := "/tmp", NamePattern := "" } }, none) ∧
    NewGoChartOutput
        { Name := "gochart"
          GoChart := some { Types := [], FilePath := "/tmp"
                            NamePattern := "run-\x7b\x7b .UnixTime \x7d\x7d.png" } } =
      some ({ config := { Types := [], FilePath := "/tmp"
                          NamePattern := goChartDefaultPattern } }, none) ∧
    (∀ (name : String) (config : ConfigGoChart),
      NewGoChartOutput { Name := name, GoChart := some config } =
        some ({ config := { config with
          NamePattern := if config.NamePattern = "" then "" else goChartDefaultPattern } },
          none)) := by
  refine ⟨by decide, by decide, ?_⟩
  intro name config
  by_cases h : config.NamePattern = ""
  · simp [NewGoChartOutput, h]
    cases config
    simp_all
  · simp [NewGoChartOutput, h]

/-- C25: `GoChart.Do` returns the error `gochart not implemented yet` for
every output and every `Data`, whatever the payload is, and does no work
before it: no name pattern is rendered, no chart is rendered, nothing is
written. -/
theorem gochart_do_not_implemented (ip : GoChart) (data : OutputData) :
    (ip.Do data).2 = some "gochart not implemented yet" ∧ (ip.Do data).1 = [] ∧
    (∀ pattern, OutputWork.renderName pattern ∉ (ip.Do data).1) ∧
    (∀ filename, OutputWork.write filename ∉ (ip.Do data).1) := by
  refine ⟨rfl, rfl, ?_, ?_⟩ <;> intro x hx <;> cases hx

/-- C27 (code bug): `SetEnv` leaves the executor of the caller as it was, and
the commands are run with the environment of the process.  After
`SetEnv(["A=1"])` on an executor without environment the field `env` is still
empty and `ExecuteCommand` and `ExecuteCommandWithOutputByte` start their
command with `PATH=/bin`, the environment of the process; in general the
environment of the command is `os.Environ()` whatever was set. -/
theorem setenv_has_no_effect :
    (CommandExecutor.SetEnv { env := [] } ["A=1"]).env = [] ∧
    ((CommandExecutor.SetEnv { env := [] } ["A=1"]).ExecuteCommand ["PATH=/bin"]
      (fun _ => none) "ansible" ["--version"]).1.Env = ["PATH=/bin"] ∧
    ((CommandExecutor.SetEnv { env := [] } ["A=1"]).ExecuteCommandWithOutputByte ["PATH=/bin"]
      (fun _ => ("", none)) "ansible" ["--version"]).1.Env = ["PATH=/bin"] ∧
    (∀ (ce : CommandExecutor) (e environ : List String) (command : String) (arg : List String)
      (run : Cmd → Option Err) (runOut : Cmd → Bytes × Option Err),
      (ce.SetEnv e).env = ce.env ∧
      ((ce.SetEnv e).ExecuteCommand environ run command arg).1.Env = environ ∧
      ((ce.SetEnv e).ExecuteCommandWithOutputByte environ runOut command arg).1.Env =
        environ) := by
  refine ⟨rfl, rfl, rfl, ?_⟩
  intro ce e environ command arg run runOut
  exact ⟨rfl, rfl, rfl⟩

theorem templateArgs_failed (render : Renderer) (vars : Variables) :
    ∀ (args acc : List String) (e : Err), templateArgs render vars args acc = .error e →
      ∃ arg ∈ args, ∃ e', render arg vars = .error e'
  | [], _, _, h => by simp [templateArgs] at h
  | x :: rest, acc, e, h => by
    simp only [templateArgs] at h
    cases hx : render x vars with
    | error e' => exact ⟨x, List.mem_cons_self _ _, e', hx⟩
    | ok v =>
      rw [hx] at h
      obtain ⟨arg, harg, he⟩ := templateArgs_failed render vars rest _ e h
      exact ⟨arg, List.mem_cons_of_mem _ harg, he⟩

/-! ### `Template` on an error -/

/-- C29 (counterexample): `Template` on a task whose command is `{{ .Nope }}`
returns an error and leaves the command empty; on a task whose command is
`iperf3-{{ .ServerPort }}` and whose second arg is `{{ .Nope }}` it returns an
error and leaves the rendered command `iperf3-5601`.  In both cases the
command is not what it was before the call. -/
theorem template_error_changes_command :
    (∃ e, (Template (templateString (fun _ _ => .ok "")) taskNopeCommand
      ⟨"192.0.2.1", "", 5601⟩).2 = some e) ∧
    (Template (templateString (fun _ _ => .ok "")) taskNopeCommand
      ⟨"192.0.2.1", "", 5601⟩).1.Command = "" ∧
    taskNopeCommand.Command = "\x7b\x7b .Nope \x7d\x7d" ∧
    (∃ e, (Template (templateString (fun _ _ => .ok "")) taskPortNope
      ⟨"192.0.2.1", "", 5601⟩).2 = some e) ∧
    (Template (templateString (fun _ _ => .ok "")) taskPortNope
      ⟨"192.0.2.1", "", 5601⟩).1.Command = "iperf3-5601" ∧
    taskPortNope.Command = "iperf3-\x7b\x7b .ServerPort \x7d\x7d" := by
  refine ⟨⟨_, rfl⟩, rfl, rfl, ⟨_, rfl⟩, rfl, rfl⟩

/-- C29 (amended): when `Template` returns an error, the args of the task and
every field other than the command are what they were before the call; the
command is the empty string when the command itself failed to render, and the
rendered command when an arg failed. -/
theorem template_error_keeps_args (render : Renderer) (task : Task) (vars : Variables)
    (e : Err) (h : (Template render task vars).2 = some e) :
    (Template render task vars).1.Args = task.Args ∧
    (Template render task vars).1.Host = task.Host ∧
    (Template render task vars).1.Ports = task.Ports ∧
    (Template render task vars).1.SubTasks = task.SubTasks ∧
    (Template render task vars).1.Sleep = task.Sleep ∧
    (Template render task vars).1.Status = task.Status ∧
    ((render task.Command vars = .error e ∧ (Template render task vars).1.Command = "") ∨
     (∃ c, render task.Command vars = .ok c ∧ (Template render task vars).1.Command = c ∧
        ∃ arg ∈ task.Args, ∃ e', render arg vars = .error e')) := by
  cases task with
  | mk host c args p subs d st =>
    cases hc : render c vars with
    | error e' =>
      have ht : Template render (Task.mk host c args p subs d st) vars =
          (Task.mk host "" args p subs d st, some e') := by
        simp only [Template, hc]
      rw [ht] at h ⊢
      cases h
      exact ⟨rfl, rfl, rfl, rfl, rfl, rfl, Or.inl ⟨hc, rfl⟩⟩
    | ok c' =>
      cases ha : templateArgs render vars args [] with
      | ok args' =>
        have ht : Template render (Task.mk host c args p subs d st) vars =
            (Task.mk host c' args' p subs d st, none) := by
          simp only [Template, hc, ha]
        rw [ht] at h
        cases h
      | error e' =>
        have ht : Template render (Task.mk host c args p subs d st) vars =
            (Task.mk host c' args p subs d st, some e') := by
          simp only [Template, hc, ha]
        rw [ht]
        exact ⟨rfl, rfl, rfl, rfl, rfl, rfl,
          Or.inr ⟨c', hc, rfl, templateArgs_failed render vars args [] e' ha⟩⟩

/-- Witness for C29 (amended): the arg `--port={{ .Nope }}` of `taskNope`
fails, the command `iperf3` and the args stay. -/
theorem template_error_keeps_args_witness :
    (Template (templateString (fun _ _ => .ok "")) taskNope ⟨"192.0.2.1", "", 5601⟩).2 =
      some "template: main: can\x27t evaluate field Nope in type cmdtemplate.Variables" ∧
    (Template (templateString (fun _ _ => .ok "")) taskNope ⟨"192.0.2.1", "", 5601⟩).1.Args =
      taskNope.Args :=
  ⟨rfl, (template_error_keeps_args (templateString (fun _ _ => .ok "")) taskNope
    ⟨"192.0.2.1", "", 5601⟩ _ rfl).1⟩

/-! ### The cleaner applied twice -/

theorem noOpen_of_afterLastMarker_none (xs : List Char) (h : afterLastMarker xs = none) :
    noOpenMarker xs := by
  constructor
  · rintro ⟨pre, post, e⟩
    have hs : openArrow ++ post <:+ xs := ⟨pre, by rw [← e]; simp⟩
    have := (afterLastMarker_none_suffix xs _ h hs).2
    simp [markerAt, stripPrefix, openArrow] at this
  · rintro ⟨pre, post, e⟩
    have hs : openShell ++ post <:+ xs := ⟨pre, by rw [← e]; simp⟩
    have := (afterLastMarker_none_suffix xs _ h hs).2
    simp [markerAt, stripPrefix, openArrow, openShell] at this

theorem tailCut_initial (p : Option Char) (xs : List Char) : tailCut p xs <+: xs := by
  induction xs generalizing p with
  | nil => exact List.prefix_refl _
  | cons x t ih =>
    simp only [tailCut]
    split
    · next h => exact ⟨t, by simp [h.2]⟩
    · exact (List.cons_prefix_cons).2 ⟨rfl, ih (some x)⟩

theorem tailCut_twice (p : Option Char) (xs : List Char) :
    tailCut p (tailCut p xs) = tailCut p xs := by
  induction xs generalizing p with
  | nil => rfl
  | cons x t ih =>
    by_cases h : (p = none ∨ p = some '\n') ∧ x = '}'
    · have e : tailCut p (x :: t) = ['}'] := by simp only [tailCut, if_pos h]
      rw [e]
      simp only [tailCut, h.1, and_self, if_true]
    · have e : tailCut p (x :: t) = x :: tailCut (some x) t := by simp only [tailCut, if_neg h]
      rw [e]
      simp only [tailCut, if_neg h, ih (some x)]

theorem noOpenMarker_initial (l₁ l₂ : List Char) (hp : l₁ <+: l₂) (h : noOpenMarker l₂) :
    noOpenMarker l₁ :=
  ⟨fun hi => h.1 (hi.trans hp.isInfix), fun hi => h.2 (hi.trans hp.isInfix)⟩

theorem headClean_noOpen (xs : List Char) : noOpenMarker (headClean xs) := by
  unfold headClean
  cases h : afterLastMarker xs with
  | none => exact noOpen_of_afterLastMarker_none xs h
  | some r =>
    apply noOpen_of_afterLastMarker_none
    have hr := (afterLastMarker_some xs r h).2
    have hm : markerAt ('{' :: r) = none := by
      simp [markerAt, stripPrefix, openArrow, openShell]
    simp only [afterLastMarker_cons, hr, hm]

theorem headClean_of_noOpen (xs : List Char) (h : noOpenMarker xs) : headClean xs = xs := by
  unfold headClean
  rw [afterLastMarker_none_of_noOpen xs h]

theorem cleanChars_twice (xs : List Char) : cleanChars (cleanChars xs) = cleanChars xs := by
  rw [cleanChars_eq xs, cleanChars_eq (tailCut none (headClean xs)),
    headClean_of_noOpen _ (noOpenMarker_initial _ _ (tailCut_initial none _) (headClean_noOpen xs)),
    tailCut_twice]

theorem tailCut_start_id (xs : List Char) (h : noCloseLine '\n' xs) : tailCut none xs = xs := by
  cases xs with
  | nil => rfl
  | cons x t =>
    have hc : ¬ (((none : Option Char) = none ∨ (none : Option Char) = some '\n') ∧ x = '}') := by
      rintro ⟨_, rfl⟩
      exact h ⟨[], t, rfl⟩
    have ht : noCloseLine x t := fun hi => h (hi.trans (List.suffix_cons '\n' _).isInfix)
    have hx : x ≠ '}' := fun e => hc ⟨Or.inl rfl, e⟩
    simp [tailCut, hx, tailCut_id x t ht]

/-- C30: the cleaner applied to its own result returns that result, for every
text; and a text in which neither open marker occurs and no line begins with a
closing brace is returned as it is. -/
theorem clean_idempotent :
    (∀ x : Bytes, cleanAnsibleOutput (cleanAnsibleOutput x) = cleanAnsibleOutput x) ∧
    (∀ x : Bytes, noOpenMarker x.toList → noCloseLine '\n' x.toList →
      cleanAnsibleOutput x = x) := by
  constructor
  · intro x
    unfold cleanAnsibleOutput
    exact congrArg String.mk (cleanChars_twice x.toList)
  · intro x ho hc
    unfold cleanAnsibleOutput
    rw [cleanChars_eq, headClean_of_noOpen _ ho, tailCut_start_id _ hc]
    rfl

/-! ### Errors recorded by the Kubernetes runner -/

/-- C21 (code bug): when the server pod is not running after the running
timeout, `createPodsForTasks` calls `AddFailedServer` with a nil error, and
when a client pod is not running it calls `AddFailedClient` with a nil error:
the Status of the server task then holds a failure whose error is nil.  This
holds for every cluster in which `WaitForPodToRun` answers "not running"
without an error after the server pod was created. -/
theorem kubernetes_not_running_records_nil_error :
    (∃ r, kubeX.createPodsForTasks clusterServerNotRunning 0 0 taskAB planTwoRounds = some r ∧
      r.events =
        [Event.k8sCall "PodRecreate" "ancientt-server-a-0" none,
         Event.k8sCall "WaitForPodToRun" "ancientt-server-a-0" none,
         Event.addFailedServer "a" none] ∧
      r.status.Errors = [("a", [none])]) ∧
    (∃ r, kubeX.createPodsForTasks clusterClientNotRunning 0 0 taskAB planTwoRounds = some r ∧
      Event.addFailedClient "b" none ∈ r.events ∧
      r.status.Errors = [("b", [none])]) ∧
    (∀ (k : Kubernetes) (w : KubernetesWorld) (round idx : Nat) (mainTask : Task) (plan : Plan)
      (host : Host) (status : Status),
      mainTask.Host = some host → mainTask.Status = some status →
      (Template w.render mainTask ⟨"", "", 5601⟩).2 = none →
      w.recreateServer round idx = none → w.waitServer round idx = (false, none) →
      ∃ r, k.createPodsForTasks w round idx mainTask plan = some r ∧
        r.events.getLast? = some (Event.addFailedServer host.Name none)) := by
  refine ⟨⟨_, rfl, rfl, rfl⟩, ⟨_, rfl, by decide, rfl⟩, ?_⟩
  intro k w round idx mainTask plan host status hH hS hT hR hW
  unfold Kubernetes.createPodsForTasks
  rw [hH, hS]
  simp only
  cases hTT : Template w.render mainTask ⟨"", "", 5601⟩ with
  | mk t e =>
    rw [hTT] at hT
    simp only at hT
    subst hT
    simp only [hR, hW]
    exact ⟨_, rfl, rfl⟩

/-! ### The hosts returned by the discovery -/

theorem get?_eq_none_of_has {V : Type} (m : GoMap V) (k : String) (h : m.has k = false) :
    m.get? k = none := by
  unfold GoMap.get?
  rw [find_key_eq_none m k h]
  rfl

theorem get?_isSome_of_has {V : Type} (m : GoMap V) (k : String) (h : m.has k = true) :
    ∃ v, m.get? k = some v := by
  obtain ⟨e, he⟩ := find_key_isSome m k h
  exact ⟨e.2, by unfold GoMap.get?; rw [he]; rfl⟩

theorem has_of_get? {V : Type} (m : GoMap V) (k : String) (v : V) (h : m.get? k = some v) :
    m.has k = true := by
  cases hk : m.has k with
  | true => rfl
  | false => rw [get?_eq_none_of_has m k hk] at h; cases h

theorem get?_map_set {V : Type} (m : GoMap V) (k h : String) (v : V) (hk : m.has k = true) :
    GoMap.get? (m.map (fun e => if e.1 == k then (k, v) else e)) h =
      if h = k then some v else m.get? h := by
  unfold GoMap.get?
  have hf : ((fun e : String × V => e.1 == h) ∘ fun e => if e.1 == k then (k, v) else e) =
      fun e => e.1 == h := by
    funext e
    by_cases ek : e.1 = k
    · simp [ek]
    · simp [ek]
  rw [List.find?_map, hf]
  by_cases e : h = k
  · subst e
    obtain ⟨x, hx⟩ := find_key_isSome m h hk
    have hxk : x.1 = h := by simpa using List.find?_some hx
    simp [hx, hxk]
  · cases hx : m.find? (fun e => e.1 == h) with
    | none => simp [e]
    | some x =>
      have hxk : x.1 = h := by simpa using List.find?_some hx
      have hne : ¬ x.1 = k := fun z => e (hxk.symm.trans z)
      simp [e, hne]

theorem get?_append_singleton {V : Type} (m : GoMap V) (k h : String) (v : V)
    (hk : m.has k = false) :
    GoMap.get? (m ++ [(k, v)]) h = if h = k then some v else m.get? h := by
  unfold GoMap.get?
  rw [List.find?_append]
  by_cases e : h = k
  · subst e
    rw [find_key_eq_none m h hk]
    simp
  · have e' : ¬ k = h := fun z => e z.symm
    cases m.find? (fun e => e.1 == h) <;> simp [e, e']

theorem get?_set {V : Type} (m : GoMap V) (k h : String) (v : V) :
    (m.set k v).get? h = if h = k then some v else m.get? h := by
  unfold GoMap.set
  by_cases hk : m.has k = true
  · rw [if_pos hk]
    exact get?_map_set m k h v hk
  · rw [if_neg hk]
    exact get?_append_singleton m k h v (by simpa using hk)

/-- The loop of `getHosts` from an accumulator on, for names that are all
keys of the list. -/
theorem getHosts_loop_ok (list : GoMap Host) :
    ∀ (names : List String) (acc : GoMap Host), (∀ n ∈ names, list.has n = true) →
      ∃ m, names.foldlM
          (fun hosts h =>
            match list.get? h with
            | some v => Except.ok (hosts.set h v)
            | none => Except.error ("server \"" ++ h ++
                "\" not found in ansible hosts list, this should not have happened"))
          acc = Except.ok m ∧
        ∀ n, m.get? n = if n ∈ names then list.get? n else acc.get? n
  | [], acc, _ => ⟨acc, rfl, fun n => by simp⟩
  | h :: t, acc, hall => by
    obtain ⟨v, hv⟩ := get?_isSome_of_has list h (hall h (List.mem_cons_self _ _))
    obtain ⟨m, hm, hget⟩ := getHosts_loop_ok list t (acc.set h v)
      (fun n hn => hall n (List.mem_cons_of_mem _ hn))
    refine ⟨m, ?_, ?_⟩
    · simp only [List.foldlM_cons, hv]
      exact hm
    · intro n
      rw [hget n, get?_set]
      by_cases hn : n ∈ t
      · simp [hn]
      · by_cases e : n = h
        · subst e; simp [hn, hv]
        · simp [hn, e]

theorem getHosts_loop_error (list : GoMap Host) :
    ∀ (names : List String) (acc : GoMap Host), (∃ n ∈ names, list.has n = false) →
      ∃ e, names.foldlM
          (fun hosts h =>
            match list.get? h with
            | some v => Except.ok (hosts.set h v)
            | none => Except.error ("server \"" ++ h ++
                "\" not found in ansible hosts list, this should not have happened"))
          acc = Except.error e
  | [], _, h => by simp at h
  | h :: t, acc, hex => by
    cases hh : list.has h with
    | false =>
      refine ⟨"server \"" ++ h ++
        "\" not found in ansible hosts list, this should not have happened", ?_⟩
      simp only [List.foldlM_cons, get?_eq_none_of_has list h hh]
      rfl
    | true =>
      obtain ⟨v, hv⟩ := get?_isSome_of_has list h hh
      obtain ⟨n, hn, hno⟩ := hex
      have hnt : n ∈ t := by
        rcases List.mem_cons.1 hn with rfl | hn
        · rw [hh] at hno; cases hno
        · exact hn
      obtain ⟨e, he⟩ := getHosts_loop_error list t (acc.set h v) ⟨n, hnt, hno⟩
      refine ⟨e, ?_⟩
      simp only [List.foldlM_cons, hv]
      exact he

theorem getHosts_ok (names : List String) (list : GoMap Host)
    (h : ∀ n ∈ names, list.has n = true) :
    ∃ m, getHosts names list = .ok m ∧
      (∀ n, m.has n = true ↔ n ∈ names) ∧ ∀ n ∈ names, m.get? n = list.get? n := by
  obtain ⟨m, hm, hget⟩ := getHosts_loop_ok list names [] h
  refine ⟨m, hm, ?_, ?_⟩
  · intro n
    constructor
    · intro hn
      obtain ⟨v, hv⟩ := get?_isSome_of_has m n hn
      by_contra hc
      rw [hget n, if_neg hc] at hv
      cases hv
    · intro hn
      obtain ⟨v, hv⟩ := get?_isSome_of_has list n (h n hn)
      exact has_of_get? m n v (by rw [hget n, if_pos hn, hv])
  · intro n hn
    rw [hget n, if_pos hn]

theorem getHosts_error_iff (names : List String) (list : GoMap Host) :
    (∃ e, getHosts names list = .error e) ↔ ∃ n ∈ names, list.has n = false := by
  constructor
  · rintro ⟨e, he⟩
    by_contra hc
    have hall : ∀ n ∈ names, list.has n = true := by
      intro n hn
      cases hh : list.has n with
      | true => rfl
      | false => exact absurd ⟨n, hn, hh⟩ hc
    obtain ⟨m, hm, _⟩ := getHosts_ok names list hall
    rw [hm] at he
    cases he
  · intro h
    exact getHosts_loop_error list names [] h

theorem mem_of_mem_set {α : Type} (l : List α) (k : Nat) (x z : α) (h : x ∈ l.set k z) :
    x = z ∨ x ∈ l := by
  induction l generalizing k with
  | nil => simp at h
  | cons a l ih =>
    cases k with
    | zero =>
      simp only [List.set_cons_zero, List.mem_cons] at h
      rcases h with h | h
      · exact Or.inl h
      · exact Or.inr (List.mem_cons_of_mem _ h)
    | succ k =>
      simp only [List.set_cons_succ, List.mem_cons] at h
      rcases h with h | h
      · exact Or.inr (h ▸ List.mem_cons_self _ _)
      · rcases ih k h with h' | h'
        · exact Or.inl h'
        · exact Or.inr (List.mem_cons_of_mem _ h')

theorem Discovery.collected_start (facts : String → Except Err IPAddresses) (n : Nat)
    (uniq : List String) : (Discovery.start n uniq).collected facts uniq := by
  refine ⟨rfl, fun h hh => hh, ?_, fun h hh => Or.inl hh⟩
  intro h hh
  simp only [Discovery.start] at hh
  have := List.eq_of_mem_replicate hh
  cases this

theorem Discovery.collected_step (facts : String → Except Err IPAddresses) (uniq : List String)
    (hok : ∀ h ∈ uniq, ∃ a, facts h = .ok a)
    (d d' : Discovery) (m : Move) (hd : d.collected facts uniq)
    (h : d.step facts m = some d') : d'.collected facts uniq := by
  obtain ⟨h1, h2, h3, h4⟩ := hd
  cases m with
  | handOver k =>
    simp only [Discovery.step] at h
    split at h
    · next host rest hts hw =>
      split at h
      · exact absurd h (by simp)
      · next hin =>
        simp only [Option.some.injEq] at h
        subst h
        refine ⟨h1, ?_, ?_, ?_⟩
        · intro x hx
          exact h2 x (by rw [hts]; exact List.mem_cons_of_mem _ hx)
        · intro x hx
          rcases mem_of_mem_set _ k _ _ hx with e | e
          · simp only [Worker.got.injEq] at e
            subst e
            exact h2 x (by rw [hts]; exact List.mem_cons_self _ _)
          · exact h3 x e
        · intro x hx
          rcases h4 x hx with h' | h' | h'
          · rw [hts] at h'
            rcases List.mem_cons.1 h' with h'' | h''
            · subst h''
              exact Or.inr (Or.inl (mem_set_self _ k _ _ hw))
            · exact Or.inl h''
          · exact Or.inr (Or.inl (mem_set_of_ne _ k _ _ _ h' hw (by simp)))
          · exact Or.inr (Or.inr h')
    · exact absurd h (by simp)
  | report k =>
    simp only [Discovery.step] at h
    split at h
    · next host hw =>
      have hmem : Worker.got host ∈ d.workers := List.getElem?_mem hw
      have hu : host ∈ uniq := h3 host hmem
      split at h
      · exact absurd h (by simp)
      · next hret =>
        split at h
        · next err hf =>
          obtain ⟨a, ha⟩ := hok host hu
          rw [ha] at hf
          cases hf
        · next addresses hf =>
          simp only [Option.some.injEq] at h
          subst h
          refine ⟨h1, h2, ?_, ?_⟩
          · intro x hx
            rcases mem_of_mem_set _ k _ _ hx with e | e
            · cases e
            · exact h3 x e
          · intro x hx
            by_cases hxh : x = host
            · subst hxh
              exact Or.inr (Or.inr ⟨addresses, hf, by simp only [get?_set, if_true]⟩)
            · rcases h4 x hx with h' | h' | h'
              · exact Or.inl h'
              · refine Or.inr (Or.inl (mem_set_of_ne _ k _ _ _ h' hw ?_))
                intro e
                simp only [Worker.got.injEq] at e
                exact hxh e
              · obtain ⟨a, ha, hg⟩ := h'
                exact Or.inr (Or.inr ⟨a, ha, by simp only [get?_set, if_neg hxh, hg]⟩)
    · exact absurd h (by simp)
  | closeIn =>
    simp only [Discovery.step] at h
    split at h
    · simp only [Option.some.injEq] at h
      subst h
      exact ⟨h1, h2, h3, h4⟩
    · exact absurd h (by simp)
  | leave k =>
    simp only [Discovery.step] at h
    split at h
    · next hw =>
      split at h
      · simp only [Option.some.injEq] at h
        subst h
        refine ⟨h1, h2, ?_, ?_⟩
        · intro x hx
          rcases mem_of_mem_set _ k _ _ hx with e | e
          · cases e
          · exact h3 x e
        · intro x hx
          rcases h4 x hx with h' | h' | h'
          · exact Or.inl h'
          · exact Or.inr (Or.inl (mem_set_of_ne _ k _ _ _ h' hw (by simp)))
          · exact Or.inr (Or.inr h')
      · exact absurd h (by simp)
    · exact absurd h (by simp)
  | closeRet =>
    simp only [Discovery.step] at h
    split at h
    · simp only [Option.some.injEq] at h
      subst h
      exact ⟨h1, h2, h3, h4⟩
    · exact absurd h (by simp)

theorem Discovery.collected_run (facts : String → Except Err IPAddresses) (uniq : List String)
    (hok : ∀ h ∈ uniq, ∃ a, facts h = .ok a)
    (moves : List Move) (d d' : Discovery) (hd : d.collected facts uniq)
    (h : Discovery.run facts d moves = some d') : d'.collected facts uniq := by
  induction moves generalizing d with
  | nil =>
    simp only [Discovery.run, Option.some.injEq] at h
    subst h
    exact hd
  | cons m ms ih =>
    simp only [Discovery.run, Option.bind_eq_some] at h
    obtain ⟨d1, h1, h2⟩ := h
    exact ih d1 (Discovery.collected_step facts uniq hok d d1 m hd h1) h2

theorem getHosts_ok_spec (names : List String) (list m : GoMap Host)
    (h : getHosts names list = .ok m) :
    (∀ n, m.has n = true ↔ n ∈ names) ∧ ∀ n ∈ names, m.get? n = list.get? n := by
  have hall : ∀ n ∈ names, list.has n = true := by
    intro n hn
    cases hh : list.has n with
    | true => rfl
    | false =>
      obtain ⟨e, he⟩ := (getHosts_error_iff names list).2 ⟨n, hn, hh⟩
      rw [he] at h
      cases h
  obtain ⟨m', hm', hspec⟩ := getHosts_ok names list hall
  rw [hm'] at h
  cases h
  exact hspec

theorem discovery_result_ok (facts : String → Except Err IPAddresses) (n : Nat)
    (uniq : List String) (moves : List Move) (d : Discovery) (servers clients : List String)
    (hok : ∀ h ∈ uniq, ∃ a, facts h = .ok a) (hs : ∀ h ∈ servers, h ∈ uniq)
    (hc : ∀ h ∈ clients, h ∈ uniq)
    (hrun : Discovery.run facts (Discovery.start n uniq) moves = some d)
    (hret : d.retClosed = true) :
    ∃ hosts, d.result servers clients = some (.ok hosts) ∧
      (∀ x, hosts.Servers.has x = true ↔ x ∈ servers) ∧
      (∀ x, hosts.Clients.has x = true ↔ x ∈ clients) ∧
      (∀ x ∈ servers, ∃ a, facts x = .ok a ∧
        hosts.Servers.get? x = some { Name := x, Labels := [], Addresses := some a }) ∧
      (∀ x ∈ clients, ∃ a, facts x = .ok a ∧
        hosts.Clients.get? x = some { Name := x, Labels := [], Addresses := some a }) := by
  obtain ⟨s1, s2, _⟩ :=
    Discovery.sound_run facts uniq moves _ d (Discovery.sound_start facts n uniq) hrun
  obtain ⟨c1, _, c3, c4⟩ :=
    Discovery.collected_run facts uniq hok moves _ d (Discovery.collected_start facts n uniq) hrun
  obtain ⟨hin, hw⟩ := s2 hret
  have hstored : ∀ x ∈ uniq, ∃ a, facts x = .ok a ∧
      d.hosts.get? x = some { Name := x, Labels := [], Addresses := some a } := by
    intro x hx
    rcases c4 x hx with h' | h' | h'
    · rw [s1 hin] at h'
      cases h'
    · have := hw _ h'
      cases this
    · exact h'
  have hhas : ∀ x ∈ uniq, d.hosts.has x = true := by
    intro x hx
    obtain ⟨a, _, hg⟩ := hstored x hx
    exact has_of_get? _ _ _ hg
  obtain ⟨sm, hsm, hs1, hs2⟩ := getHosts_ok servers d.hosts (fun x hx => hhas x (hs x hx))
  obtain ⟨cm, hcm, hc1, hc2⟩ := getHosts_ok clients d.hosts (fun x hx => hhas x (hc x hx))
  refine ⟨{ Servers := sm, Clients := cm }, ?_, hs1, hc1, ?_, ?_⟩
  · simp only [Discovery.result, hret, if_true, c1, List.length_nil, gt_iff_lt, Nat.lt_irrefl,
      if_false, hsm, hcm]
  · intro x hx
    obtain ⟨a, ha, hg⟩ := hstored x (hs x hx)
    exact ⟨a, ha, by rw [hs2 x hx, hg]⟩
  · intro x hx
    obtain ⟨a, ha, hg⟩ := hstored x (hc x hx)
    exact ⟨a, ha, by rw [hc2 x hx, hg]⟩

/-! ### The discovery comes to its end -/

theorem weight_set (l : List Worker) (k : Nat) (y z : Worker) (hk : l[k]? = some y) :
    ((l.set k z).map Worker.weight).sum + y.weight = (l.map Worker.weight).sum + z.weight := by
  induction l generalizing k with
  | nil => simp at hk
  | cons a l ih =>
    cases k with
    | zero =>
      simp only [List.getElem?_cons_zero, Option.some.injEq] at hk
      subst hk
      simp only [List.set_cons_zero, List.map_cons, List.sum_cons]
      omega
    | succ k =>
      simp only [List.getElem?_cons_succ] at hk
      have := ih k hk
      simp only [List.set_cons_succ, List.map_cons, List.sum_cons]
      omega

theorem Discovery.measure_step (facts : String → Except Err IPAddresses) (d d' : Discovery)
    (m : Move) (h : d.step facts m = some d') : d'.measure < d.measure := by
  cases m with
  | handOver k =>
    simp only [Discovery.step] at h
    split at h
    · next host rest hts hw =>
      split at h
      · exact absurd h (by simp)
      · simp only [Option.some.injEq] at h
        subst h
        have := weight_set d.workers k _ (Worker.got host) hw
        simp only [Discovery.measure, hts, List.length_cons, Worker.weight] at this ⊢
        omega
    · exact absurd h (by simp)
  | report k =>
    simp only [Discovery.step] at h
    split at h
    · next host hw =>
      split at h
      · exact absurd h (by simp)
      · split at h
        · simp only [Option.some.injEq] at h
          subst h
          have := weight_set d.workers k _ Worker.exited hw
          simp only [Discovery.measure, Worker.weight] at this ⊢
          omega
        · simp only [Option.some.injEq] at h
          subst h
          have := weight_set d.workers k _ Worker.waiting hw
          simp only [Discovery.measure, Worker.weight] at this ⊢
          omega
    · exact absurd h (by simp)
  | closeIn =>
    simp only [Discovery.step] at h
    split at h
    · next hc =>
      simp only [Option.some.injEq] at h
      subst h
      simp only [Discovery.measure, hc.2, Bool.false_eq_true, if_false, if_true]
      omega
    · exact absurd h (by simp)
  | leave k =>
    simp only [Discovery.step] at h
    split at h
    · next hw =>
      split at h
      · simp only [Option.some.injEq] at h
        subst h
        have := weight_set d.workers k _ Worker.exited hw
        simp only [Discovery.measure, Worker.weight] at this ⊢
        omega
      · exact absurd h (by simp)
    · exact absurd h (by simp)
  | closeRet =>
    simp only [Discovery.step] at h
    split at h
    · next hc =>
      simp only [Option.some.injEq] at h
      subst h
      simp only [Discovery.measure, hc.2.1, Bool.false_eq_true, if_false, if_true]
      omega
    · exact absurd h (by simp)

theorem Discovery.run_length (facts : String → Except Err IPAddresses) (moves : List Move)
    (d d' : Discovery) (h : Discovery.run facts d moves = some d') :
    moves.length + d'.measure ≤ d.measure := by
  induction moves generalizing d with
  | nil =>
    simp only [Discovery.run, Option.some.injEq] at h
    subst h
    simp
  | cons m ms ih =>
    simp only [Discovery.run, Option.bind_eq_some] at h
    obtain ⟨d1, h1, h2⟩ := h
    have := ih d1 h2
    have := Discovery.measure_step facts d d1 m h1
    simp only [List.length_cons]
    omega

theorem weight_replicate (n : Nat) :
    ((List.replicate n Worker.waiting).map Worker.weight).sum = n := by
  induction n with
  | zero => rfl
  | succ n ih =>
    simp only [List.replicate_succ, List.map_cons, List.sum_cons, ih, Worker.weight]
    omega

theorem Discovery.measure_start (n : Nat) (uniq : List String) :
    (Discovery.start n uniq).measure = 2 * uniq.length + n + 2 := by
  simp only [Discovery.measure, Discovery.start, weight_replicate, Bool.false_eq_true, if_false]

theorem Discovery.run_append (facts : String → Except Err IPAddresses) (a b : List Move)
    (d : Discovery) :
    Discovery.run facts d (a ++ b) =
      (Discovery.run facts d a).bind (fun d' => Discovery.run facts d' b) := by
  induction a generalizing d with
  | nil => rfl
  | cons m ms ih =>
    simp only [List.cons_append, Discovery.run]
    cases d.step facts m with
    | none => rfl
    | some d1 => exact ih d1

theorem Discovery.alive_start (n : Nat) (uniq : List String) (hn : 0 < n ∨ uniq = []) :
    (Discovery.start n uniq).alive n := by
  refine ⟨by simp [Discovery.start], fun _ hx => ?_, fun h0 => ?_⟩
  · simp only [Discovery.start] at hx
    have := List.eq_of_mem_replicate hx
    cases this
  · rcases hn with hn | hn
    · omega
    · exact hn

theorem Discovery.alive_step (facts : String → Except Err IPAddresses) (uniq : List String)
    (hok : ∀ h ∈ uniq, ∃ a, facts h = .ok a) (n : Nat)
    (d d' : Discovery) (m : Move) (hc : d.collected facts uniq) (hd : d.alive n)
    (h : d.step facts m = some d') : d'.alive n := by
  obtain ⟨hlen, hex, hts0⟩ := hd
  obtain ⟨_, _, c3, _⟩ := hc
  cases m with
  | handOver k =>
    simp only [Discovery.step] at h
    split at h
    · next host rest hts hw =>
      split at h
      · exact absurd h (by simp)
      · simp only [Option.some.injEq] at h
        subst h
        refine ⟨by simpa using hlen, fun hin hx => ?_, fun h0 => ?_⟩
        · rcases mem_of_mem_set _ k _ _ hx with e | e
          · cases e
          · exact hex hin e
        · rw [hts0 h0] at hts
          cases hts
    · exact absurd h (by simp)
  | report k =>
    simp only [Discovery.step] at h
    split at h
    · next host hw =>
      have hu : host ∈ uniq := c3 host (List.getElem?_mem hw)
      split at h
      · exact absurd h (by simp)
      · split at h
        · next err hf =>
          obtain ⟨a, ha⟩ := hok host hu
          rw [ha] at hf
          cases hf
        · simp only [Option.some.injEq] at h
          subst h
          refine ⟨by simpa using hlen, fun hin hx => ?_, hts0⟩
          rcases mem_of_mem_set _ k _ _ hx with e | e
          · cases e
          · exact hex hin e
    · exact absurd h (by simp)
  | closeIn =>
    simp only [Discovery.step] at h
    split at h
    · simp only [Option.some.injEq] at h
      subst h
      exact ⟨hlen, fun hin => absurd hin (by simp), hts0⟩
    · exact absurd h (by simp)
  | leave k =>
    simp only [Discovery.step] at h
    split at h
    · split at h
      · next hcond =>
        simp only [Option.some.injEq] at h
        subst h
        refine ⟨by simpa using hlen, fun hin => ?_, hts0⟩
        rw [hcond.1] at hin
        cases hin
      · exact absurd h (by simp)
    · exact absurd h (by simp)
  | closeRet =>
    simp only [Discovery.step] at h
    split at h
    · next hcond =>
      simp only [Option.some.injEq] at h
      subst h
      refine ⟨hlen, fun hin => ?_, hts0⟩
      rw [hcond.1] at hin
      cases hin
    · exact absurd h (by simp)

theorem Discovery.alive_run (facts : String → Except Err IPAddresses) (uniq : List String)
    (hok : ∀ h ∈ uniq, ∃ a, facts h = .ok a) (n : Nat)
    (moves : List Move) (d d' : Discovery) (hc : d.collected facts uniq) (hd : d.alive n)
    (h : Discovery.run facts d moves = some d') : d'.alive n := by
  induction moves generalizing d with
  | nil =>
    simp only [Discovery.run, Option.some.injEq] at h
    subst h
    exact hd
  | cons m ms ih =>
    simp only [Discovery.run, Option.bind_eq_some] at h
    obtain ⟨d1, h1, h2⟩ := h
    exact ih d1 (Discovery.collected_step facts uniq hok d d1 m hc h1)
      (Discovery.alive_step facts uniq hok n d d1 m hc hd h1) h2

/-- No deadlock: when the facts of every host can be retrieved and there is a
worker for every host to send, a move is possible as long as `retCh` is
open. -/
theorem Discovery.progress (facts : String → Except Err IPAddresses) (uniq : List String)
    (hok : ∀ h ∈ uniq, ∃ a, facts h = .ok a) (n : Nat) (d : Discovery)
    (hc : d.collected facts uniq) (ha : d.alive n)
    (hret : d.retClosed = false) : ∃ m d', d.step facts m = some d' := by
  obtain ⟨hlen, hex, hts0⟩ := ha
  obtain ⟨_, _, c3, _⟩ := hc
  by_cases hg : ∃ h, Worker.got h ∈ d.workers
  · obtain ⟨h, hh⟩ := hg
    obtain ⟨k, hk⟩ := List.mem_iff_getElem?.1 hh
    obtain ⟨a, hfa⟩ := hok h (c3 h hh)
    exact ⟨Move.report k, _, by simp only [Discovery.step, hk, hret, hfa]; rfl⟩
  · cases hin : d.inClosed with
    | false =>
      cases hts : d.toSend with
      | nil => exact ⟨Move.closeIn, _, by simp only [Discovery.step, hts, hin]; rfl⟩
      | cons host rest =>
        have h0 : 0 < d.workers.length := by
          rcases Nat.eq_zero_or_pos n with e | e
          · rw [hts0 e] at hts
            cases hts
          · omega
        obtain ⟨w, hw⟩ : ∃ w, d.workers[0]? = some w :=
          ⟨d.workers[0], List.getElem?_eq_getElem h0⟩
        have hmem : w ∈ d.workers := List.getElem?_mem hw
        cases w with
        | waiting =>
          exact ⟨Move.handOver 0, _, by simp only [Discovery.step, hts, hw, hin]; rfl⟩
        | got h => exact absurd ⟨h, hmem⟩ hg
        | exited => exact absurd hmem (hex hin)
    | true =>
      by_cases hw : Worker.waiting ∈ d.workers
      · obtain ⟨k, hk⟩ := List.mem_iff_getElem?.1 hw
        exact ⟨Move.leave k, _, by simp only [Discovery.step, hk, hin, hret]; rfl⟩
      · have hall : d.workers.all (fun w => w == Worker.exited) = true := by
          rw [List.all_eq_true]
          intro w hwm
          cases w with
          | waiting => exact absurd hwm hw
          | got h => exact absurd ⟨h, hwm⟩ hg
          | exited => rfl
        exact ⟨Move.closeRet, _, by simp only [Discovery.step, hin, hret, hall]; rfl⟩

/-- From every state the discovery can reach when the facts of every host can
be retrieved, some moves close `retCh`. -/
theorem Discovery.completes (facts : String → Except Err IPAddresses) (uniq : List String)
    (hok : ∀ h ∈ uniq, ∃ a, facts h = .ok a) (n : Nat) :
    ∀ (bound : Nat) (d : Discovery), d.measure ≤ bound →
      d.collected facts uniq → d.alive n →
      ∃ moves d', Discovery.run facts d moves = some d' ∧ d'.retClosed = true := by
  intro bound
  induction bound with
  | zero =>
    intro d hm hc ha
    cases hret : d.retClosed with
    | true => exact ⟨[], d, rfl, hret⟩
    | false =>
      simp only [Discovery.measure, hret, Bool.false_eq_true, if_false] at hm
      omega
  | succ bound ih =>
    intro d hm hc ha
    cases hret : d.retClosed with
    | true => exact ⟨[], d, rfl, hret⟩
    | false =>
      obtain ⟨m, d1, h1⟩ := Discovery.progress facts uniq hok n d hc ha hret
      have hlt := Discovery.measure_step facts d d1 m h1
      obtain ⟨moves, d', hrun, hd'⟩ := ih d1 (by omega)
        (Discovery.collected_step facts uniq hok d d1 m hc h1)
        (Discovery.alive_step facts uniq hok n d d1 m hc ha h1)
      exact ⟨m :: moves, d', by simp only [Discovery.run, h1, Option.some_bind, hrun], hd'⟩

/-- Without a worker and with a host to send, no move is possible: the feeder
blocks on `inCh`. -/
theorem Discovery.no_worker_stuck (facts : String → Except Err IPAddresses) (host : String)
    (rest : List String) (m : Move) :
    (Discovery.start 0 (host :: rest)).step facts m = none := by
  cases m <;> simp [Discovery.step, Discovery.start]

theorem Discovery.no_worker_run (facts : String → Except Err IPAddresses) (host : String)
    (rest : List String) (moves : List Move) (d : Discovery)
    (h : Discovery.run facts (Discovery.start 0 (host :: rest)) moves = some d) :
    moves = [] ∧ d = Discovery.start 0 (host :: rest) := by
  cases moves with
  | nil =>
    simp only [Discovery.run, Option.some.injEq] at h
    exact ⟨rfl, h.symm⟩
  | cons m ms =>
    simp only [Discovery.run, Discovery.no_worker_stuck, Option.none_bind] at h
    cases h

/-- When the facts of every host can be retrieved and there is a worker for
every host to send, every run of the discovery can be continued until `retCh`
is closed, and then `GetHostsForTest` returns the hosts of the two groups. -/
theorem discovery_returns (facts : String → Except Err IPAddresses) (n : Nat)
    (uniq : List String) (servers clients : List String)
    (hn : 0 < n ∨ uniq = [])
    (hok : ∀ h ∈ uniq, ∃ a, facts h = .ok a) (hs : ∀ h ∈ servers, h ∈ uniq)
    (hc : ∀ h ∈ clients, h ∈ uniq) (moves : List Move) (d : Discovery)
    (hrun : Discovery.run facts (Discovery.start n uniq) moves = some d) :
    moves.length ≤ 2 * uniq.length + n + 2 ∧
    (d.retClosed = false → ∃ m d', d.step facts m = some d') ∧
    ∃ more d' hosts, Discovery.run facts (Discovery.start n uniq) (moves ++ more) = some d' ∧
      d'.retClosed = true ∧ d'.result servers clients = some (.ok hosts) ∧
      (∀ x, hosts.Servers.has x = true ↔ x ∈ servers) ∧
      (∀ x, hosts.Clients.has x = true ↔ x ∈ clients) ∧
      (∀ x ∈ servers, ∃ a, facts x = .ok a ∧
        hosts.Servers.get? x = some { Name := x, Labels := [], Addresses := some a }) ∧
      (∀ x ∈ clients, ∃ a, facts x = .ok a ∧
        hosts.Clients.get? x = some { Name := x, Labels := [], Addresses := some a }) := by
  have hcol := Discovery.collected_run facts uniq hok moves _ d
    (Discovery.collected_start facts n uniq) hrun
  have hal := Discovery.alive_run facts uniq hok n moves _ d
    (Discovery.collected_start facts n uniq) (Discovery.alive_start n uniq hn) hrun
  refine ⟨?_, Discovery.progress facts uniq hok n d hcol hal, ?_⟩
  · have := Discovery.run_length facts moves _ d hrun
    rw [Discovery.measure_start] at this
    omega
  · obtain ⟨more, d', hmore, hret⟩ :=
      Discovery.completes facts uniq hok n d.measure d (Nat.le_refl _) hcol hal
    have hall : Discovery.run facts (Discovery.start n uniq) (moves ++ more) = some d' := by
      rw [Discovery.run_append, hrun, Option.some_bind, hmore]
    obtain ⟨hosts, hres⟩ :=
      discovery_result_ok facts n uniq (moves ++ more) d' servers clients hok hs hc hall hret
    exact ⟨more, d', hosts, hall, hret, hres⟩

/-- C23: `getHosts` returns an error exactly when one of the names is not a
key of the list, and otherwise a map whose keys are the names and whose entry
for a name is the entry of the list.  When the facts of every host can be
retrieved and the loop over `retCh` has ended, `GetHostsForTest` returns hosts
whose `Servers` have exactly the names of the server group as keys and whose
`Clients` exactly the names of the client group, each name mapping to the host
stored under it by the worker: that name, no labels, the addresses retrieved
for it.  The first part is a complete discovery of three hosts by two
workers.

The loop over `retCh` does end.  With `n` workers started, `n` at least one
(or no host at all to look up), and the facts of every host retrieved,
whatever moves the goroutines have made: they have made at most
`2 * uniq.length + n + 2` of them, a further move is possible as long as
`retCh` is open, and some further moves close `retCh`, after which
`GetHostsForTest` returns the hosts described above.  Hence every schedule of
the goroutines ends the loop.  Only with no worker started and a host to look
up does the function not return: no move is possible, the feeder blocks on
`inCh`. -/
theorem ansible_hosts_keyed_by_group :
    (∃ d hosts, Discovery.run factsOk (Discovery.start 2 ["server4", "server1", "server2"])
        movesTwoWorkers = some d ∧ d.retClosed = true ∧
      d.result ["server4"] ["server1", "server2"] = some (.ok hosts) ∧
      hosts.Servers.map Prod.fst = ["server4"] ∧
      hosts.Clients.map Prod.fst = ["server1", "server2"]) ∧
    (∀ (names : List String) (list : GoMap Host),
      (∃ e, getHosts names list = .error e) ↔ ∃ n ∈ names, list.has n = false) ∧
    (∀ (names : List String) (list m : GoMap Host), getHosts names list = .ok m →
      (∀ n, m.has n = true ↔ n ∈ names) ∧ ∀ n ∈ names, m.get? n = list.get? n) ∧
    (∀ (facts : String → Except Err IPAddresses) (n : Nat) (uniq : List String)
      (moves : List Move) (d : Discovery) (servers clients : List String),
      (∀ h ∈ uniq, ∃ a, facts h = .ok a) → (∀ h ∈ servers, h ∈ uniq) →
      (∀ h ∈ clients, h ∈ uniq) →
      Discovery.run facts (Discovery.start n uniq) moves = some d → d.retClosed = true →
      ∃ hosts, d.result servers clients = some (.ok hosts) ∧
        (∀ x, hosts.Servers.has x = true ↔ x ∈ servers) ∧
        (∀ x, hosts.Clients.has x = true ↔ x ∈ clients) ∧
        (∀ x ∈ servers, ∃ a, facts x = .ok a ∧
          hosts.Servers.get? x = some { Name := x, Labels := [], Addresses := some a }) ∧
        (∀ x ∈ clients, ∃ a, facts x = .ok a ∧
          hosts.Clients.get? x = some { Name := x, Labels := [], Addresses := some a })) ∧
    (∀ (facts : String → Except Err IPAddresses) (n : Nat) (uniq : List String)
      (servers clients : List String),
      (0 < n ∨ uniq = []) → (∀ h ∈ uniq, ∃ a, facts h = .ok a) → (∀ h ∈ servers, h ∈ uniq) →
      (∀ h ∈ clients, h ∈ uniq) →
      ∀ (moves : List Move) (d : Discovery),
      Discovery.run facts (Discovery.start n uniq) moves = some d →
      moves.length ≤ 2 * uniq.length + n + 2 ∧
      (d.retClosed = false → ∃ m d', d.step facts m = some d') ∧
      ∃ more d' hosts,
        Discovery.run facts (Discovery.start n uniq) (moves ++ more) = some d' ∧
        d'.retClosed = true ∧ d'.result servers clients = some (.ok hosts) ∧
        (∀ x, hosts.Servers.has x = true ↔ x ∈ servers) ∧
        (∀ x, hosts.Clients.has x = true ↔ x ∈ clients) ∧
        (∀ x ∈ servers, ∃ a, facts x = .ok a ∧
          hosts.Servers.get? x = some { Name := x, Labels := [], Addresses := some a }) ∧
        (∀ x ∈ clients, ∃ a, facts x = .ok a ∧
          hosts.Clients.get? x = some { Name := x, Labels := [], Addresses := some a })) ∧
    (∀ (facts : String → Except Err IPAddresses) (host : String) (rest servers clients :
        List String) (moves : List Move) (d : Discovery),
      Discovery.run facts (Discovery.start 0 (host :: rest)) moves = some d →
      moves = [] ∧ d.retClosed = false ∧ d.result servers clients = none ∧
        ∀ m, d.step facts m = none) := by
  refine ⟨⟨_, _, rfl, rfl, rfl, rfl, rfl⟩, getHosts_error_iff, getHosts_ok_spec, ?_, ?_, ?_⟩
  · intro facts n uniq moves d servers clients hok hs hc hrun hret
    exact discovery_result_ok facts n uniq moves d servers clients hok hs hc hrun hret
  · intro facts n uniq servers clients hn hok hs hc moves d hrun
    exact discovery_returns facts n uniq servers clients hn hok hs hc moves d hrun
  · intro facts host rest servers clients moves d hrun
    obtain ⟨hm, hd⟩ := Discovery.no_worker_run facts host rest moves d hrun
    subst hd
    exact ⟨hm, rfl, rfl, Discovery.no_worker_stuck facts host rest⟩

/-! ### Host selection of the Kubernetes runner -/

theorem get?_addOnce (hosts : GoMap Host) (host : Host) (name : String) :
    (if !hosts.has host.Name then hosts.set host.Name host else hosts).get? name =
      match hosts.get? name with
      | some v => some v
      | none => if host.Name = name then some host else none := by
  by_cases hh : hosts.has host.Name = true
  · simp only [hh, Bool.not_true, Bool.false_eq_true, if_false]
    by_cases e : host.Name = name
    · subst e
      obtain ⟨v, hv⟩ := get?_isSome_of_has hosts _ hh
      rw [hv]
    · rw [if_neg e]
      cases hosts.get? name <;> rfl
  · simp only [Bool.not_eq_true] at hh
    simp only [hh, Bool.not_false, if_true, get?_set]
    by_cases e : host.Name = name
    · subst e
      rw [if_pos rfl, get?_eq_none_of_has hosts _ hh, if_pos rfl]
    · have e' : ¬ name = host.Name := fun z => e z.symm
      rw [if_neg e', if_neg e]
      cases hosts.get? name <;> rfl

theorem get?_addFiltered (filtered : List Host) (hosts : GoMap Host) (name : String) :
    (addFiltered hosts filtered).get? name =
      match hosts.get? name with
      | some v => some v
      | none => filtered.find? (fun h => h.Name == name) := by
  induction filtered generalizing hosts with
  | nil =>
    simp only [addFiltered, List.find?_nil]
    cases hosts.get? name <;> rfl
  | cons host rest ih =>
    simp only [addFiltered]
    rw [ih, get?_addOnce]
    cases hosts.get? name with
    | some v => rfl
    | none =>
      by_cases e : host.Name = name
      · have hb : (host.Name == name) = true := by simpa using e
        simp only [List.find?_cons, hb, if_pos e]
      · have hb : (host.Name == name) = false := by simpa using e
        simp only [List.find?_cons, hb, if_neg e]

theorem selectHosts_ok (filter : HostsFilter) (k8sNodes : List Host) (sels : List ConfigHosts)
    (call : Nat) (hosts : GoMap Host) (h : allSelect filter k8sNodes call sels) :
    ∃ m, Kubernetes.selectHosts filter k8sNodes call sels hosts = .ok m ∧
      ∀ name, m.get? name =
        match hosts.get? name with
        | some v => some v
        | none => (selectedHosts filter k8sNodes call sels).find? (fun h => h.Name == name) := by
  induction sels generalizing call hosts with
  | nil =>
    refine ⟨hosts, rfl, fun name => ?_⟩
    simp only [selectedHosts, List.find?_nil]
    cases hosts.get? name <;> rfl
  | cons sel rest ih =>
    obtain ⟨filtered, hf⟩ := h 0 sel (by simp)
    rw [Nat.add_zero] at hf
    have hrest : allSelect filter k8sNodes (call + 1) rest := by
      intro i s hs
      have := h (i + 1) s (by simpa using hs)
      rwa [show call + (i + 1) = call + 1 + i by omega] at this
    obtain ⟨m, hm, hget⟩ := ih (call + 1) (addFiltered hosts filtered) hrest
    refine ⟨m, by simp only [Kubernetes.selectHosts, hf, hm], fun name => ?_⟩
    rw [hget name, get?_addFiltered]
    simp only [selectedHosts, hf, List.find?_append]
    cases hosts.get? name with
    | some v => rfl
    | none =>
      cases filtered.find? (fun h => h.Name == name) <;> rfl

theorem selectHosts_error (filter : HostsFilter) (k8sNodes : List Host)
    (sels : List ConfigHosts) (call : Nat) (hosts : GoMap Host) (err : Err)
    (h : selectFails filter k8sNodes call sels err) :
    ∃ e, Kubernetes.selectHosts filter k8sNodes call sels hosts = .error e ∧
      selectFails filter k8sNodes call sels e := by
  induction sels generalizing call hosts with
  | nil =>
    obtain ⟨i, sel, hs, _⟩ := h
    simp at hs
  | cons sel rest ih =>
    cases hf : filter call k8sNodes sel with
    | error e =>
      exact ⟨e, by simp only [Kubernetes.selectHosts, hf], 0, sel, by simp, by rw [Nat.add_zero, hf]⟩
    | ok filtered =>
      obtain ⟨i, s, hs, hfail⟩ := h
      cases i with
      | zero =>
        simp only [List.getElem?_cons_zero, Option.some.injEq] at hs
        subst hs
        rw [Nat.add_zero, hf] at hfail
        cases hfail
      | succ i =>
        have hr : selectFails filter k8sNodes (call + 1) rest err :=
          ⟨i, s, by simpa using hs, by rwa [show call + 1 + i = call + (i + 1) by omega]⟩
        obtain ⟨e, he, j, s', hs', hfail'⟩ := ih (call + 1) (addFiltered hosts filtered) hr
        refine ⟨e, by simp only [Kubernetes.selectHosts, hf, he], j + 1, s', by simpa using hs',
          ?_⟩
        rwa [show call + (j + 1) = call + 1 + j by omega]

theorem selectHosts_error_inv (filter : HostsFilter) (k8sNodes : List Host)
    (sels : List ConfigHosts) (call : Nat) (hosts : GoMap Host) (e : Err)
    (h : Kubernetes.selectHosts filter k8sNodes call sels hosts = .error e) :
    selectFails filter k8sNodes call sels e := by
  induction sels generalizing call hosts with
  | nil => simp [Kubernetes.selectHosts] at h
  | cons sel rest ih =>
    simp only [Kubernetes.selectHosts] at h
    cases hf : filter call k8sNodes sel with
    | error e' =>
      rw [hf] at h
      simp only [Except.error.injEq] at h
      subst h
      exact ⟨0, sel, by simp, by rw [Nat.add_zero, hf]⟩
    | ok filtered =>
      rw [hf] at h
      obtain ⟨j, s', hs', hfail⟩ := ih (call + 1) _ h
      exact ⟨j + 1, s', by simpa using hs', by rwa [show call + (j + 1) = call + 1 + j by omega]⟩

theorem find?_name_spec (l : List Host) (name : String) :
    (∀ v, l.find? (fun h => h.Name == name) = some v → v.Name = name ∧ v ∈ l) ∧
    ((∃ v, l.find? (fun h => h.Name == name) = some v) ↔ ∃ h ∈ l, h.Name = name) := by
  constructor
  · intro v hv
    exact ⟨by simpa using List.find?_some hv, List.mem_of_find?_eq_some hv⟩
  · constructor
    · rintro ⟨v, hv⟩
      exact ⟨v, List.mem_of_find?_eq_some hv, by simpa using List.find?_some hv⟩
    · rintro ⟨h, hl, hn⟩
      cases hf : l.find? (fun h => h.Name == name) with
      | some v => exact ⟨v, rfl⟩
      | none =>
        rw [List.find?_eq_none] at hf
        exact absurd (by simpa using hn) (hf h hl)

theorem has_iff_get? {V : Type} (m : GoMap V) (k : String) :
    m.has k = true ↔ ∃ v, m.get? k = some v :=
  ⟨get?_isSome_of_has m k, fun ⟨v, hv⟩ => has_of_get? m k v hv⟩

/-- C22: `GetHostsForTest` of the Kubernetes runner, on the nodes of the
cluster.  Without selectors it returns no servers, no clients and no error.
When every call of the filter succeeds it returns hosts in which the entry of
a name, among the servers and among the clients, is the first host of that
name that the selectors of that side pick: so the keys are the names of the
hosts picked by at least one selector, every key maps to a host of that name,
and the first pick wins.  When a call of the filter fails for a selector, the
call returns the error of a failing selector and no hosts.  The first part is
the run of `TestGetHostsForTest` on three nodes. -/
theorem kubernetes_hosts_selected :
    ((∃ hosts, Kubernetes.GetHostsForTest (.ok nodes3) filterFirst
        { Clients := [selAll], Servers := [selAll, selOne] } = .ok hosts ∧
      hosts.Servers.map Prod.fst = ["node-0", "node-1", "node-2"] ∧
      hosts.Clients.map Prod.fst = ["node-0", "node-1", "node-2"]) ∧
     (∃ hosts, Kubernetes.GetHostsForTest (.ok nodes3) filterFirst
        { Clients := [selAll], Servers := [selOne] } = .ok hosts ∧
      hosts.Servers.map Prod.fst = ["node-0"])) ∧
    (∀ (nodes : List Host) (filter : HostsFilter),
      Kubernetes.GetHostsForTest (.ok nodes) filter { Clients := [], Servers := [] } =
        .ok { Clients := [], Servers := [] }) ∧
    (∀ (nodes : List Host) (filter : HostsFilter) (th : TestHosts),
      allSelect filter nodes 0 th.Servers → allSelect filter nodes th.Servers.length th.Clients →
      ∃ hosts, Kubernetes.GetHostsForTest (.ok nodes) filter th = .ok hosts ∧
        (∀ name, hosts.Servers.get? name =
          (selectedHosts filter nodes 0 th.Servers).find? (fun h => h.Name == name)) ∧
        (∀ name, hosts.Clients.get? name =
          (selectedHosts filter nodes th.Servers.length th.Clients).find?
            (fun h => h.Name == name)) ∧
        (∀ name, hosts.Servers.has name = true ↔
          ∃ h ∈ selectedHosts filter nodes 0 th.Servers, h.Name = name) ∧
        (∀ name, hosts.Clients.has name = true ↔
          ∃ h ∈ selectedHosts filter nodes th.Servers.length th.Clients, h.Name = name) ∧
        (∀ name v, hosts.Servers.get? name = some v → v.Name = name) ∧
        (∀ name v, hosts.Clients.get? name = some v → v.Name = name)) ∧
    (∀ (nodes : List Host) (filter : HostsFilter) (th : TestHosts) (err : Err),
      selectFails filter nodes 0 th.Servers err ∨
        selectFails filter nodes th.Servers.length th.Clients err →
      ∃ e, Kubernetes.GetHostsForTest (.ok nodes) filter th = .error e ∧
        (selectFails filter nodes 0 th.Servers e ∨
          selectFails filter nodes th.Servers.length th.Clients e)) := by
  refine ⟨⟨⟨_, rfl, rfl, rfl⟩, ⟨_, rfl, rfl⟩⟩, fun _ _ => rfl, ?_, ?_⟩
  · intro nodes filter th hs hc
    obtain ⟨sm, hsm, hsget⟩ := selectHosts_ok filter nodes th.Servers 0 [] hs
    obtain ⟨cm, hcm, hcget⟩ := selectHosts_ok filter nodes th.Clients th.Servers.length [] hc
    have hs' : ∀ name, sm.get? name =
        (selectedHosts filter nodes 0 th.Servers).find? (fun h => h.Name == name) :=
      fun name => by rw [hsget name]; rfl
    have hc' : ∀ name, cm.get? name =
        (selectedHosts filter nodes th.Servers.length th.Clients).find?
          (fun h => h.Name == name) :=
      fun name => by rw [hcget name]; rfl
    refine ⟨{ Clients := cm, Servers := sm }, ?_, hs', hc', ?_, ?_, ?_, ?_⟩
    · simp only [Kubernetes.GetHostsForTest, hsm, hcm]
    · intro name
      rw [has_iff_get?]
      simp only [hs' name]
      exact (find?_name_spec _ name).2
    · intro name
      rw [has_iff_get?]
      simp only [hc' name]
      exact (find?_name_spec _ name).2
    · intro name v hv
      rw [hs' name] at hv
      exact ((find?_name_spec _ name).1 v hv).1
    · intro name v hv
      rw [hc' name] at hv
      exact ((find?_name_spec _ name).1 v hv).1
  · intro nodes filter th err h
    cases hsel : Kubernetes.selectHosts filter nodes 0 th.Servers [] with
    | error e =>
      exact ⟨e, by simp only [Kubernetes.GetHostsForTest, hsel],
        Or.inl (selectHosts_error_inv filter nodes th.Servers 0 [] e hsel)⟩
    | ok sm =>
      rcases h with h | h
      · obtain ⟨e, he, _⟩ := selectHosts_error filter nodes th.Servers 0 [] err h
        rw [he] at hsel
        cases hsel
      · obtain ⟨e, he, hfail⟩ :=
          selectHosts_error filter nodes th.Clients th.Servers.length [] err h
        exact ⟨e, by simp only [Kubernetes.GetHostsForTest, hsel, he], Or.inr hfail⟩

/-! ### The server address in the client command -/

theorem not_mem_of_not_client (e : Event) (es : List Event) (he : e.isClient = true)
    (hes : ∀ x ∈ es, x.isClient = false) : e ∉ es := by
  intro h
  rw [hes e h] at he
  cases he

theorem Ansible.clientRun_exec (a : Ansible) (w : AnsibleWorld) (round idx : Nat)
    (serverHost : String) (vars : Variables) (plannedTime : Int) (tester : String) (j : Nat)
    (task : Task) (host : Host) (h : String) (args : List String) (out : Bytes)
    (err : Option Err)
    (he : Event.execClient h args out err ∈
      a.clientRun w round idx serverHost vars plannedTime tester j task host) :
    (Template w.render task vars).2 = none ∧ h = host.Name ∧
      args = shellArgs a host.Name ((Template w.render task vars).1.Command ++ " " ++
        " ".intercalate (Template w.render task vars).1.Args) := by
  unfold Ansible.clientRun at he
  cases hT : Template w.render task vars with
  | mk t e =>
    rw [hT] at he
    cases e with
    | some e' => simp at he
    | none =>
      simp only [List.mem_cons, reduceCtorEq, false_or] at he
      rcases he with he | he
      · simp only [Event.execClient.injEq] at he
        exact ⟨rfl, he.1, he.2.1⟩
      · split at he <;> simp at he

theorem Ansible.clientRuns_exec (a : Ansible) (w : AnsibleWorld) (round idx : Nat)
    (serverHost : String) (vars : Variables) (plannedTime : Int) (tester : String)
    (tasks : List Task) (j : Nat) (runs : List (List Event)) (h : String) (args : List String)
    (out : Bytes) (err : Option Err)
    (hr : a.clientRuns w round idx serverHost vars plannedTime tester j tasks = some runs)
    (he : Event.execClient h args out err ∈ runs.flatten) :
    ∃ task ∈ tasks, ∃ host, task.Host = some host ∧
      (Template w.render task vars).2 = none ∧ h = host.Name ∧
      args = shellArgs a host.Name ((Template w.render task vars).1.Command ++ " " ++
        " ".intercalate (Template w.render task vars).1.Args) := by
  induction tasks generalizing j runs with
  | nil =>
    simp only [Ansible.clientRuns, Option.some.injEq] at hr
    subst hr
    simp at he
  | cons task tasks ih =>
    simp only [Ansible.clientRuns] at hr
    split at hr
    · exact absurd hr (by simp)
    · next host hH =>
      simp only [Option.map_eq_some'] at hr
      obtain ⟨rest, hrest, rfl⟩ := hr
      simp only [List.flatten_cons, List.mem_append] at he
      rcases he with he | he
      · exact ⟨task, List.mem_cons_self _ _, host, hH,
          Ansible.clientRun_exec a w round idx serverHost vars plannedTime tester j task host
            h args out err he⟩
      · obtain ⟨t, ht, rest'⟩ := ih (j + 1) rest hrest he
        exact ⟨t, List.mem_cons_of_mem _ ht, rest'⟩

theorem Ansible.runTasks_clientRuns (a : Ansible) (w : AnsibleWorld) (round idx : Nat)
    (mainTask : Task) (plannedTime : Int) (tester : String) (r : RunResult) (e : Event)
    (hr : a.runTasks w round idx mainTask plannedTime tester = some r)
    (he : e ∈ r.events) (hc : e.isClient = true) :
    ∃ host addrs runs, mainTask.Host = some host ∧ host.Addresses = some addrs ∧
      Ansible.clientRuns a w round idx host.Name
        { ServerPort := 5601, ServerAddressV4 := addrs.IPv4.head?.getD "",
          ServerAddressV6 := addrs.IPv6.head?.getD "" }
        plannedTime tester 0 mainTask.SubTasks = some runs ∧
      e ∈ runs.flatten := by
  unfold Ansible.runTasks at hr
  split at hr
  · next host status hH hS =>
    split at hr
    · exact absurd hr (by simp)
    · next addrs hA =>
      refine ⟨host, addrs, ?_⟩
      simp only at hr
      split at hr
      · next t err hT =>
        simp only [Option.some.injEq] at hr
        subst hr
        simp only [List.mem_singleton] at he
        subst he
        cases hc
      · next mainTask' hT =>
        have hsub : mainTask'.SubTasks = mainTask.SubTasks := by
          have := Template_SubTasks w.render mainTask
            { ServerPort := 5601, ServerAddressV4 := addrs.IPv4.head?.getD "",
              ServerAddressV6 := addrs.IPv6.head?.getD "" }
          rw [hT] at this
          exact this
        split at hr
        · next hready =>
          split at hr
          · exact absurd hr (by simp)
          · next runs hruns =>
            simp only [Option.some.injEq] at hr
            subst hr
            rw [hsub] at hruns
            refine ⟨runs, hH, hA, hruns, ?_⟩
            simp only [List.mem_append, List.mem_cons, List.mem_singleton,
              List.not_mem_nil, or_false] at he
            rcases he with (((he | he) | he) | he) | he
            · rcases he with he | he
              · subst he; cases hc
              · exact absurd he (not_mem_of_not_client e _ hc (serverEarly_not_client _ _))
            · exact absurd he (not_mem_of_not_client e _ hc
                (probeLoop_not_client _ _ _ _ _ _ _ _))
            · split at he
              · exact he
              · exact (interleave_perm _ _).mem_iff.1 he
            · rcases he with he | he <;> subst he <;> cases hc
            · exact absurd he (not_mem_of_not_client e _ hc (serverLate_not_client _ _ _))
        · next hready =>
          simp only [Option.some.injEq] at hr
          subst hr
          simp only [List.mem_append, List.mem_cons, List.mem_singleton,
            List.not_mem_nil, or_false] at he
          rcases he with ((he | he) | he) | he
          · rcases he with he | he
            · subst he; cases hc
            · exact absurd he (not_mem_of_not_client e _ hc (serverEarly_not_client _ _))
          · exact absurd he (not_mem_of_not_client e _ hc
              (probeLoop_not_client _ _ _ _ _ _ _ _))
          · rcases he with he | he <;> subst he <;> cases hc
          · exact absurd he (not_mem_of_not_client e _ hc (serverLate_not_client _ _ _))
  · exact absurd hr (by simp)

theorem defaultAddresses_head (host v4 v6 : String) (addrs : IPAddresses)
    (h : defaultAddresses host v4 v6 = .ok addrs) :
    addrs.IPv4.head?.getD "" = v4 ∧ addrs.IPv6.head?.getD "" = v6 ∧ (v4 ≠ "" ∨ v6 ≠ "") := by
  unfold defaultAddresses at h
  simp only at h
  split at h
  · cases h
  · next hne =>
    simp only [Except.ok.injEq] at h
    subst h
    refine ⟨?_, ?_, ?_⟩
    · by_cases e : v4 = "" <;> simp [e]
    · by_cases e : v6 = "" <;> simp [e]
    · by_cases e : v4 = ""
      · exact Or.inr (fun e6 => hne ⟨e, e6⟩)
      · exact Or.inl e

/-- C28 (counterexample): the server `s6` is accepted by the discovery on its
default IPv6 address alone, and the client command that `runTasks` runs for
the client `b` of the plan ends in `--client=` with no address behind it. -/
theorem ansible_client_address_empty_for_ipv6_only :
    defaultAddresses "s6" "" "2001:db8::1" = .ok { IPv4 := [], IPv6 := ["2001:db8::1"] } ∧
    ∃ p t r, IPerf3.Plan cfgPlain RangeOrder.listed envV6 (testRounds 1) = .ok p ∧
      p.Commands = [[t]] ∧ t.Host = some hostV6 ∧
      ansibleX.runTasks worldTemplates 0 0 t 1700000000 "iperf3" = some r ∧
      Event.execClient "b"
        ["--inventory=/etc/ancientt/hosts", "b", "--module-name=shell",
         "--args=iperf3 --time=10 --interval=1 --json --port=5601 --client="] "\x7b\x7d" none ∈
        r.events :=
  ⟨rfl, _, _, _, rfl, rfl, rfl, rfl, by decide⟩

/-- C28 (amended): for a server host accepted by the discovery, with the
default addresses `v4` and `v6` of its facts, every client command that
`runTasks` runs for the server task of the plan is the rendered client
command of the plan for one of the clients, and its `--client=` argument is
followed by `v4`, the default IPv4 address: by nothing when the host was
accepted on its IPv6 address alone. -/
theorem ansible_client_address_is_ipv4 (other : OtherSyntax) (a : Ansible) (w : AnsibleWorld)
    (cfg : IPerf3Config) (σ : RangeOrder) (env : Environment) (i k : Nat) (server : Host)
    (v4 v6 : String) (addrs : IPAddresses) (round idx : Nat) (plannedTime : Int)
    (tester : String) (r : RunResult)
    (hrender : w.render = templateString other)
    (hflags : ∀ f ∈ cfg.AdditionalFlags.Clients, noAction f)
    (hfacts : defaultAddresses server.Name v4 v6 = .ok addrs)
    (haddrs : server.Addresses = some addrs)
    (hr : a.runTasks w round idx (serverTaskOf cfg σ env i k server) plannedTime tester =
      some r) :
    ∀ h args out err, Event.execClient h args out err ∈ r.events →
      ∃ client ∈ env.Hosts.Clients.map Prod.snd, h = client.Name ∧
        args = shellArgs a client.Name ("iperf3 " ++ " ".intercalate
          ((buildIPerf3ClientCommand cfg server client).2.map (renderedArg v4))) ∧
        "--client=" ++ v4 ∈ (buildIPerf3ClientCommand cfg server client).2.map
          (renderedArg v4) := by
  intro h args out err he
  obtain ⟨host, addrs', runs, hH, hA, hruns, hmem⟩ :=
    Ansible.runTasks_clientRuns a w round idx _ plannedTime tester r _ hr he rfl
  rw [serverTaskOf_Host] at hH
  cases hH
  rw [haddrs] at hA
  cases hA
  obtain ⟨h4, h6, _⟩ := defaultAddresses_head _ v4 v6 addrs hfacts
  rw [h4, h6, serverTaskOf_SubTasks] at hruns
  obtain ⟨task, htask, client, hHost, _, hname, hargs⟩ :=
    Ansible.clientRuns_exec a w round idx _ _ plannedTime tester _ 0 runs h args out err hruns
      hmem
  obtain ⟨c, hc, rfl⟩ := List.mem_map.1 htask
  rw [clientTask_Host] at hHost
  cases hHost
  have hT := planned_client_rendered other cfg server c.2 v4 v6 hflags
  rw [hrender, hT] at hargs
  refine ⟨c.2, ?_, hname, hargs, ?_⟩
  · exact List.mem_map.2 ⟨c, (σ.clients_perm i k _).mem_iff.1 hc, rfl⟩
  · exact List.mem_map.2 ⟨_, (client_has_port_and_address_arg cfg server c.2).2, rfl⟩

/-- Witness for C28 (amended): the server `a` with the default IPv4 address
192.0.2.1 and the client `b`. -/
theorem ansible_client_address_is_ipv4_witness :
    worldTemplates.render = templateString (fun _ _ => .error "unsupported template syntax") ∧
    (∀ f ∈ cfgPlain.AdditionalFlags.Clients, noAction f) ∧
    defaultAddresses hostA.Name "192.0.2.1" "" = .ok { IPv4 := ["192.0.2.1"], IPv6 := [] } ∧
    hostA.Addresses = some { IPv4 := ["192.0.2.1"], IPv6 := [] } ∧
    (∃ r, ansibleX.runTasks worldTemplates 0 0
        (serverTaskOf cfgPlain RangeOrder.listed envAB 0 0 hostA) 1700000000 "iperf3" = some r ∧
      ∀ h args out err, Event.execClient h args out err ∈ r.events →
        ∃ client ∈ envAB.Hosts.Clients.map Prod.snd, h = client.Name ∧
          args = shellArgs ansibleX client.Name ("iperf3 " ++ " ".intercalate
            ((buildIPerf3ClientCommand cfgPlain hostA client).2.map
              (renderedArg "192.0.2.1"))) ∧
          "--client=" ++ "192.0.2.1" ∈ (buildIPerf3ClientCommand cfgPlain hostA client).2.map
            (renderedArg "192.0.2.1")) :=
  ⟨rfl, by simp [cfgPlain], rfl, rfl, _, rfl,
   ansible_client_address_is_ipv4 (fun _ _ => .error "unsupported template syntax") ansibleX
     worldTemplates cfgPlain RangeOrder.listed envAB 0 0 hostA "192.0.2.1" "" _ 0 0 1700000000
     "iperf3" _ rfl (by simp [cfgPlain]) rfl rfl rfl⟩

/-! ### Client subtasks in flight -/

theorem inFlight_le (es : List Event) (n x : Nat) (hx : x ∈ inFlight n es) :
    x ≤ n + es.countP Event.isLaunch := by
  induction es generalizing n with
  | nil => simp [inFlight] at hx
  | cons e es ih =>
    simp only [inFlight, List.mem_cons] at hx
    rw [List.countP_cons]
    by_cases hl : e.isLaunch = true
    · simp only [hl, if_true] at hx ⊢
      rcases hx with hx | hx
      · omega
      · have := ih _ hx
        omega
    · simp only [hl, Bool.false_eq_true, if_false] at hx ⊢
      by_cases hs : e.isClientStatus = true
      · simp only [hs, if_true] at hx
        rcases hx with hx | hx
        · omega
        · have := ih _ hx
          omega
      · simp only [hs, Bool.false_eq_true, if_false] at hx
        rcases hx with hx | hx
        · omega
        · have := ih _ hx
          omega

theorem isLaunch_not_client (e : Event) (he : e.isClient = false) : e.isLaunch = false := by
  cases e <;> first | rfl | cases he

theorem Ansible.clientRun_launch (a : Ansible) (w : AnsibleWorld) (round idx : Nat)
    (serverHost : String) (vars : Variables) (plannedTime : Int) (tester : String) (j : Nat)
    (task : Task) (host : Host) :
    (a.clientRun w round idx serverHost vars plannedTime tester j task host).countP
      Event.isLaunch = 1 := by
  unfold Ansible.clientRun
  split
  · simp [List.countP_cons, Event.isLaunch]
  · dsimp only
    split <;> simp [List.countP_cons, Event.isLaunch]

theorem Ansible.clientRuns_launch (a : Ansible) (w : AnsibleWorld) (round idx : Nat)
    (serverHost : String) (vars : Variables) (plannedTime : Int) (tester : String)
    (tasks : List Task) (j : Nat) (runs : List (List Event))
    (hr : a.clientRuns w round idx serverHost vars plannedTime tester j tasks = some runs) :
    runs.flatten.countP Event.isLaunch = tasks.length := by
  induction tasks generalizing j runs with
  | nil =>
    simp only [Ansible.clientRuns, Option.some.injEq] at hr
    subst hr
    rfl
  | cons task tasks ih =>
    simp only [Ansible.clientRuns] at hr
    split at hr
    · exact absurd hr (by simp)
    · next host hH =>
      simp only [Option.map_eq_some'] at hr
      obtain ⟨rest, hrest, rfl⟩ := hr
      rw [List.flatten_cons, List.countP_append, Ansible.clientRun_launch, ih (j + 1) rest hrest,
        List.length_cons]
      omega

theorem Kubernetes.pushLogsToParser_launch (k : Kubernetes) (w : KubernetesWorld)
    (round idx j : Nat) (plannedTime testTime : Int)
    (tester serverHost clientHost podName : String) :
    (k.pushLogsToParser w round idx j plannedTime testTime tester serverHost clientHost
      podName).1.countP Event.isLaunch = 0 := by
  unfold Kubernetes.pushLogsToParser
  dsimp only
  split
  · simp [List.countP_cons, Event.isLaunch]
  · split
    · split <;> simp [List.countP_cons, Event.isLaunch]
    · simp [List.countP_cons, Event.isLaunch]

theorem Kubernetes.clientPod_launch (k : Kubernetes) (w : KubernetesWorld) (round idx : Nat)
    (serverHost : String) (vars : Variables) (plannedTime : Int) (tester : String) (j : Nat)
    (task : Task) (host : Host) :
    (k.clientRun w round idx serverHost vars plannedTime tester j task host).countP
      Event.isLaunch = 1 := by
  have p := Kubernetes.pushLogsToParser_launch k w round idx j plannedTime
    (w.now round idx j) tester serverHost host.Name
    (w.clientPodName round host.Name task.Command plannedTime)
  unfold Kubernetes.clientRun
  dsimp only
  split
  · simp [List.countP_cons, Event.isLaunch]
  · split
    · simp [List.countP_cons, Event.isLaunch]
    · split
      · simp [List.countP_cons, Event.isLaunch]
      · split
        · simp [List.countP_cons, Event.isLaunch]
        · split
          · simp [List.countP_cons, List.countP_append, Event.isLaunch, p]
          · split <;> simp [List.countP_cons, List.countP_append, Event.isLaunch, p]

theorem Kubernetes.clientPods_launch (k : Kubernetes) (w : KubernetesWorld) (round idx : Nat)
    (serverHost : String) (vars : Variables) (plannedTime : Int) (tester : String)
    (tasks : List Task) (j : Nat) (runs : List (List Event))
    (hr : k.clientRuns w round idx serverHost vars plannedTime tester j tasks = some runs) :
    runs.flatten.countP Event.isLaunch = tasks.length := by
  induction tasks generalizing j runs with
  | nil =>
    simp only [Kubernetes.clientRuns, Option.some.injEq] at hr
    subst hr
    rfl
  | cons task tasks ih =>
    simp only [Kubernetes.clientRuns] at hr
    split at hr
    · exact absurd hr (by simp)
    · next host hH =>
      simp only [Option.map_eq_some'] at hr
      obtain ⟨rest, hrest, rfl⟩ := hr
      rw [List.flatten_cons, List.countP_append, Kubernetes.clientPod_launch,
        ih (j + 1) rest hrest, List.length_cons]
      omega

theorem Ansible.runTasks_launches (a : Ansible) (w : AnsibleWorld) (round idx : Nat)
    (mainTask : Task) (plannedTime : Int) (tester : String) (r : RunResult)
    (hr : a.runTasks w round idx mainTask plannedTime tester = some r) :
    r.events.countP Event.isLaunch ≤ mainTask.SubTasks.length := by
  obtain ⟨runs, hruns, hcount⟩ :=
    Ansible.runTasks_countP a w round idx mainTask plannedTime tester r hr
  rw [hcount Event.isLaunch isLaunch_not_client]
  rcases hruns with rfl | ⟨host, vars, _, hruns⟩
  · simp
  · rw [Ansible.clientRuns_launch a w round idx _ _ plannedTime tester _ 0 runs hruns]

theorem Kubernetes.createPodsForTasks_launches (k : Kubernetes) (w : KubernetesWorld)
    (round idx : Nat) (mainTask : Task) (plan : Plan) (r : RunResult)
    (hr : k.createPodsForTasks w round idx mainTask plan = some r) :
    r.events.countP Event.isLaunch ≤ mainTask.SubTasks.length := by
  obtain ⟨host, st, _, _, _, _, hcase⟩ :=
    Kubernetes.createPodsForTasks_cases k w round idx mainTask plan r hr
  rcases hcase with hnone | ⟨vars, runs, clients, A, B, hruns, hperm, hev, hA, hB⟩
  · rw [countP_eq_zero_of_not_client Event.isLaunch r.events isLaunch_not_client hnone]
    exact Nat.zero_le _
  · rw [hev, List.countP_append, List.countP_append,
      countP_eq_zero_of_not_client Event.isLaunch A isLaunch_not_client hA,
      countP_eq_zero_of_not_client Event.isLaunch B isLaunch_not_client hB,
      hperm.countP_eq, Kubernetes.clientPods_launch k w round idx _ _ _ _ _ 0 runs hruns]
    omega

theorem shellArgs_congr (a a' : Ansible) (hc : a'.config = a.config) (host shell : String) :
    shellArgs a' host shell = shellArgs a host shell := by
  unfold shellArgs
  rw [hc]

theorem Ansible.probeLoop_congr (a a' : Ansible) (hc : a'.config = a.config)
    (w : AnsibleWorld) (round idx : Nat) (host command : String) (n i : Nat) :
    a'.probeLoop w round idx host command n i = a.probeLoop w round idx host command n i := by
  induction n generalizing i with
  | zero => rfl
  | succ n ih => simp only [Ansible.probeLoop, shellArgs_congr a a' hc, ih]

theorem Ansible.clientRun_congr (a a' : Ansible) (hc : a'.config = a.config)
    (hi : a'.additionalInfo = a.additionalInfo) (w : AnsibleWorld) (round idx : Nat)
    (serverHost : String) (vars : Variables) (plannedTime : Int) (tester : String) (j : Nat)
    (task : Task) (host : Host) :
    a'.clientRun w round idx serverHost vars plannedTime tester j task host =
      a.clientRun w round idx serverHost vars plannedTime tester j task host := by
  simp only [Ansible.clientRun, shellArgs_congr a a' hc, hi]

theorem Ansible.clientRuns_congr (a a' : Ansible) (hc : a'.config = a.config)
    (hi : a'.additionalInfo = a.additionalInfo) (w : AnsibleWorld) (round idx : Nat)
    (serverHost : String) (vars : Variables) (plannedTime : Int) (tester : String)
    (tasks : List Task) (j : Nat) :
    a'.clientRuns w round idx serverHost vars plannedTime tester j tasks =
      a.clientRuns w round idx serverHost vars plannedTime tester j tasks := by
  induction tasks generalizing j with
  | nil => rfl
  | cons task tasks ih => simp only [Ansible.clientRuns, ih, Ansible.clientRun_congr a a' hc hi]

theorem Ansible.runTasks_congr (a a' : Ansible) (hc : a'.config = a.config)
    (hi : a'.additionalInfo = a.additionalInfo) (hm : a'.runOptions.Mode = a.runOptions.Mode)
    (w : AnsibleWorld) (round idx : Nat) (mainTask : Task) (plannedTime : Int)
    (tester : String) :
    a'.runTasks w round idx mainTask plannedTime tester =
      a.runTasks w round idx mainTask plannedTime tester := by
  simp only [Ansible.runTasks, shellArgs_congr a a' hc, Ansible.probeLoop_congr a a' hc,
    Ansible.clientRuns_congr a a' hc hi, hc, hm]

theorem Kubernetes.clientPods_congr (k k' : Kubernetes) (hc : k'.config = k.config)
    (w : KubernetesWorld) (round idx : Nat) (serverHost : String) (vars : Variables)
    (plannedTime : Int) (tester : String) (tasks : List Task) (j : Nat) :
    k'.clientRuns w round idx serverHost vars plannedTime tester j tasks =
      k.clientRuns w round idx serverHost vars plannedTime tester j tasks := by
  induction tasks generalizing j with
  | nil => rfl
  | cons task tasks ih =>
    simp only [Kubernetes.clientRuns, ih, Kubernetes.clientRun, Kubernetes.pushLogsToParser, hc]

theorem Kubernetes.createPodsForTasks_congr (k k' : Kubernetes) (hc : k'.config = k.config)
    (hm : k'.runOptions.Mode = k.runOptions.Mode) (w : KubernetesWorld) (round idx : Nat)
    (mainTask : Task) (plan : Plan) :
    k'.createPodsForTasks w round idx mainTask plan =
      k.createPodsForTasks w round idx mainTask plan := by
  simp only [Kubernetes.createPodsForTasks, Kubernetes.clientPods_congr k k' hc, hc, hm]

/-- C26 (counterexample): both runners in parallel mode with a `ParallelCount`
of one, on a server task with the two clients `b` and `c`: when the goroutines
of both clients start before either goes on, two client subtasks are in
flight at once. -/
theorem parallel_count_does_not_cap :
    ansiblePar.runOptions.ParallelCount = 1 ∧ kubePar.runOptions.ParallelCount = 1 ∧
    ansiblePar.runOptions.Mode = RunModeParallel ∧ kubePar.runOptions.Mode = RunModeParallel ∧
    taskABC.SubTasks.length = 2 ∧
    (∃ r, ansiblePar.runTasks worldOverlap 0 0 taskABC 1700000000 "iperf3" = some r ∧
      2 ∈ inFlight 0 r.events) ∧
    (∃ r, kubePar.createPodsForTasks clusterOverlap 0 0 taskABC planTwoRounds = some r ∧
      2 ∈ inFlight 0 r.events) :=
  ⟨rfl, rfl, rfl, rfl, rfl, ⟨_, rfl, by decide⟩, ⟨_, rfl, by decide⟩⟩

/-- C26 (amended): neither runner reads `ParallelCount`: with any other value
of it `runTasks` and `createPodsForTasks` do the same.  The number of client
subtasks in flight is bounded by the number of client subtasks of the server
task only, in every mode and under every schedule of the client goroutines. -/
theorem parallel_count_is_not_read :
    (∀ (a : Ansible) (p : Int) (w : AnsibleWorld) (round idx : Nat) (mainTask : Task)
      (plannedTime : Int) (tester : String),
      Ansible.runTasks { a with runOptions := { a.runOptions with ParallelCount := p } } w round
        idx mainTask plannedTime tester = a.runTasks w round idx mainTask plannedTime tester) ∧
    (∀ (k : Kubernetes) (p : Int) (w : KubernetesWorld) (round idx : Nat) (mainTask : Task)
      (plan : Plan),
      Kubernetes.createPodsForTasks
        { k with runOptions := { k.runOptions with ParallelCount := p } } w round idx mainTask
        plan = k.createPodsForTasks w round idx mainTask plan) ∧
    (∀ (a : Ansible) (w : AnsibleWorld) (round idx : Nat) (mainTask : Task)
      (plannedTime : Int) (tester : String) (r : RunResult),
      a.runTasks w round idx mainTask plannedTime tester = some r →
      ∀ x ∈ inFlight 0 r.events, x ≤ mainTask.SubTasks.length) ∧
    (∀ (k : Kubernetes) (w : KubernetesWorld) (round idx : Nat) (mainTask : Task) (plan : Plan)
      (r : RunResult), k.createPodsForTasks w round idx mainTask plan = some r →
      ∀ x ∈ inFlight 0 r.events, x ≤ mainTask.SubTasks.length) := by
  refine ⟨fun a p w round idx mainTask plannedTime tester =>
      Ansible.runTasks_congr a { a with runOptions := { a.runOptions with ParallelCount := p } }
        rfl rfl rfl w round idx mainTask plannedTime tester,
    fun k p w round idx mainTask plan =>
      Kubernetes.createPodsForTasks_congr k
        { k with runOptions := { k.runOptions with ParallelCount := p } } rfl rfl w round idx
        mainTask plan, ?_, ?_⟩
  · intro a w round idx mainTask plannedTime tester r hr x hx
    have h1 := inFlight_le r.events 0 x hx
    have h2 := Ansible.runTasks_launches a w round idx mainTask plannedTime tester r hr
    omega
  · intro k w round idx mainTask plan r hr x hx
    have h1 := inFlight_le r.events 0 x hx
    have h2 := Kubernetes.createPodsForTasks_launches k w round idx mainTask plan r hr
    omega

end Ancientt
